import Mathlib

/-!
# A shallow embedding of the Lisp interpreter `lisp.cpp`

The development follows the C++ source function by function.

* Expressions (`LispExprInterface` and its subclasses) become the inductive
  type `Expr`.  A `SymbolExpr` is interned by its upper-cased text, so a symbol
  is represented by that text and pointer equality of symbols is equality of
  texts.  `kNil` and `kTrue` are the constructors `nil` and `tru`.
* The C `float` of `NumExpr` is a type parameter `F` with its operations
  collected in the class `Runtime`; every theorem holds for every such `F`.
  Concrete runs use exact rational arithmetic (`Runtime ℚ`).
* A `LispException` is the `error` case of `Outcome`; the interpreter keeps the
  global frame as it was when the exception was thrown, so evaluation returns
  the frame next to the outcome.
* Recursion of `Evaluate` is not bounded in the source; the embedding counts
  nested `Evaluate` calls with a fuel argument and reports `outOfFuel` when it
  is used up.
* Where the behaviour of the source is undefined (the exit of the loop of the
  `COND` branch, see `EvalCond`) the embedding gives no result either: the
  outcome is `outOfFuel` for every bound, so that no theorem states a value
  there.
-/

namespace Lisp

/-! ## Expressions -/

/-- The native functions registered by `InitGlobalEnv`, one per `DefPrim`. -/
inductive PrimFun where
  | PrimPlus | PrimMinus | PrimMul | PrimDiv
  | PrimCons | PrimCar | PrimCdr
  | PrimIsNum | PrimIsSym | PrimIsList | PrimIsNil
  | PrimIsAnd | PrimIsOr | PrimIsEq
  | PrimIsEqNum | PrimIsLtNum | PrimIsGtNum
  deriving DecidableEq, Repr

/-- `enum class ExprKind`. -/
inductive ExprKind where
  | Function | Num | Nil | Pair | Primitive | String | Symbol | True
  deriving DecidableEq, Repr

/-- The expression classes: `NumExpr`, `StrExpr`, `SymbolExpr`, `NilExpr`,
`TrueExpr`, `PairExpr`, `FunExpr` (parameters, body, optional name) and
`PrimExpr` (native function and printed name). -/
inductive Expr (F : Type) where
  | num (val : F)
  | str (s : String)
  | sym (s : String)
  | nil
  | tru
  | pair (first second : Expr F)
  | fn (params : List String) (body : Expr F) (name : Option String)
  | prim (impl : PrimFun) (name : String)
  deriving DecidableEq, Repr

/-! ## What the embedding takes from the C++ runtime -/

/-- The operations the interpreter uses on the C type `float` of `NumExpr`,
and the comparison of two object addresses. -/
class Runtime (F : Type) where
  /-- the literal `0` -/
  zero : F
  /-- the literal `1` -/
  one : F
  add : F → F → F
  sub : F → F → F
  mul : F → F → F
  div : F → F → F
  neg : F → F
  /-- the comparison `a == b` of two floats -/
  eq : F → F → Bool
  /-- the comparison `a < b` of two floats -/
  lt : F → F → Bool
  /-- the comparison `a > b` of two floats -/
  gt : F → F → Bool
  /-- the function `std::stof`; `none` when it throws (value out of range) -/
  stof : String → Option F
  /-- the output operator `ostream << float` -/
  render : F → String
  /-- whether two objects allocated with `new` (a `NumExpr`, `StrExpr`,
  `PairExpr` or `FunExpr`) are at the same address; this is not determined by
  their contents -/
  sameObject : Expr F → Expr F → Bool

variable {F : Type}

/-- `LispExprInterface::Type`. -/
def Expr.Type : Expr F → ExprKind
  | .num _ => .Num
  | .str _ => .String
  | .sym _ => .Symbol
  | .nil => .Nil
  | .tru => .True
  | .pair _ _ => .Pair
  | .fn _ _ _ => .Function
  | .prim _ _ => .Primitive

/-- `PairExpr::First`; the source only calls it on a `PairExpr`. -/
def Expr.First : Expr F → Expr F
  | .pair a _ => a
  | _ => .nil

/-- `PairExpr::Second`; the source only calls it on a `PairExpr`. -/
def Expr.Second : Expr F → Expr F
  | .pair _ b => b
  | _ => .nil

/-- The double quote character. -/
def dquote : Char := Char.ofNat 34

/-- The single quote character. -/
def squote : Char := Char.ofNat 39

/-- The `ToString` methods of the classes other than `PairExpr`. -/
def Expr.atomToString [Runtime F] : Expr F → String
  | .num val => Runtime.render val
  | .str s => String.singleton dquote ++ s ++ String.singleton dquote
  | .sym s => s
  | .nil => "()"
  | .tru => "T"
  | .pair _ _ => ""
  | .fn _ _ none => "<procedure>"
  | .fn _ _ (some n) => "<procedure:" ++ n ++ ">"
  | .prim _ name => name

mutual
/-- `LispExprInterface::ToString`; for a `PairExpr` the opening parenthesis,
the first element, the rest of the loop and the closing parenthesis. -/
def Expr.ToString [Runtime F] : Expr F → String
  | .pair a b => "(" ++ Expr.ToString a ++ Expr.ToStringRest b ++ ")"
  | .num val => Expr.atomToString (.num val : Expr F)
  | .str s => Expr.atomToString (.str s : Expr F)
  | .sym s => Expr.atomToString (.sym s : Expr F)
  | .nil => Expr.atomToString (.nil : Expr F)
  | .tru => Expr.atomToString (.tru : Expr F)
  | .fn ps b n => Expr.atomToString (.fn ps b n : Expr F)
  | .prim f n => Expr.atomToString (.prim f n : Expr F)
/-- What the `for (;;)` loop of `PairExpr::ToString` writes after the first
element of a pair whose `second_` is the argument. -/
def Expr.ToStringRest [Runtime F] : Expr F → String
  | .pair c d => " " ++ Expr.ToString c ++ Expr.ToStringRest d
  | .nil => ""
  | .num val => " . " ++ Expr.atomToString (.num val : Expr F)
  | .str s => " . " ++ Expr.atomToString (.str s : Expr F)
  | .sym s => " . " ++ Expr.atomToString (.sym s : Expr F)
  | .tru => " . " ++ Expr.atomToString (.tru : Expr F)
  | .fn ps b n => " . " ++ Expr.atomToString (.fn ps b n : Expr F)
  | .prim f n => " . " ++ Expr.atomToString (.prim f n : Expr F)
end

/-! ## Outcomes -/

deriving instance DecidableEq for Except

/-- The result of a call that may throw: a value, a `LispException` with its
message, or (in the embedding only) no result: the fuel is used up, or the
behaviour of the source is undefined at the point reached. -/
inductive Outcome (α : Type) where
  | ok (v : α)
  | error (msg : String)
  | outOfFuel
  deriving DecidableEq, Repr

/-- A call that cannot run out of fuel, as an `Outcome`. -/
def Outcome.ofExcept {α : Type} : Except String α → Outcome α
  | .ok v => .ok v
  | .error m => .error m

/-! ## Environments -/

/-- The member `table_` of `Env`, an `unordered_map` from symbols to
expressions: an association list with at most one entry for a key. -/
abbrev Table (F : Type) := List (String × Expr F)

/-- The lookup `table_.find(s)`. -/
def Table.find : Table F → String → Option (Expr F)
  | [], _ => none
  | (k, v) :: rest, s => if k = s then some v else Table.find rest s

/-- `Env::define`, the assignment `table_[s] = e`. -/
def Env.define : Table F → String → Expr F → Table F
  | [], s, e => [(s, e)]
  | (k, v) :: rest, s, e =>
    if k = s then (k, e) :: rest else (k, v) :: Env.define rest s e

/-- `Env::lookup` from the innermost call frame: the frames of the enclosing
calls, linked by `next_`, and at the end of the chain the global frame. -/
def Env.lookup : List (Table F) → Table F → String → Option (Expr F)
  | [], g, s => Table.find g s
  | t :: next, g, s =>
    match Table.find t s with
    | some e => some e
    | none => Env.lookup next g s

/-! ## Primitives -/

/-- `AssertArgsNum`. -/
def AssertArgsNum (name : String) (args : List (Expr F)) (n : Nat) :
    Except String Unit :=
  if args.length = n then .ok () else .error (name ++ ": Wrong number of arguments.")

/-- `NumCast`, followed by `Val()`. -/
def NumCast [Runtime F] : Expr F → Except String F
  | .num val => .ok val
  | e => .error ("Not a number: " ++ e.ToString)

/-- `SymbolCast`; the result is the text of the symbol. -/
def SymbolCast [Runtime F] : Expr F → Except String String
  | .sym s => .ok s
  | e => .error ("Not a symbol: " ++ e.ToString)

/-- `PairCast`; the result is the two members of the pair. -/
def PairCast [Runtime F] : Expr F → Except String (Expr F × Expr F)
  | .pair a b => .ok (a, b)
  | e => .error ("Not a pair: " ++ e.ToString)

/-- The loop `for (auto e: args) acc += NumCast(e)->Val()` of `PrimPlus`. -/
def PrimPlus.loop [Runtime F] : F → List (Expr F) → Except String F
  | acc, [] => .ok acc
  | acc, e :: rest =>
    match NumCast e with
    | .ok v => PrimPlus.loop (Runtime.add acc v) rest
    | .error m => .error m

/-- `PrimPlus`. -/
def PrimPlus [Runtime F] (args : List (Expr F)) : Except String (Expr F) :=
  match PrimPlus.loop Runtime.zero args with
  | .ok acc => .ok (.num acc)
  | .error m => .error m

/-- The loop `acc -= NumCast(args[i])->Val()` of `PrimMinus`. -/
def PrimMinus.loop [Runtime F] : F → List (Expr F) → Except String F
  | acc, [] => .ok acc
  | acc, e :: rest =>
    match NumCast e with
    | .ok v => PrimMinus.loop (Runtime.sub acc v) rest
    | .error m => .error m

/-- `PrimMinus`. -/
def PrimMinus [Runtime F] : List (Expr F) → Except String (Expr F)
  | [] => .error "-: Expects at least one argument."
  | e :: rest =>
    match NumCast e with
    | .error m => .error m
    | .ok acc =>
      match rest with
      | [] => .ok (.num (Runtime.neg acc))
      | _ :: _ =>
        match PrimMinus.loop acc rest with
        | .ok r => .ok (.num r)
        | .error m => .error m

/-- The loop `acc *= NumCast(e)->Val()` of `PrimMul`. -/
def PrimMul.loop [Runtime F] : F → List (Expr F) → Except String F
  | acc, [] => .ok acc
  | acc, e :: rest =>
    match NumCast e with
    | .ok v => PrimMul.loop (Runtime.mul acc v) rest
    | .error m => .error m

/-- `PrimMul`. -/
def PrimMul [Runtime F] (args : List (Expr F)) : Except String (Expr F) :=
  match PrimMul.loop Runtime.one args with
  | .ok acc => .ok (.num acc)
  | .error m => .error m

/-- `Div`: the test `d == 0.0`, then the quotient. -/
def Div [Runtime F] (n d : F) : Except String F :=
  if Runtime.eq d Runtime.zero then .error "/: Division by zero."
  else .ok (Runtime.div n d)

/-- The loop `acc = Div(acc, NumCast(args[i])->Val())` of `PrimDiv`. -/
def PrimDiv.loop [Runtime F] : F → List (Expr F) → Except String F
  | acc, [] => .ok acc
  | acc, e :: rest =>
    match NumCast e with
    | .error m => .error m
    | .ok v =>
      match Div acc v with
      | .ok q => PrimDiv.loop q rest
      | .error m => .error m

/-- `PrimDiv`. -/
def PrimDiv [Runtime F] : List (Expr F) → Except String (Expr F)
  | [] => .error "/: Expects at least one argument."
  | e :: rest =>
    match NumCast e with
    | .error m => .error m
    | .ok acc =>
      match rest with
      | [] =>
        match Div Runtime.one acc with
        | .ok q => .ok (.num q)
        | .error m => .error m
      | _ :: _ =>
        match PrimDiv.loop acc rest with
        | .ok r => .ok (.num r)
        | .error m => .error m

/-- `PrimCons`. -/
def PrimCons (args : List (Expr F)) : Except String (Expr F) :=
  match AssertArgsNum "CONS" args 2 with
  | .error m => .error m
  | .ok _ => .ok (.pair (args.getD 0 .nil) (args.getD 1 .nil))

/-- `PrimCar`. -/
def PrimCar [Runtime F] (args : List (Expr F)) : Except String (Expr F) :=
  match AssertArgsNum "CAR" args 1 with
  | .error m => .error m
  | .ok _ =>
    match PairCast (args.getD 0 .nil) with
    | .ok p => .ok p.1
    | .error m => .error m

/-- `PrimCdr`. -/
def PrimCdr [Runtime F] (args : List (Expr F)) : Except String (Expr F) :=
  match AssertArgsNum "CDR" args 1 with
  | .error m => .error m
  | .ok _ =>
    match PairCast (args.getD 0 .nil) with
    | .ok p => .ok p.2
    | .error m => .error m

/-- `IsType`. -/
def IsType (name : String) (args : List (Expr F)) (kind : ExprKind) :
    Except String (Expr F) :=
  match AssertArgsNum name args 1 with
  | .error m => .error m
  | .ok _ => if (args.getD 0 .nil).Type = kind then .ok .tru else .ok .nil

/-- `PrimIsNum`. -/
def PrimIsNum (args : List (Expr F)) : Except String (Expr F) :=
  IsType "NUMBER?" args .Num

/-- `PrimIsSym`. -/
def PrimIsSym (args : List (Expr F)) : Except String (Expr F) :=
  IsType "SYMBOL?" args .Symbol

/-- `PrimIsList`. -/
def PrimIsList (args : List (Expr F)) : Except String (Expr F) :=
  IsType "LIST?" args .Pair

/-- `PrimIsNil`. -/
def PrimIsNil (args : List (Expr F)) : Except String (Expr F) :=
  IsType "NIL?" args .Nil

/-- `PrimIsAnd`. -/
def PrimIsAnd (args : List (Expr F)) : Except String (Expr F) :=
  match AssertArgsNum "AND?" args 2 with
  | .error m => .error m
  | .ok _ =>
    if (args.getD 0 .nil).Type ≠ .Nil ∧ (args.getD 1 .nil).Type ≠ .Nil then .ok .tru
    else .ok .nil

/-- `PrimIsOr`. -/
def PrimIsOr (args : List (Expr F)) : Except String (Expr F) :=
  match AssertArgsNum "OR?" args 2 with
  | .error m => .error m
  | .ok _ =>
    if (args.getD 0 .nil).Type = .Nil ∧ (args.getD 1 .nil).Type = .Nil then .ok .nil
    else .ok .tru

/-- The pointer comparison `args[0] == args[1]` of `PrimIsEq`, for two
expressions of one kind.  `kNil`, `kTrue`, an interned symbol and the
`PrimExpr` of a name each exist once, so there the addresses are equal exactly
when the values are; for the other kinds see `Runtime.sameObject`. -/
def Expr.samePointer [Runtime F] : Expr F → Expr F → Bool
  | .nil, .nil => true
  | .tru, .tru => true
  | .sym s, .sym t => s == t
  | .prim _ n, .prim _ m => n == m
  | a, b => Runtime.sameObject a b

/-- The comparison `NumCast(args[0])->Val() == NumCast(args[1])->Val()` where
both arguments are known to be numbers, as in `PrimIsEq`. -/
def Expr.sameNum [Runtime F] : Expr F → Expr F → Bool
  | .num x, .num y => Runtime.eq x y
  | _, _ => false

/-- `PrimIsEq`. -/
def PrimIsEq [Runtime F] (args : List (Expr F)) : Except String (Expr F) :=
  match AssertArgsNum "EQ?" args 2 with
  | .error m => .error m
  | .ok _ =>
    let a := args.getD 0 .nil
    let b := args.getD 1 .nil
    if a.Type = b.Type ∧ ((a.Type = .Num ∧ Expr.sameNum a b = true) ∨ Expr.samePointer a b = true)
    then .ok .tru else .ok .nil

/-- The two casts of a numeric comparison, the left operand first, and the
comparison `cmp` of the two values. -/
def numCompare [Runtime F] (cmp : F → F → Bool) (args : List (Expr F)) :
    Except String (Expr F) :=
  match NumCast (args.getD 0 .nil) with
  | .error m => .error m
  | .ok x =>
    match NumCast (args.getD 1 .nil) with
    | .error m => .error m
    | .ok y => if cmp x y then .ok .tru else .ok .nil

/-- `PrimIsEqNum`. -/
def PrimIsEqNum [Runtime F] (args : List (Expr F)) : Except String (Expr F) :=
  match AssertArgsNum "=" args 2 with
  | .error m => .error m
  | .ok _ => numCompare Runtime.eq args

/-- `PrimIsLtNum`. -/
def PrimIsLtNum [Runtime F] (args : List (Expr F)) : Except String (Expr F) :=
  match AssertArgsNum "<" args 2 with
  | .error m => .error m
  | .ok _ => numCompare Runtime.lt args

/-- `PrimIsGtNum`. -/
def PrimIsGtNum [Runtime F] (args : List (Expr F)) : Except String (Expr F) :=
  match AssertArgsNum ">" args 2 with
  | .error m => .error m
  | .ok _ => numCompare Runtime.gt args

/-- The call `fn(args)` through the function pointer of a `PrimExpr`. -/
def PrimFun.call [Runtime F] : PrimFun → List (Expr F) → Except String (Expr F)
  | .PrimPlus => Lisp.PrimPlus
  | .PrimMinus => Lisp.PrimMinus
  | .PrimMul => Lisp.PrimMul
  | .PrimDiv => Lisp.PrimDiv
  | .PrimCons => Lisp.PrimCons
  | .PrimCar => Lisp.PrimCar
  | .PrimCdr => Lisp.PrimCdr
  | .PrimIsNum => Lisp.PrimIsNum
  | .PrimIsSym => Lisp.PrimIsSym
  | .PrimIsList => Lisp.PrimIsList
  | .PrimIsNil => Lisp.PrimIsNil
  | .PrimIsAnd => Lisp.PrimIsAnd
  | .PrimIsOr => Lisp.PrimIsOr
  | .PrimIsEq => Lisp.PrimIsEq
  | .PrimIsEqNum => Lisp.PrimIsEqNum
  | .PrimIsLtNum => Lisp.PrimIsLtNum
  | .PrimIsGtNum => Lisp.PrimIsGtNum

/-! ## Symbols -/

/-- `SymbolExpr::GetInstance`: the symbol of a text is the symbol of the text
with every character in upper case (`toupper`); the embedding names a symbol by
that text, so the result is the argument of `Expr.sym`. -/
def SymbolExpr.GetInstance (sym : String) : String :=
  String.mk (sym.data.map Char.toUpper)

/-- `DefPrim`. -/
def DefPrim (g : Table F) (name : String) (fn : PrimFun) : Table F :=
  Env.define g (SymbolExpr.GetInstance name) (.prim fn ("<primitive:" ++ name ++ ">"))

/-- The calls `DefPrim(name, fn)` of `InitGlobalEnv`, in their order. -/
def primitives : List (String × PrimFun) :=
  [("+", .PrimPlus), ("-", .PrimMinus), ("*", .PrimMul), ("/", .PrimDiv),
   ("CONS", .PrimCons), ("CAR", .PrimCar), ("CDR", .PrimCdr),
   ("NUMBER?", .PrimIsNum), ("SYMBOL?", .PrimIsSym), ("LIST?", .PrimIsList),
   ("NIL?", .PrimIsNil), ("AND?", .PrimIsAnd), ("OR?", .PrimIsOr), ("EQ?", .PrimIsEq),
   ("=", .PrimIsEqNum), ("<", .PrimIsLtNum), (">", .PrimIsGtNum)]

/-- `InitGlobalEnv`, from the empty global frame: the global frame of a new
interpreter. -/
def InitGlobalEnv : Table F :=
  primitives.foldl (fun g p => DefPrim g p.1 p.2) []

/-! ## Tokenizer -/

/-- `enum class TokenKind`. -/
inductive TokenKind where
  | BeginParenthesis | EndParenthesis | Nil | Num | String | Symbol | Quote | True
  deriving DecidableEq, Repr

/-- `struct LispToken`. -/
structure LispToken where
  kind : TokenKind
  value : String
  deriving DecidableEq, Repr

/-- The C function `isspace` in the C locale: space, and `\t \n \v \f \r`. -/
def isspace (c : Char) : Bool :=
  c.toNat == 32 || (9 ≤ c.toNat && c.toNat ≤ 13)

/-- The C function `isdigit`. -/
def isdigit (c : Char) : Bool :=
  48 ≤ c.toNat && c.toNat ≤ 57

/-- `IsSeparator`. -/
def IsSeparator (c : Char) : Bool :=
  isspace c || c == '(' || c == ')' || c == dquote || c == squote

/-- The `while (++i < endPos)` loop of `IsNumber` on the characters that are
left, with the flag `hasDot`. -/
def IsNumber.loop : Bool → List Char → Bool
  | _, [] => true
  | hasDot, c :: cs =>
    if isdigit c then IsNumber.loop hasDot cs
    else if c == '.' && !hasDot then IsNumber.loop true cs
    else false

/-- `IsNumber` on the characters `s[startPos] .. s[endPos - 1]`; the source
calls it with `startPos < endPos`. -/
def IsNumber : List Char → Bool
  | [] => false
  | c :: cs =>
    if !isdigit c && !(c == '-' && (match cs with | d :: _ => isdigit d | [] => false))
    then false
    else IsNumber.loop false cs

/-- The `default` case of the switch in `GenerateTokens`: the token made from
the run of characters `value`. -/
def classify (value : List Char) : LispToken :=
  if IsNumber value then ⟨.Num, String.mk value⟩
  else if String.mk value = "t" ∨ String.mk value = "T" then ⟨.True, String.mk value⟩
  else ⟨.Symbol, String.mk value⟩

/-- The `while (i < s.length())` loop of `GenerateTokens` on the characters
from position `i` on.  Every round advances `i`, so the first argument, which
bounds the number of rounds, is never used up when it starts at the length. -/
def GenerateTokens.loop : Nat → List Char → Except String (List LispToken)
  | 0, _ => .ok []
  | _ + 1, [] => .ok []
  | n + 1, c :: rest =>
    if isspace c then GenerateTokens.loop n rest
    else if c = dquote then
      match rest.span (fun d => d != dquote) with
      | (_, []) => .error "Unmatched string quote."
      | (body, _ :: after) =>
        match GenerateTokens.loop n after with
        | .ok ts => .ok (⟨.String, String.mk body⟩ :: ts)
        | .error m => .error m
    else if c = '(' then
      match rest with
      | ')' :: after =>
        match GenerateTokens.loop n after with
        | .ok ts => .ok (⟨.Nil, ""⟩ :: ts)
        | .error m => .error m
      | _ =>
        match GenerateTokens.loop n rest with
        | .ok ts => .ok (⟨.BeginParenthesis, "("⟩ :: ts)
        | .error m => .error m
    else if c = ')' then
      match GenerateTokens.loop n rest with
      | .ok ts => .ok (⟨.EndParenthesis, ")"⟩ :: ts)
      | .error m => .error m
    else if c = squote then
      match GenerateTokens.loop n rest with
      | .ok ts => .ok (⟨.Quote, String.singleton squote⟩ :: ts)
      | .error m => .error m
    else
      match (c :: rest).span (fun d => !IsSeparator d) with
      | (value, after) =>
        match GenerateTokens.loop n after with
        | .ok ts => .ok (classify value :: ts)
        | .error m => .error m

/-- `GenerateTokens`. -/
def GenerateTokens (s : String) : Except String (List LispToken) :=
  GenerateTokens.loop s.data.length s.data

/-! ## Parser

The cursor into the token vector is the list of the tokens from the cursor
on.  The first argument bounds the depth of nested calls. -/

mutual
/-- `ParsePair`. -/
def ParsePair [Runtime F] : Nat → List LispToken → Outcome (Expr F × List LispToken)
  | 0, _ => .outOfFuel
  | n + 1, tokens =>
    match ParseExpr n tokens with
    | .outOfFuel => .outOfFuel
    | .error m => .error m
    | .ok (_, []) => .error "Missing closing ')'."
    | .ok (e, t :: rest) =>
      if t.kind = .EndParenthesis then .ok (.pair e .nil, rest)
      else
        match ParsePair n (t :: rest) with
        | .ok (p, rest2) => .ok (.pair e p, rest2)
        | .error m => .error m
        | .outOfFuel => .outOfFuel
/-- `ParseQuote`. -/
def ParseQuote [Runtime F] : Nat → List LispToken → Outcome (Expr F × List LispToken)
  | 0, _ => .outOfFuel
  | n + 1, tokens =>
    match ParseExpr n tokens with
    | .ok (e, rest) =>
      .ok (.pair (.sym (SymbolExpr.GetInstance "QUOTE")) (.pair e .nil), rest)
    | .error m => .error m
    | .outOfFuel => .outOfFuel
/-- `ParseExpr`. -/
def ParseExpr [Runtime F] : Nat → List LispToken → Outcome (Expr F × List LispToken)
  | 0, _ => .outOfFuel
  | _ + 1, [] => .error "Unexpected end of the input."
  | n + 1, t :: rest =>
    match t.kind with
    | .Num =>
      match (Runtime.stof t.value : Option F) with
      | some val => .ok (.num val, rest)
      | none => .error "stof"
    | .String => .ok (.str t.value, rest)
    | .Nil => .ok (.nil, rest)
    | .Symbol => .ok (.sym (SymbolExpr.GetInstance t.value), rest)
    | .BeginParenthesis => ParsePair n rest
    | .True => .ok (.tru, rest)
    | .Quote => ParseQuote n rest
    | .EndParenthesis => .error ("Unexpected kind: " ++ t.value)
end

/-- The `while (cursor < tokens.size())` loop of `Parse`; `fuel` is handed to
every `ParseExpr` and bounds the number of rounds. -/
def Parse.loop [Runtime F] (fuel : Nat) : Nat → List LispToken → Outcome (List (Expr F))
  | 0, _ => .outOfFuel
  | _ + 1, [] => .ok []
  | n + 1, t :: rest =>
    match ParseExpr fuel (t :: rest) with
    | .ok (e, rest2) =>
      match Parse.loop fuel n rest2 with
      | .ok es => .ok (e :: es)
      | .error m => .error m
      | .outOfFuel => .outOfFuel
    | .error m => .error m
    | .outOfFuel => .outOfFuel

/-- `Parse`, started at cursor 0.  A call of `ParseExpr` or `ParsePair` nests
at most two calls for every token, and every round of the loop takes a token. -/
def Parse [Runtime F] (tokens : List LispToken) : Outcome (List (Expr F)) :=
  Parse.loop (2 * tokens.length + 2) (tokens.length + 1) tokens

/-! ## Evaluator

`Evaluate` is called with the current environment: the frames of the active
calls (a new `Env newenv(&env)` for every `Apply` of a `FunExpr`, innermost
first) and, at the end of the chain, the member `global_env_`.  Only
`global_env_` is written after a frame has been filled, so a call returns the
outcome together with the global frame it leaves behind. -/

/-- An outcome and the global frame after the call. -/
abbrev Result (F : Type) (α : Type) := Outcome α × Table F

/-- Sequencing of two calls: the second runs when the first returns a value,
from the global frame the first has left. -/
def Result.bind {α β : Type} (r : Result F α) (k : α → Table F → Result F β) :
    Result F β :=
  match r with
  | (.ok v, g) => k v g
  | (.error m, g) => (.error m, g)
  | (.outOfFuel, g) => (.outOfFuel, g)

/-- A call that throws or returns without touching the global frame. -/
def Result.lift {α : Type} (x : Except String α) (g : Table F) : Result F α :=
  (Outcome.ofExcept x, g)

/-- The type of `Evaluate`: expression, call frames, global frame. -/
abbrev Evaluator (F : Type) :=
  Expr F → List (Table F) → Table F → Result F (Expr F)

/-- `StartsWith`. -/
def StartsWith (p : Expr F) (s : String) : Bool :=
  match p.First with
  | .sym t => t == s
  | _ => false

/-- The `while` loop of `IsList`, at `p->Second()` with the current `len`. -/
def IsList.loop : Expr F → Nat → Bool × Nat
  | .pair _ b, len => IsList.loop b (len + 1)
  | .nil, len => (true, len)
  | _, len => (false, len)

/-- `IsList`: the returned flag and the value left in `len`. -/
def IsList (p : Expr F) : Bool × Nat :=
  IsList.loop p.Second 1

/-- `AssertList`. -/
def AssertList [Runtime F] (p : Expr F) (n : Nat) : Except String Unit :=
  if (IsList p).1 = true ∧ (IsList p).2 = n then .ok () else .error p.ToString

/-- `Nth`. -/
def Nth : Expr F → Nat → Expr F
  | p, 0 => p.First
  | p, n + 1 => Nth p.Second n

/-- `FunParams`; the failing `PairCast` is written out in the last case. -/
def FunParams [Runtime F] : Expr F → Except String (List String)
  | .nil => .ok []
  | .pair a b =>
    match SymbolCast a with
    | .error m => .error m
    | .ok s =>
      match FunParams b with
      | .ok ps => .ok (s :: ps)
      | .error m => .error m
  | e => .error ("Not a pair: " ++ e.ToString)

/-- The loop `newenv.define(params[i], args[i])` of `Apply`. -/
def bindParams : List String → List (Expr F) → Table F → Table F
  | p :: ps, a :: as, t => bindParams ps as (Env.define t p a)
  | _, _, t => t

/-- `Apply`; `ev` is `Evaluate`. -/
def Apply [Runtime F] (ev : Evaluator F) (e : Expr F) (args : List (Expr F))
    (env : List (Table F)) (g : Table F) : Result F (Expr F) :=
  match e with
  | .prim fn _ => Result.lift (fn.call args) g
  | .fn params body name =>
    if args.length ≠ params.length then
      (.error ((match name with | none => "<procedure>" | some n => n)
        ++ ": given " ++ toString args.length ++ " arguments instead of "
        ++ toString params.length ++ "."), g)
    else ev body (bindParams params args [] :: env) g
  | e => (.error ("Not a procedure: " ++ e.ToString), g)

/-- The `for (;;)` loop of the `COND` branch of `EvalList`, at the value
`p->Second()` that its first statement assigns to `p`; `ev` is `Evaluate`.
`EvalList` has checked that the list is proper and of odd length, so the
second case, and the third at anything but `kNil`, are not reached.

The third case at `kNil` is the exit of the loop, when no test has matched:
there the statement `p = static_cast<const PairExpr *>(p->Second())` has cast
`kNil`, a `NilExpr`, to `const PairExpr *`, and the test
`p->Type() == ExprKind::Nil` before the `break` is a virtual call through that
pointer.  The behaviour of the source is undefined there (the `return (kNil)`
after the loop is reached only through it), so the embedding gives no result:
`outOfFuel`, for every bound. -/
def EvalCond (ev : Evaluator F) : Expr F → List (Table F) → Table F → Result F (Expr F)
  | .pair test (.pair result rest), env, g =>
    Result.bind (ev test env g) fun e g1 =>
      if e.Type ≠ .Nil then ev result env g1 else EvalCond ev rest env g1
  | .pair test other, env, g =>
    Result.bind (ev test env g) fun e g1 =>
      if e.Type ≠ .Nil then ev other.First env g1 else (.ok .nil, g1)
  | _, _, g => (.outOfFuel, g)

/-- The `while` loop of the `APPLY` branch of `EvalList`; the failing
`PairCast` is written out in the last case. -/
def listArgs [Runtime F] : Expr F → Except String (List (Expr F))
  | .nil => .ok []
  | .pair a b =>
    match listArgs b with
    | .ok as => .ok (a :: as)
    | .error m => .error m
  | e => .error ("Not a pair: " ++ e.ToString)

/-- The `for` loop of the application branch of `EvalList`, at
`e = p->Second()`; the failing `PairCast` is written out in the last case. -/
def EvalArgs [Runtime F] (ev : Evaluator F) :
    Expr F → List (Table F) → Table F → Result F (List (Expr F))
  | .nil, _, g => (.ok [], g)
  | .pair a rest, env, g =>
    Result.bind (ev a env g) fun v g1 =>
      Result.bind (EvalArgs ev rest env g1) fun vs g2 => (.ok (v :: vs), g2)
  | e, _, g => (.error ("Not a pair: " ++ e.ToString), g)

/-- The branch `if (StartsWith(p, "IF"))` of `EvalList`. -/
def EvalList.caseIf [Runtime F] (ev : Evaluator F) (p : Expr F) (env : List (Table F))
    (g : Table F) : Result F (Expr F) :=
  Result.bind (Result.lift (AssertList p 4) g) fun _ g =>
  Result.bind (ev (Nth p 1) env g) fun e g =>
    if e.Type = .Nil then ev (Nth p 3) env g else ev (Nth p 2) env g

/-- The branch `if (StartsWith(p, "COND"))` of `EvalList`. -/
def EvalList.caseCond [Runtime F] (ev : Evaluator F) (p : Expr F) (env : List (Table F))
    (g : Table F) : Result F (Expr F) :=
  if (IsList p).1 = false ∨ (IsList p).2 = 1 ∨ (IsList p).2 % 2 ≠ 1 then
    (.error p.ToString, g)
  else EvalCond ev p.Second env g

/-- The branch `if (StartsWith(p, "SET"))` of `EvalList`. -/
def EvalList.caseSet [Runtime F] (ev : Evaluator F) (p : Expr F) (env : List (Table F))
    (g : Table F) : Result F (Expr F) :=
  Result.bind (Result.lift (AssertList p 3) g) fun _ g =>
  Result.bind (Result.lift (SymbolCast (Nth p 1)) g) fun name g =>
  Result.bind (ev (Nth p 2) env g) fun e g =>
    (.ok e, Env.define g name e)

/-- The branch `if (StartsWith(p, "QUOTE"))` of `EvalList`. -/
def EvalList.caseQuote [Runtime F] (p : Expr F) (g : Table F) : Result F (Expr F) :=
  Result.bind (Result.lift (AssertList p 2) g) fun _ g =>
    (.ok (Nth p 1), g)

/-- The branch `if (StartsWith(p, "DEFINE"))` of `EvalList`. -/
def EvalList.caseDefine [Runtime F] (p : Expr F) (g : Table F) : Result F (Expr F) :=
  Result.bind (Result.lift (AssertList p 4) g) fun _ g =>
  Result.bind (Result.lift (SymbolCast (Nth p 1)) g) fun name g =>
  Result.bind (Result.lift (FunParams (Nth p 2)) g) fun params g =>
    (.ok .nil, Env.define g name (.fn params (Nth p 3) (some name)))

/-- The branch `if (StartsWith(p, "LAMBDA"))` of `EvalList`. -/
def EvalList.caseLambda [Runtime F] (p : Expr F) (g : Table F) : Result F (Expr F) :=
  Result.bind (Result.lift (AssertList p 3) g) fun _ g =>
  Result.bind (Result.lift (FunParams (Nth p 1)) g) fun params g =>
    (.ok (.fn params (Nth p 2) none), g)

/-- The branch `if (StartsWith(p, "APPLY"))` of `EvalList`. -/
def EvalList.caseApply [Runtime F] (ev : Evaluator F) (p : Expr F) (env : List (Table F))
    (g : Table F) : Result F (Expr F) :=
  Result.bind (Result.lift (AssertList p 3) g) fun _ g =>
  Result.bind (ev (Nth p 1) env g) fun fn g =>
  Result.bind (ev (Nth p 2) env g) fun l g =>
  Result.bind (Result.lift (listArgs l) g) fun args g =>
    Apply ev fn args env g

/-- The branch `if (StartsWith(p, "EVAL"))` of `EvalList`. -/
def EvalList.caseEval [Runtime F] (ev : Evaluator F) (p : Expr F) (env : List (Table F))
    (g : Table F) : Result F (Expr F) :=
  Result.bind (Result.lift (AssertList p 2) g) fun _ g =>
  Result.bind (ev (Nth p 1) env g) fun e g =>
    ev e env g

/-- The end of `EvalList`, reached when no keyword matches: the application
of a procedure. -/
def EvalList.application [Runtime F] (ev : Evaluator F) (p : Expr F)
    (env : List (Table F)) (g : Table F) : Result F (Expr F) :=
  Result.bind (ev p.First env g) fun fn g =>
  Result.bind (EvalArgs ev p.Second env g) fun args g =>
    Apply ev fn args env g

/-- `EvalList`; `ev` is `Evaluate`.  The bodies of the branches are the
definitions above. -/
def EvalList [Runtime F] (ev : Evaluator F) (p : Expr F) (env : List (Table F))
    (g : Table F) : Result F (Expr F) :=
  if StartsWith p "IF" then EvalList.caseIf ev p env g
  else if StartsWith p "COND" then EvalList.caseCond ev p env g
  else if StartsWith p "SET" then EvalList.caseSet ev p env g
  else if StartsWith p "QUOTE" then EvalList.caseQuote p g
  else if StartsWith p "DEFINE" then EvalList.caseDefine p g
  else if StartsWith p "LAMBDA" then EvalList.caseLambda p g
  else if StartsWith p "APPLY" then EvalList.caseApply ev p env g
  else if StartsWith p "EVAL" then EvalList.caseEval ev p env g
  else EvalList.application ev p env g

/-- `EvalVar`. -/
def EvalVar (s : String) (env : List (Table F)) (g : Table F) : Result F (Expr F) :=
  match Env.lookup env g s with
  | some e => (.ok e, g)
  | none => (.error ("Unbound variable: " ++ s), g)

/-- The body of `Evaluate`, with `ev` for the calls of `Evaluate` made
inside `EvalList` and `Apply`. -/
def Evaluate.body [Runtime F] (ev : Evaluator F) : Evaluator F
  | .num val, _, g => (.ok (.num val), g)
  | .str s, _, g => (.ok (.str s), g)
  | .nil, _, g => (.ok .nil, g)
  | .tru, _, g => (.ok .tru, g)
  | .pair a b, env, g => EvalList ev (.pair a b) env g
  | .sym s, env, g => EvalVar s env g
  | e, _, g => (.error ("Unexpected expression: " ++ e.ToString), g)

/-- `Evaluate`, with a bound on the depth of nested `Evaluate` calls. -/
def Evaluate [Runtime F] : Nat → Evaluator F
  | 0 => fun _ _ g => (.outOfFuel, g)
  | n + 1 => Evaluate.body (Evaluate n)

/-! ## The entry point -/

/-- What a call of `Process` leaves behind: the lines written to `std::cout`,
how the call ended, and the global frame. -/
structure ProcessResult (F : Type) where
  printed : List String
  outcome : Outcome Unit
  global : Table F
  deriving DecidableEq, Repr

/-- The `for (auto in: exprs)` loop of `Process`. -/
def Process.loop [Runtime F] (fuel : Nat) :
    List (Expr F) → Table F → List String → ProcessResult F
  | [], g, out => ⟨out, .ok (), g⟩
  | e :: rest, g, out =>
    match Evaluate fuel e [] g with
    | (.ok v, g1) => Process.loop fuel rest g1 (out ++ [v.ToString])
    | (.error m, g1) => ⟨out, .error m, g1⟩
    | (.outOfFuel, g1) => ⟨out, .outOfFuel, g1⟩

/-- `Process` on the interpreter whose global frame is `g`; `fuel` bounds the
depth of nested `Evaluate` calls for each top-level form. -/
def Process [Runtime F] (fuel : Nat) (inputStr : String) (g : Table F) :
    ProcessResult F :=
  match GenerateTokens inputStr with
  | .error m => ⟨[], .error m, g⟩
  | .ok tokens =>
    match (Parse tokens : Outcome (List (Expr F))) with
    | .error m => ⟨[], .error m, g⟩
    | .outOfFuel => ⟨[], .outOfFuel, g⟩
    | .ok exprs => Process.loop fuel exprs g []

/-! ## Exact arithmetic for concrete runs

The examples are run with rational numbers in place of `float`; on the small
integers they use the two agree. -/

/-- The value of a run of decimal digits. -/
def digitsValue (cs : List Char) : Nat :=
  cs.foldl (fun n c => 10 * n + (c.toNat - 48)) 0

/-- `std::stof` on a text of the shape accepted by `IsNumber`, without
rounding. -/
def exactStof (s : String) : Option ℚ :=
  let negative := s.data.head? = some '-'
  let body := if negative then s.data.tail else s.data
  let whole := body.takeWhile isdigit
  let frac := ((body.dropWhile isdigit).drop 1).takeWhile isdigit
  if whole = [] then none
  else
    let v : ℚ := mkRat (digitsValue (whole ++ frac)) (10 ^ frac.length)
    some (if negative then -v else v)

/-- Removes the zeros at the end of a run of digits. -/
def stripZeros (cs : List Char) : List Char :=
  (cs.reverse.dropWhile (fun c => c == '0')).reverse

/-- The six significant digits and the decimal exponent that the format `%g`
works with, for the positive rational `n / d`: rounding is to nearest, ties to
even. -/
def sixDigits (n d : Nat) : Nat × Int :=
  let x0 : Int := ((Nat.toDigits 10 n).length : Int) - ((Nat.toDigits 10 d).length : Int)
  let x : Int := if d * 10 ^ x0.toNat ≤ n * 10 ^ (-x0).toNat then x0 else x0 - 1
  let top := n * 10 ^ (5 - x).toNat
  let bot := d * 10 ^ (x - 5).toNat
  let m := top / bot
  let r := top % bot
  let m := if bot < 2 * r ∨ (2 * r = bot ∧ m % 2 = 1) then m + 1 else m
  if m = 1000000 then (100000, x + 1) else (m, x)

/-- `ostream << float` with the default format, which is `%g` with six
significant digits, on an exact value. -/
def exactRender (q : ℚ) : String :=
  if q = 0 then "0"
  else
    let (m, x) := sixDigits q.num.natAbs q.den
    let ds := Nat.toDigits 10 m
    let sign := if q < 0 then "-" else ""
    let body : List Char :=
      if x < -4 ∨ 6 ≤ x then
        let mant := stripZeros (ds.drop 1)
        let e := Nat.toDigits 10 x.natAbs
        ds.take 1 ++ (if mant = [] then [] else '.' :: mant)
          ++ ['e', if x < 0 then '-' else '+'] ++ (if e.length < 2 then '0' :: e else e)
      else if 0 ≤ x then
        let frac := stripZeros (ds.drop (x.toNat + 1))
        ds.take (x.toNat + 1) ++ (if frac = [] then [] else '.' :: frac)
      else
        '0' :: '.' :: List.replicate ((-x).toNat - 1) '0' ++ stripZeros ds
    sign ++ String.mk body

/-- Exact rational arithmetic; two objects made by `new` are taken to be at
different addresses. -/
instance exactRuntime : Runtime ℚ where
  zero := 0
  one := 1
  add := fun a b => a + b
  sub := fun a b => a - b
  mul := fun a b => a * b
  div := fun a b => a / b
  neg := fun a => -a
  eq := fun a b => decide (a = b)
  lt := fun a b => decide (a < b)
  gt := fun a b => decide (b < a)
  stof := exactStof
  render := exactRender
  sameObject := fun _ _ => false

/-! ## Termination of an evaluation

A result that `Evaluate` gives with some bound on the depth, other than
`outOfFuel`, is the result with every larger bound: it is what the source
computes. -/

/-- The evaluation of `e` in the environment `env`, `g` ends with the outcome
and global frame `r`: some bound on the depth is enough for it. -/
def Evaluates [Runtime F] (e : Expr F) (env : List (Table F)) (g : Table F)
    (r : Result F (Expr F)) : Prop :=
  r.1 ≠ .outOfFuel ∧ ∃ n, Evaluate n e env g = r

/-- The evaluator `ev2` gives every result of `ev1` that is not `outOfFuel`. -/
def Evaluator.Extends (ev1 ev2 : Evaluator F) : Prop :=
  ∀ e env g, (ev1 e env g).1 ≠ .outOfFuel → ev2 e env g = ev1 e env g

/-- The proper list of the given elements: the chain of pairs that ends in
`kNil`. -/
def Expr.list : List (Expr F) → Expr F
  | [] => .nil
  | a :: l => .pair a (Expr.list l)

/-- The form `p` is rejected as malformed: `EvalList` throws the printed text
of `p` and leaves the global frame as it is, whatever `Evaluate` would do on
a sub-expression, and so `Evaluate` does with every bound on the depth. -/
def RejectedAsMalformed [Runtime F] (p : Expr F) (env : List (Table F)) (g : Table F) :
    Prop :=
  (∀ ev : Evaluator F, EvalList ev p env g = (.error p.ToString, g)) ∧
    ∀ fuel, Evaluate (fuel + 1) p env g = (.error p.ToString, g)

/-- The elements `t1 r1 ... tn rn` of a `COND` form after the keyword, for
the clauses `(t1, r1), ..., (tn, rn)`. -/
def Expr.clauses : List (Expr F × Expr F) → Expr F
  | [] => .nil
  | c :: rest => .pair c.1 (.pair c.2 (Expr.clauses rest))

/-- The form `(COND t1 r1 ... tn rn)`. -/
def condForm (clauses : List (Expr F × Expr F)) : Expr F :=
  .pair (.sym "COND") (Expr.clauses clauses)

/-- The tests of the clauses, evaluated in order from the global frame `g`,
all have the value Nil, and leave the global frame `g2`. -/
def AllTestsNil [Runtime F] :
    List (Expr F × Expr F) → List (Table F) → Table F → Table F → Prop
  | [], _, g, g2 => g2 = g
  | c :: rest, env, g, g2 =>
    ∃ g1, Evaluates c.1 env g (.ok .nil, g1) ∧ AllTestsNil rest env g1 g2

/-- The keywords that `EvalList` tests for, in the order of its branches. -/
def keywords : List String :=
  ["IF", "COND", "SET", "QUOTE", "DEFINE", "LAMBDA", "APPLY", "EVAL"]

/-- The form `(DEFINE name (p1 ... pn) body)` with symbols for the name and the
parameters. -/
def defineForm (name : String) (params : List String) (body : Expr F) : Expr F :=
  Expr.list [.sym "DEFINE", .sym name, Expr.list (params.map .sym), body]

/-- The argument expressions, evaluated in order from the global frame `g`,
have the values `vs` and leave the global frame `g2`. -/
def ArgValues [Runtime F] :
    List (Expr F) → List (Table F) → Table F → List (Expr F) → Table F → Prop
  | [], _, g, vs, g2 => vs = [] ∧ g2 = g
  | a :: rest, env, g, vs, g2 =>
    ∃ v g1 vs1, Evaluates a env g (.ok v, g1) ∧ ArgValues rest env g1 vs1 g2 ∧ vs = v :: vs1

/-- The global frame after `(DEFINE F () X)` in the initial global frame. -/
def scopeF : Table F :=
  Env.define InitGlobalEnv "F" (.fn [] (.sym "X") (some "F"))

/-- The global frame after `(DEFINE F () X)` and then `(DEFINE G (X) (F))`. -/
def scopeG : Table F :=
  Env.define scopeF "G" (.fn ["X"] (Expr.list [.sym "F"]) (some "G"))

/-- The top-level forms, evaluated in order in the global environment from
the global frame `g` with the depth bound `fuel`, all return a value; the
values are `vs` and the global frame they leave is `g2`. -/
def FormsRun [Runtime F] (fuel : Nat) :
    List (Expr F) → Table F → List (Expr F) → Table F → Prop
  | [], g, vs, g2 => vs = [] ∧ g2 = g
  | e :: rest, g, vs, g2 =>
    ∃ v g1 vs1, Evaluate fuel e [] g = (.ok v, g1) ∧ FormsRun fuel rest g1 vs1 g2 ∧
      vs = v :: vs1

/-- The name under which `InitGlobalEnv` registers a native function. -/
def PrimFun.name (fn : PrimFun) : String :=
  ((primitives.find? (fun q => q.2 == fn)).map Prod.fst).getD ""

/-- The text `part` occurs in the text `msg`. -/
def containsText (msg part : String) : Bool :=
  msg.data.tails.any (fun t => part.data.isPrefixOf t)

/-- The message of a failed cast to a number of one of the arguments. -/
def NotANumber [Runtime F] (args : List (Expr F)) (m : String) : Prop :=
  ∃ a ∈ args, a.Type ≠ .Num ∧ m = "Not a number: " ++ a.ToString

/-- The chain of pairs with the given elements whose last `second_` is `z`. -/
def Expr.chain (es : List (Expr F)) (z : Expr F) : Expr F :=
  es.foldr .pair z

/-- The application of the value `fv` to the argument values `args` in the
environment `env`, `g` ends with the outcome and global frame `r`: some bound
on the depth of the evaluation of the body is enough for it. -/
def Applies [Runtime F] (fv : Expr F) (args : List (Expr F)) (env : List (Table F))
    (g : Table F) (r : Result F (Expr F)) : Prop :=
  r.1 ≠ .outOfFuel ∧ ∃ n, Apply (Evaluate n) fv args env g = r

/-- The shape of a number in the specification: an optional leading `-`, then
one or more digits, then optionally a single `.` followed by zero or more
digits. -/
def NumberShape (run : List Char) : Prop :=
  ∃ sign whole tail : List Char,
    (sign = [] ∨ sign = ['-']) ∧ whole ≠ [] ∧ (∀ c ∈ whole, isdigit c = true) ∧
    (tail = [] ∨ ∃ frac : List Char, (∀ c ∈ frac, isdigit c = true) ∧ tail = '.' :: frac) ∧
    run = sign ++ whole ++ tail

/-! ## The table of symbols -/

/-- The symbols made so far by `SymbolExpr::GetInstance`: `objects` holds the
text `s_` of every `SymbolExpr` allocated, a pointer to a symbol being the
position of its object, and `m_` is the static table of `GetInstance`, from a
text to the pointer registered for it. -/
structure SymbolTable where
  objects : List String
  m_ : List (String × Nat)
deriving DecidableEq, Repr

/-- The table before the first call of `GetInstance`. -/
def SymbolTable.empty : SymbolTable := ⟨[], []⟩

/-- `m_.find(s)`. -/
def SymbolTable.find (t : SymbolTable) (s : String) : Option Nat :=
  match t.m_.find? (fun kv => kv.1 == s) with
  | some kv => some kv.2
  | none => none

/-- `SymbolExpr::GetInstance` with its static table passed in and out: the
text is put in upper case, the pointer registered for it is returned when
there is one, and otherwise a new object is allocated and registered. -/
def SymbolExpr.GetInstance.withTable (t : SymbolTable) (sym : String) : Nat × SymbolTable :=
  let s := String.mk (sym.data.map Char.toUpper)
  match t.find s with
  | some search => (search, t)
  | none =>
    let symp := t.objects.length
    (symp, ⟨t.objects ++ [s], (s, symp) :: t.m_⟩)

/-- The table after a sequence of calls of `GetInstance`. -/
def SymbolTable.internAll (t : SymbolTable) : List String → SymbolTable
  | [] => t
  | sym :: rest => SymbolTable.internAll (SymbolExpr.GetInstance.withTable t sym).2 rest

/-- The table registers exactly the objects made: a text is mapped to a
pointer exactly when the object at the pointer has that text. -/
def SymbolTable.Registered (t : SymbolTable) : Prop :=
  ∀ (s : String) (p : Nat), t.find s = some p ↔ t.objects[p]? = some s

/-! ## Proper lists -/

/-- The second member of every pair inside the expression is a pair or nil. -/
def Expr.proper : Expr F → Bool
  | .pair a b =>
    a.proper && b.proper &&
      (match b with
       | .pair _ _ => true
       | .nil => true
       | _ => false)
  | _ => true

/-- The expressions inside an expression: the expression itself and what is
inside the members of a pair. -/
inductive Expr.Inside : Expr F → Expr F → Prop
  | here (e : Expr F) : Expr.Inside e e
  | first {p a b : Expr F} : Expr.Inside p a → Expr.Inside p (.pair a b)
  | second {p a b : Expr F} : Expr.Inside p b → Expr.Inside p (.pair a b)

/-- The tokens `ts` are one complete expression, `e`: `ParseExpr` reads all of
them and returns `e`. -/
def CompleteExpr [Runtime F] (ts : List LispToken) (e : Expr F) : Prop :=
  ∃ n, ParseExpr n ts = .ok (e, [])

/-! ## Input that ends inside a form -/

/-- The number of begin-paren tokens. -/
def opens (ts : List LispToken) : Nat :=
  ts.countP (fun t => decide (t.kind = .BeginParenthesis))

/-- The number of end-paren tokens. -/
def closes (ts : List LispToken) : Nat :=
  ts.countP (fun t => decide (t.kind = .EndParenthesis))

/-- The head of a list is none of the keywords that `EvalList` tests for. -/
def HeadNotKeyword (f : Expr F) : Prop :=
  ∀ k ∈ keywords, f ≠ .sym k

/-! ## Writes to the global frame -/

/-- The frame after the given calls of `Env::define`, in their order. -/
def Table.written (g : Table F) (ws : List (String × Expr F)) : Table F :=
  ws.foldl (fun t w => Env.define t w.1 w.2) g

/-- Calls of `Env::define`, and nothing else, lead from the frame `g` to the
frame `g2`. -/
def Table.OnlyWritten (g g2 : Table F) : Prop :=
  ∃ ws : List (String × Expr F), g2 = g.written ws

/-- Every number, true-literal and symbol token has a text that is not
empty. -/
def PayloadFilled (ts : List LispToken) : Prop :=
  ∀ t ∈ ts, (t.kind = .Num ∨ t.kind = .True ∨ t.kind = .Symbol) → t.value ≠ ""

/-! ## Reading back what was printed -/

/-- No `NumExpr` is inside the expression. -/
def Expr.noNum : Expr F → Bool
  | .num _ => false
  | .pair a b => a.noNum && b.noNum
  | _ => true

/-- The text of a symbol that the tokenizer and the parser can have made: a
non-empty run of characters none of which is a separator, that `classify`
takes for a symbol, with every character in upper case. -/
def SymbolText (s : String) : Prop :=
  s.data ≠ [] ∧ (∀ c ∈ s.data, IsSeparator c = false) ∧ classify s.data = ⟨.Symbol, s⟩ ∧
    SymbolExpr.GetInstance s = s

/-- An expression made of symbols with such a text, strings without a double
quote, `kNil`, `kTrue` and pairs whose second member is a pair or `kNil`. -/
def Expr.Readable : Expr F → Prop
  | .sym s => SymbolText s
  | .str s => dquote ∉ s.data
  | .nil => True
  | .tru => True
  | .pair a b => a.Readable ∧ b.Readable ∧ (b = .nil ∨ ∃ c d, b = .pair c d)
  | _ => False

/-- A token as the tokenizer makes it: the text of a symbol token is a
non-empty run without separators that `classify` takes for a symbol, and the
text of a string token has no double quote. -/
def LispToken.FromText (t : LispToken) : Prop :=
  (t.kind = .Symbol → t.value.data ≠ [] ∧ (∀ c ∈ t.value.data, IsSeparator c = false) ∧
    classify t.value.data = t) ∧
  (t.kind = .String → dquote ∉ t.value.data)

mutual
/-- The tokens of the printed text of an expression that can be read back. -/
def Expr.tokens : Expr F → List LispToken
  | .sym s => [⟨.Symbol, s⟩]
  | .str s => [⟨.String, s⟩]
  | .nil => [⟨.Nil, ""⟩]
  | .tru => [⟨.True, "T"⟩]
  | .pair a b => ⟨.BeginParenthesis, "("⟩ :: (Expr.tokens a ++ Expr.restTokens b)
  | .num _ => []
  | .fn _ _ _ => []
  | .prim _ _ => []
/-- The tokens of what is printed after the first element of a pair whose
second member is the argument, with the closing parenthesis. -/
def Expr.restTokens : Expr F → List LispToken
  | .pair c d => Expr.tokens c ++ Expr.restTokens d
  | .nil => [⟨.EndParenthesis, ")"⟩]
  | .sym _ => [⟨.EndParenthesis, ")"⟩]
  | .str _ => [⟨.EndParenthesis, ")"⟩]
  | .tru => [⟨.EndParenthesis, ")"⟩]
  | .num _ => [⟨.EndParenthesis, ")"⟩]
  | .fn _ _ _ => [⟨.EndParenthesis, ")"⟩]
  | .prim _ _ => [⟨.EndParenthesis, ")"⟩]
end

/-- The test `d == 0.0` of `Div` on the value of an argument that is a
number. -/
def Expr.zeroNum [Runtime F] : Expr F → Bool
  | .num x => Runtime.eq x Runtime.zero
  | _ => false

section Lemmas

@[simp] theorem Result.bind_ok {α β : Type} (v : α) (g : Table F)
    (k : α → Table F → Result F β) : Result.bind (.ok v, g) k = k v g := rfl

@[simp] theorem Result.bind_error {α β : Type} (m : String) (g : Table F)
    (k : α → Table F → Result F β) :
    Result.bind ((.error m, g) : Result F α) k = (.error m, g) := rfl

@[simp] theorem Result.bind_outOfFuel {α β : Type} (g : Table F)
    (k : α → Table F → Result F β) :
    Result.bind ((.outOfFuel, g) : Result F α) k = (.outOfFuel, g) := rfl

@[simp] theorem Result.lift_ok {α : Type} (v : α) (g : Table F) :
    (Result.lift (.ok v) g : Result F α) = (.ok v, g) := rfl

@[simp] theorem Result.lift_error {α : Type} (m : String) (g : Table F) :
    (Result.lift (.error m) g : Result F α) = (.error m, g) := rfl

theorem Result.bind_congr_fuel {α β : Type} {r1 r2 : Result F α}
    {k1 k2 : α → Table F → Result F β}
    (hr : r1.1 ≠ .outOfFuel → r2 = r1)
    (hk : ∀ v g, (k1 v g).1 ≠ .outOfFuel → k2 v g = k1 v g)
    (h : (Result.bind r1 k1).1 ≠ .outOfFuel) :
    Result.bind r2 k2 = Result.bind r1 k1 := by
  obtain ⟨o, g⟩ := r1
  cases o with
  | ok v =>
    rw [hr (by simp)]
    exact hk v g h
  | error m => rw [hr (by simp)]; rfl
  | outOfFuel => exact absurd rfl h

theorem EvalCond_extends {ev1 ev2 : Evaluator F} (hev : Evaluator.Extends ev1 ev2)
    (e : Expr F) (env : List (Table F)) (g : Table F)
    (h : (EvalCond ev1 e env g).1 ≠ .outOfFuel) :
    EvalCond ev2 e env g = EvalCond ev1 e env g := by
  induction e, env, g using EvalCond.induct ev1 with
  | case1 test result rest env g ih =>
    simp only [EvalCond] at h ⊢
    refine Result.bind_congr_fuel (hev _ _ _) (fun v g1 h1 => ?_) h
    split
    · rename_i hv; rw [if_pos hv] at h1; exact hev _ _ _ h1
    · rename_i hv; rw [if_neg hv] at h1; exact ih g1 h1
  | case2 test other env g hother =>
    cases other with
    | pair r rest => exact (hother r rest rfl).elim
    | _ =>
      simp only [EvalCond] at h ⊢
      refine Result.bind_congr_fuel (hev _ _ _) (fun v g1 h1 => ?_) h
      split
      · rename_i hv; rw [if_pos hv] at h1; exact hev _ _ _ h1
      · rfl
  | case3 t env g h1 h2 =>
    cases t with
    | pair a b => exact (h2 a b rfl).elim
    | _ => exact absurd rfl h

variable [Runtime F]

theorem Apply_extends {ev1 ev2 : Evaluator F} (hev : Evaluator.Extends ev1 ev2)
    (f : Expr F) (args : List (Expr F)) (env : List (Table F)) (g : Table F)
    (h : (Apply ev1 f args env g).1 ≠ .outOfFuel) :
    Apply ev2 f args env g = Apply ev1 f args env g := by
  cases f <;> simp only [Apply] at h ⊢
  case fn params body name =>
    split
    · rfl
    · rename_i hlen
      rw [if_neg hlen] at h
      exact hev _ _ _ h

theorem EvalArgs_extends {ev1 ev2 : Evaluator F} (hev : Evaluator.Extends ev1 ev2)
    (e : Expr F) (env : List (Table F)) (g : Table F)
    (h : (EvalArgs ev1 e env g).1 ≠ .outOfFuel) :
    EvalArgs ev2 e env g = EvalArgs ev1 e env g := by
  induction e generalizing g with
  | pair a rest _ ih =>
    simp only [EvalArgs] at h ⊢
    refine Result.bind_congr_fuel (hev _ _ _) (fun v g1 h1 => ?_) h
    exact Result.bind_congr_fuel (ih g1) (fun _ _ _ => rfl) h1
  | _ => simp only [EvalArgs]

theorem EvalList_if {ev : Evaluator F} {p : Expr F} {env : List (Table F)}
    {g : Table F}
    (h : StartsWith p "IF" = true) :
    EvalList ev p env g = EvalList.caseIf ev p env g := by
  unfold EvalList
  rw [if_pos h]

theorem EvalList_cond {ev : Evaluator F} {p : Expr F} {env : List (Table F)}
    {g : Table F} (h0 : ¬ StartsWith p "IF" = true)
    (h : StartsWith p "COND" = true) :
    EvalList ev p env g = EvalList.caseCond ev p env g := by
  unfold EvalList
  rw [if_neg h0, if_pos h]

theorem EvalList_set {ev : Evaluator F} {p : Expr F} {env : List (Table F)}
    {g : Table F} (h0 : ¬ StartsWith p "IF" = true) (h1 : ¬ StartsWith p "COND" = true)
    (h : StartsWith p "SET" = true) :
    EvalList ev p env g = EvalList.caseSet ev p env g := by
  unfold EvalList
  rw [if_neg h0, if_neg h1, if_pos h]

theorem EvalList_quote {ev : Evaluator F} {p : Expr F} {env : List (Table F)}
    {g : Table F} (h0 : ¬ StartsWith p "IF" = true) (h1 : ¬ StartsWith p "COND" = true) (h2 : ¬ StartsWith p "SET" = true)
    (h : StartsWith p "QUOTE" = true) :
    EvalList ev p env g = EvalList.caseQuote p g := by
  unfold EvalList
  rw [if_neg h0, if_neg h1, if_neg h2, if_pos h]

theorem EvalList_define {ev : Evaluator F} {p : Expr F} {env : List (Table F)}
    {g : Table F} (h0 : ¬ StartsWith p "IF" = true) (h1 : ¬ StartsWith p "COND" = true) (h2 : ¬ StartsWith p "SET" = true) (h3 : ¬ StartsWith p "QUOTE" = true)
    (h : StartsWith p "DEFINE" = true) :
    EvalList ev p env g = EvalList.caseDefine p g := by
  unfold EvalList
  rw [if_neg h0, if_neg h1, if_neg h2, if_neg h3, if_pos h]

theorem EvalList_lambda {ev : Evaluator F} {p : Expr F} {env : List (Table F)}
    {g : Table F} (h0 : ¬ StartsWith p "IF" = true) (h1 : ¬ StartsWith p "COND" = true) (h2 : ¬ StartsWith p "SET" = true) (h3 : ¬ StartsWith p "QUOTE" = true) (h4 : ¬ StartsWith p "DEFINE" = true)
    (h : StartsWith p "LAMBDA" = true) :
    EvalList ev p env g = EvalList.caseLambda p g := by
  unfold EvalList
  rw [if_neg h0, if_neg h1, if_neg h2, if_neg h3, if_neg h4, if_pos h]

theorem EvalList_apply {ev : Evaluator F} {p : Expr F} {env : List (Table F)}
    {g : Table F} (h0 : ¬ StartsWith p "IF" = true) (h1 : ¬ StartsWith p "COND" = true) (h2 : ¬ StartsWith p "SET" = true) (h3 : ¬ StartsWith p "QUOTE" = true) (h4 : ¬ StartsWith p "DEFINE" = true) (h5 : ¬ StartsWith p "LAMBDA" = true)
    (h : StartsWith p "APPLY" = true) :
    EvalList ev p env g = EvalList.caseApply ev p env g := by
  unfold EvalList
  rw [if_neg h0, if_neg h1, if_neg h2, if_neg h3, if_neg h4, if_neg h5, if_pos h]

theorem EvalList_eval {ev : Evaluator F} {p : Expr F} {env : List (Table F)}
    {g : Table F} (h0 : ¬ StartsWith p "IF" = true) (h1 : ¬ StartsWith p "COND" = true) (h2 : ¬ StartsWith p "SET" = true) (h3 : ¬ StartsWith p "QUOTE" = true) (h4 : ¬ StartsWith p "DEFINE" = true) (h5 : ¬ StartsWith p "LAMBDA" = true) (h6 : ¬ StartsWith p "APPLY" = true)
    (h : StartsWith p "EVAL" = true) :
    EvalList ev p env g = EvalList.caseEval ev p env g := by
  unfold EvalList
  rw [if_neg h0, if_neg h1, if_neg h2, if_neg h3, if_neg h4, if_neg h5, if_neg h6, if_pos h]

theorem EvalList_application {ev : Evaluator F} {p : Expr F} {env : List (Table F)}
    {g : Table F} (h0 : ¬ StartsWith p "IF" = true) (h1 : ¬ StartsWith p "COND" = true) (h2 : ¬ StartsWith p "SET" = true) (h3 : ¬ StartsWith p "QUOTE" = true) (h4 : ¬ StartsWith p "DEFINE" = true) (h5 : ¬ StartsWith p "LAMBDA" = true) (h6 : ¬ StartsWith p "APPLY" = true) (h7 : ¬ StartsWith p "EVAL" = true) :
    EvalList ev p env g = EvalList.application ev p env g := by
  unfold EvalList
  rw [if_neg h0, if_neg h1, if_neg h2, if_neg h3, if_neg h4, if_neg h5, if_neg h6, if_neg h7]

theorem EvalList_extends {ev1 ev2 : Evaluator F} (hev : Evaluator.Extends ev1 ev2)
    (p : Expr F) (env : List (Table F)) (g : Table F)
    (h : (EvalList ev1 p env g).1 ≠ .outOfFuel) :
    EvalList ev2 p env g = EvalList ev1 p env g := by
  by_cases h0 : StartsWith p "IF" = true
  · simp only [EvalList_if h0, EvalList.caseIf] at h ⊢
    refine Result.bind_congr_fuel (fun _ => rfl) (fun _ g1 h1 => ?_) h
    refine Result.bind_congr_fuel (hev _ _ _) (fun v g2 h2 => ?_) h1
    split_ifs at h2 ⊢ <;> exact hev _ _ _ h2
  by_cases h1 : StartsWith p "COND" = true
  · simp only [EvalList_cond h0 h1, EvalList.caseCond] at h ⊢
    split_ifs at h ⊢
    · rfl
    · exact EvalCond_extends hev _ _ _ h
  by_cases h2 : StartsWith p "SET" = true
  · simp only [EvalList_set h0 h1 h2, EvalList.caseSet] at h ⊢
    refine Result.bind_congr_fuel (fun _ => rfl) (fun _ g1 h1 => ?_) h
    refine Result.bind_congr_fuel (fun _ => rfl) (fun _ g2 h2 => ?_) h1
    exact Result.bind_congr_fuel (hev _ _ _) (fun _ _ _ => rfl) h2
  by_cases h3 : StartsWith p "QUOTE" = true
  · simp only [EvalList_quote h0 h1 h2 h3]
  by_cases h4 : StartsWith p "DEFINE" = true
  · simp only [EvalList_define h0 h1 h2 h3 h4]
  by_cases h5 : StartsWith p "LAMBDA" = true
  · simp only [EvalList_lambda h0 h1 h2 h3 h4 h5]
  by_cases h6 : StartsWith p "APPLY" = true
  · simp only [EvalList_apply h0 h1 h2 h3 h4 h5 h6, EvalList.caseApply] at h ⊢
    refine Result.bind_congr_fuel (fun _ => rfl) (fun _ g1 h1 => ?_) h
    refine Result.bind_congr_fuel (hev _ _ _) (fun _ g2 h2 => ?_) h1
    refine Result.bind_congr_fuel (hev _ _ _) (fun _ g3 h3 => ?_) h2
    refine Result.bind_congr_fuel (fun _ => rfl) (fun _ g4 h4 => ?_) h3
    exact Apply_extends hev _ _ _ _ h4
  by_cases h7 : StartsWith p "EVAL" = true
  · simp only [EvalList_eval h0 h1 h2 h3 h4 h5 h6 h7, EvalList.caseEval] at h ⊢
    refine Result.bind_congr_fuel (fun _ => rfl) (fun _ g1 h1 => ?_) h
    refine Result.bind_congr_fuel (hev _ _ _) (fun _ g2 h2 => ?_) h1
    exact hev _ _ _ h2
  · simp only [EvalList_application h0 h1 h2 h3 h4 h5 h6 h7, EvalList.application] at h ⊢
    refine Result.bind_congr_fuel (hev _ _ _) (fun _ g1 h1 => ?_) h
    refine Result.bind_congr_fuel (EvalArgs_extends hev _ _ _) (fun _ g2 h2 => ?_) h1
    exact Apply_extends hev _ _ _ _ h2

theorem Evaluate_body_extends {ev1 ev2 : Evaluator F} (hev : Evaluator.Extends ev1 ev2) :
    Evaluator.Extends (Evaluate.body ev1) (Evaluate.body ev2) := by
  intro e env g h
  cases e <;> simp only [Evaluate.body] at h ⊢
  exact EvalList_extends hev _ _ _ h

theorem Evaluate_succ_extends (n : Nat) :
    Evaluator.Extends (Evaluate n : Evaluator F) (Evaluate (n + 1)) := by
  induction n with
  | zero => intro e env g h; exact absurd rfl h
  | succ n ih => exact Evaluate_body_extends ih

/-- More fuel does not change a result that is not `outOfFuel`. -/
theorem Evaluate_mono {n m : Nat} (hnm : n ≤ m) {e : Expr F} {env : List (Table F)}
    {g : Table F} {r : Result F (Expr F)} (hr : r.1 ≠ .outOfFuel)
    (h : Evaluate n e env g = r) : Evaluate m e env g = r := by
  induction hnm with
  | refl => exact h
  | step _ ih =>
    rw [Evaluate_succ_extends _ e env g (by rw [ih]; exact hr)]
    exact ih

/-- An evaluation has one result. -/
theorem Evaluates.unique {e : Expr F} {env : List (Table F)} {g : Table F}
    {r1 r2 : Result F (Expr F)} (h1 : Evaluates e env g r1) (h2 : Evaluates e env g r2) :
    r1 = r2 := by
  obtain ⟨hr1, n1, e1⟩ := h1
  obtain ⟨hr2, n2, e2⟩ := h2
  rw [← Evaluate_mono (Nat.le_max_left n1 n2) hr1 e1,
    ← Evaluate_mono (Nat.le_max_right n1 n2) hr2 e2]

/-! ### Proper lists -/

omit [Runtime F] in
theorem IsList_loop_list (l : List (Expr F)) (k : Nat) :
    IsList.loop (Expr.list l) k = (true, k + l.length) := by
  induction l generalizing k with
  | nil => rfl
  | cons a l ih =>
    simp only [Expr.list, IsList.loop, ih, List.length_cons]
    congr 1
    omega

omit [Runtime F] in
theorem IsList_list (a : Expr F) (l : List (Expr F)) :
    IsList (Expr.list (a :: l)) = (true, l.length + 1) := by
  simp only [IsList, Expr.list, Expr.Second, IsList_loop_list]
  congr 1
  omega

theorem AssertList_list (a : Expr F) (l : List (Expr F)) (n : Nat) :
    AssertList (Expr.list (a :: l)) n =
      if l.length + 1 = n then .ok () else .error (Expr.list (a :: l)).ToString := by
  simp only [AssertList, IsList_list, true_and]

omit [Runtime F] in
theorem StartsWith_list (k s : String) (l : List (Expr F)) :
    StartsWith (Expr.list (.sym k :: l)) s = (k == s) := rfl

theorem Evaluate_succ_pair (fuel : Nat) (a b : Expr F) (env : List (Table F)) (g : Table F) :
    Evaluate (fuel + 1) (.pair a b) env g = EvalList (Evaluate fuel) (.pair a b) env g := rfl

theorem Evaluate_succ_list (fuel : Nat) (a : Expr F) (l : List (Expr F))
    (env : List (Table F)) (g : Table F) :
    Evaluate (fuel + 1) (Expr.list (a :: l)) env g =
      EvalList (Evaluate fuel) (Expr.list (a :: l)) env g := rfl

theorem RejectedAsMalformed.of_every_evaluator {a : Expr F} {l : List (Expr F)}
    {env : List (Table F)} {g : Table F}
    (h : ∀ ev : Evaluator F, EvalList ev (Expr.list (a :: l)) env g =
      (.error (Expr.list (a :: l)).ToString, g)) :
    RejectedAsMalformed (Expr.list (a :: l)) env g :=
  ⟨h, fun fuel => by rw [Evaluate_succ_list]; exact h _⟩

/-! ### Results that do not depend on the fuel -/

theorem Evaluates.eventually {e : Expr F} {env : List (Table F)} {g : Table F}
    {r : Result F (Expr F)} (h : Evaluates e env g r) :
    ∃ N, ∀ n, N ≤ n → Evaluate n e env g = r := by
  obtain ⟨hr, N, hN⟩ := h
  exact ⟨N, fun n hn => Evaluate_mono hn hr hN⟩

theorem Evaluates.of_EvalList {a : Expr F} {l : List (Expr F)} {env : List (Table F)}
    {g : Table F} {r : Result F (Expr F)} (n : Nat) (hr : r.1 ≠ .outOfFuel)
    (h : EvalList (Evaluate n) (Expr.list (a :: l)) env g = r) :
    Evaluates (Expr.list (a :: l)) env g r :=
  ⟨hr, n + 1, h⟩

theorem Evaluates.EvalList_eventually {a : Expr F} {l : List (Expr F)}
    {env : List (Table F)} {g : Table F} {r : Result F (Expr F)}
    (h : Evaluates (Expr.list (a :: l)) env g r) :
    ∃ N, ∀ n, N ≤ n → EvalList (Evaluate n) (Expr.list (a :: l)) env g = r := by
  obtain ⟨N, hN⟩ := h.eventually
  refine ⟨N, fun n hn => ?_⟩
  rw [← Evaluate_succ_list]
  exact hN (n + 1) (by omega)

omit [Runtime F] in
theorem Expr.Type_eq_Nil_iff (v : Expr F) : v.Type = .Nil ↔ v = .nil := by
  cases v <;> simp [Expr.Type]

/-! ### `IF` -/

theorem EvalList_if_form (ev : Evaluator F) (test a b : Expr F) (env : List (Table F))
    (g : Table F) :
    EvalList ev (Expr.list [.sym "IF", test, a, b]) env g =
      Result.bind (ev test env g) fun e g1 =>
        if e.Type = .Nil then ev b env g1 else ev a env g1 := by
  rw [EvalList_if (by rw [StartsWith_list]; decide), EvalList.caseIf, AssertList_list]
  rfl

theorem Evaluates_if_form_iff {test a b v : Expr F} {env : List (Table F)} {g g1 : Table F}
    (ht : Evaluates test env g (.ok v, g1)) (r : Result F (Expr F)) :
    Evaluates (Expr.list [.sym "IF", test, a, b]) env g r ↔
      Evaluates (if v.Type = .Nil then b else a) env g1 r := by
  obtain ⟨N2, hN2⟩ := ht.eventually
  constructor
  · intro h
    obtain ⟨N1, hN1⟩ := h.EvalList_eventually
    have h1 := hN1 (max N1 N2) (Nat.le_max_left _ _)
    rw [EvalList_if_form, hN2 _ (Nat.le_max_right _ _), Result.bind_ok] at h1
    refine ⟨h.1, max N1 N2, ?_⟩
    split_ifs at h1 ⊢ <;> exact h1
  · intro h
    obtain ⟨N1, hN1⟩ := h.eventually
    refine Evaluates.of_EvalList (max N1 N2) h.1 ?_
    rw [EvalList_if_form, hN2 _ (Nat.le_max_right _ _), Result.bind_ok]
    have h1 := hN1 (max N1 N2) (Nat.le_max_left _ _)
    split_ifs at h1 ⊢ <;> exact h1

/-! ### `COND` -/

theorem Evaluates.of_EvalList_pair {a b : Expr F} {env : List (Table F)}
    {g : Table F} {r : Result F (Expr F)} (n : Nat) (hr : r.1 ≠ .outOfFuel)
    (h : EvalList (Evaluate n) (.pair a b) env g = r) :
    Evaluates (.pair a b) env g r :=
  ⟨hr, n + 1, h⟩

theorem Evaluates.EvalList_pair_eventually {a b : Expr F}
    {env : List (Table F)} {g : Table F} {r : Result F (Expr F)}
    (h : Evaluates (.pair a b) env g r) :
    ∃ N, ∀ n, N ≤ n → EvalList (Evaluate n) (.pair a b) env g = r := by
  obtain ⟨N, hN⟩ := h.eventually
  refine ⟨N, fun n hn => ?_⟩
  rw [← Evaluate_succ_pair]
  exact hN (n + 1) (by omega)

omit [Runtime F] in
theorem IsList_loop_clauses (cl : List (Expr F × Expr F)) (k : Nat) :
    IsList.loop (Expr.clauses cl) k = (true, k + 2 * cl.length) := by
  induction cl generalizing k with
  | nil => rfl
  | cons c rest ih =>
    simp only [Expr.clauses, IsList.loop, ih, List.length_cons]
    congr 1
    omega

theorem EvalList_condForm (ev : Evaluator F) (cl : List (Expr F × Expr F)) (hcl : cl ≠ [])
    (env : List (Table F)) (g : Table F) :
    EvalList ev (condForm cl) env g = EvalCond ev (Expr.clauses cl) env g := by
  have h0 : ¬ StartsWith (condForm cl) "IF" = true := by
    show ¬ (("COND" == "IF") = true)
    decide
  have hlen : 1 ≤ cl.length := by
    cases cl with
    | nil => exact absurd rfl hcl
    | cons c rest => simp
  rw [EvalList_cond h0 (by rfl), EvalList.caseCond]
  have hl : IsList (condForm cl) = (true, 1 + 2 * cl.length) := by
    simp only [IsList, condForm, Expr.Second, IsList_loop_clauses]
  rw [hl, if_neg]
  · rfl
  · simp only [not_or]
    refine ⟨by simp, by omega, ?_⟩
    simp only [not_not]
    omega

/-- The loop of the `COND` branch passes the clauses whose tests have the
value Nil. -/
theorem EvalCond_skip {pre : List (Expr F × Expr F)} {env : List (Table F)} {g gk : Table F}
    (h : AllTestsNil pre env g gk) :
    ∃ N, ∀ n, N ≤ n → ∀ rest,
      EvalCond (Evaluate n) (Expr.clauses (pre ++ rest)) env g =
        EvalCond (Evaluate n) (Expr.clauses rest) env gk := by
  induction pre generalizing g with
  | nil =>
    simp only [AllTestsNil] at h
    subst h
    exact ⟨0, fun _ _ _ => rfl⟩
  | cons c pre ih =>
    obtain ⟨g1, hc, hrest⟩ := h
    obtain ⟨N1, hN1⟩ := hc.eventually
    obtain ⟨N2, hN2⟩ := ih hrest
    refine ⟨max N1 N2, fun n hn rest => ?_⟩
    have h1 : N1 ≤ n := le_trans (Nat.le_max_left _ _) hn
    have h2 : N2 ≤ n := le_trans (Nat.le_max_right _ _) hn
    simp only [List.cons_append, Expr.clauses, EvalCond, hN1 n h1, Result.bind_ok]
    rw [if_neg (by simp [Expr.Type])]
    exact hN2 n h2 rest

theorem Evaluates_condForm_iff {pre post : List (Expr F × Expr F)} {t r v : Expr F}
    {env : List (Table F)} {g gk g2 : Table F} (hpre : AllTestsNil pre env g gk)
    (ht : Evaluates t env gk (.ok v, g2)) (hv : v ≠ .nil) (res : Result F (Expr F)) :
    Evaluates (condForm (pre ++ (t, r) :: post)) env g res ↔ Evaluates r env g2 res := by
  obtain ⟨N0, hN0⟩ := EvalCond_skip hpre
  obtain ⟨N1, hN1⟩ := ht.eventually
  have hne : pre ++ (t, r) :: post ≠ [] := by simp
  have hvt : ¬ v.Type = .Nil := fun h => hv ((Expr.Type_eq_Nil_iff v).1 h)
  have key : ∀ n, N0 ≤ n → N1 ≤ n →
      EvalList (Evaluate n) (condForm (pre ++ (t, r) :: post)) env g = Evaluate n r env g2 := by
    intro n h0 h1
    rw [EvalList_condForm _ _ hne, hN0 n h0]
    simp only [Expr.clauses, EvalCond, hN1 n h1, Result.bind_ok]
    rw [if_pos hvt]
  constructor
  · intro h
    obtain ⟨N2, hN2⟩ := Evaluates.EvalList_pair_eventually h
    have h0 : N0 ≤ max N2 (max N0 N1) := by omega
    have h1 : N1 ≤ max N2 (max N0 N1) := by omega
    have h2 : N2 ≤ max N2 (max N0 N1) := by omega
    exact ⟨h.1, max N2 (max N0 N1), (key _ h0 h1).symm.trans (hN2 _ h2)⟩
  · intro h
    obtain ⟨N2, hN2⟩ := h.eventually
    have h0 : N0 ≤ max N2 (max N0 N1) := by omega
    have h1 : N1 ≤ max N2 (max N0 N1) := by omega
    have h2 : N2 ≤ max N2 (max N0 N1) := by omega
    exact Evaluates.of_EvalList_pair (max N2 (max N0 N1)) h.1 ((key _ h0 h1).trans (hN2 _ h2))

/-- When every test has the value Nil the loop of the `COND` branch comes to
its exit, where the behaviour of the source is undefined: the evaluation has
no result, whatever the bound. -/
theorem Evaluates_condForm_none {cl : List (Expr F × Expr F)} (hcl : cl ≠ [])
    {env : List (Table F)} {g g2 : Table F} (h : AllTestsNil cl env g g2) :
    (∃ N, ∀ n, N ≤ n →
      EvalList (Evaluate n) (condForm cl) env g = EvalCond (Evaluate n) .nil env g2) ∧
    ∀ r, ¬ Evaluates (condForm cl) env g r := by
  obtain ⟨N0, hN0⟩ := EvalCond_skip h
  have key : ∀ n, N0 ≤ n →
      EvalList (Evaluate n) (condForm cl) env g = EvalCond (Evaluate n) .nil env g2 := by
    intro n hn
    have h1 := hN0 n hn []
    rw [List.append_nil] at h1
    exact (EvalList_condForm _ _ hcl env g).trans h1
  refine ⟨⟨N0, key⟩, fun r hr => ?_⟩
  obtain ⟨N2, hN2⟩ := Evaluates.EvalList_pair_eventually hr
  have h2 := hN2 (max N0 N2) (Nat.le_max_right _ _)
  have h3 := key (max N0 N2) (Nat.le_max_left _ _)
  have h4 : r = EvalCond (Evaluate (max N0 N2)) .nil env g2 := h2.symm.trans h3
  exact hr.1 (by rw [h4]; rfl)

/-! ### `QUOTE` -/

theorem EvalList_quote_form (ev : Evaluator F) (E : Expr F) (env : List (Table F))
    (g : Table F) :
    EvalList ev (Expr.list [.sym "QUOTE", E]) env g = (.ok E, g) := by
  rw [EvalList_quote (by rw [StartsWith_list]; decide) (by rw [StartsWith_list]; decide)
    (by rw [StartsWith_list]; decide) (by rw [StartsWith_list]; decide),
    EvalList.caseQuote, AssertList_list]
  rfl

theorem ParseExpr_ok_ne_end {n : Nat} {t : LispToken} {ts rest : List LispToken} {E : Expr F}
    (h : ParseExpr n (t :: ts) = .ok (E, rest)) : t.kind ≠ .EndParenthesis := by
  intro hk
  cases n with
  | zero => simp [ParseExpr] at h
  | succ n => simp [ParseExpr, hk] at h

theorem ParseExpr_ok_ne_nil {n : Nat} {rest : List LispToken} {E : Expr F}
    (h : ParseExpr n [] = .ok (E, rest)) : False := by
  cases n <;> simp [ParseExpr] at h

/-! ### Frames -/

omit [Runtime F] in
theorem Table.find_define (t : Table F) (s k : String) (e : Expr F) :
    Table.find (Env.define t s e) k = if k = s then some e else Table.find t k := by
  induction t with
  | nil =>
    simp only [Env.define, Table.find]
    by_cases h : k = s
    · rw [if_pos h.symm, if_pos h]
    · rw [if_neg (fun h2 => h h2.symm), if_neg h]
  | cons p rest ih =>
    obtain ⟨k2, v2⟩ := p
    simp only [Env.define]
    by_cases hk : k2 = s
    · rw [if_pos hk]
      simp only [Table.find]
      by_cases h : k = s
      · rw [if_pos h, if_pos (hk.trans h.symm)]
      · rw [if_neg h, if_neg (fun h2 => h (h2.symm.trans hk)),
          if_neg (fun h2 => h (h2.symm.trans hk))]
    · rw [if_neg hk]
      simp only [Table.find, ih]
      by_cases h : k = s
      · rw [if_pos h, if_pos h, if_neg (fun h2 => hk (h2.trans h))]
      · rw [if_neg h, if_neg h]

omit [Runtime F] in
theorem Env.lookup_of_frame (frame : Table F) (rest : List (Table F)) (g : Table F)
    (s : String) (old : Expr F) (h : Table.find frame s = some old) :
    Env.lookup (frame :: rest) g s = some old := by
  simp only [Env.lookup, h]

/-! ### `SET` -/

theorem EvalList_set_form (ev : Evaluator F) (X : String) (e : Expr F)
    (env : List (Table F)) (g : Table F) :
    EvalList ev (Expr.list [.sym "SET", .sym X, e]) env g =
      Result.bind (ev e env g) fun v g1 => (.ok v, Env.define g1 X v) := by
  rw [EvalList_set (by rw [StartsWith_list]; decide) (by rw [StartsWith_list]; decide)
    (by rw [StartsWith_list]; decide), EvalList.caseSet, AssertList_list]
  rfl

/-! ### `DEFINE` and the application of a procedure -/

theorem FunParams_symbols (params : List String) :
    FunParams (Expr.list (params.map .sym) : Expr F) = .ok params := by
  induction params with
  | nil => rfl
  | cons p ps ih => simp only [List.map_cons, Expr.list, FunParams, SymbolCast, ih]

theorem EvalList_define_form (ev : Evaluator F) (name : String) (params : List String)
    (body : Expr F) (env : List (Table F)) (g : Table F) :
    EvalList ev (defineForm name params body) env g =
      (.ok .nil, Env.define g name (.fn params body (some name))) := by
  unfold defineForm
  rw [EvalList_define (by rw [StartsWith_list]; decide) (by rw [StartsWith_list]; decide)
    (by rw [StartsWith_list]; decide) (by rw [StartsWith_list]; decide)
    (by rw [StartsWith_list]; decide), EvalList.caseDefine, AssertList_list]
  simp only [List.length_cons, List.length_nil, if_true, Result.lift_ok, Result.bind_ok]
  have h2 : Nth (Expr.list [Expr.sym "DEFINE", Expr.sym name,
      Expr.list (params.map .sym), body]) 2 = Expr.list (params.map .sym) := rfl
  rw [h2, FunParams_symbols]
  rfl

omit [Runtime F] in
theorem find_bindParams_of_absent (ps : List String) (as : List (Expr F)) (t : Table F)
    (p : String) (h : ∀ j : Nat, ps[j]? ≠ some p) :
    Table.find (bindParams ps as t) p = Table.find t p := by
  induction ps generalizing as t with
  | nil => cases as <;> rfl
  | cons q ps ih =>
    cases as with
    | nil => rfl
    | cons a as =>
      simp only [bindParams]
      have h1 : ∀ j : Nat, ps[j]? ≠ some p := fun j => by
        have := h (j + 1)
        simpa using this
      rw [ih as _ h1, Table.find_define, if_neg]
      intro hq
      exact h 0 (by simp [hq])

omit [Runtime F] in
theorem find_bindParams_last (ps : List String) (as : List (Expr F)) (t : Table F)
    (i : Nat) (p : String) (a : Expr F) (hp : ps[i]? = some p) (ha : as[i]? = some a)
    (hlast : ∀ j, i < j → ps[j]? ≠ some p) :
    Table.find (bindParams ps as t) p = some a := by
  induction ps generalizing as t i with
  | nil => simp at hp
  | cons q ps ih =>
    cases as with
    | nil => simp at ha
    | cons b as =>
      cases i with
      | zero =>
        simp only [List.getElem?_cons_zero, Option.some.injEq] at hp ha
        subst hp ha
        simp only [bindParams]
        have h1 : ∀ j : Nat, ps[j]? ≠ some q := fun j => by
          have := hlast (j + 1) (by omega)
          simpa using this
        rw [find_bindParams_of_absent ps as _ q h1, Table.find_define, if_pos rfl]
      | succ i =>
        simp only [List.getElem?_cons_succ] at hp ha
        simp only [bindParams]
        exact ih as _ i hp ha (fun j hj => by
          have := hlast (j + 1) (by omega)
          simpa using this)

theorem EvalArgs_of_ArgValues {forms vs : List (Expr F)} {env : List (Table F)}
    {g g2 : Table F} (h : ArgValues forms env g vs g2) :
    ∃ N, ∀ n, N ≤ n → EvalArgs (Evaluate n) (Expr.list forms) env g = (.ok vs, g2) := by
  induction forms generalizing g vs with
  | nil =>
    obtain ⟨h1, h2⟩ := h
    subst h1 h2
    exact ⟨0, fun _ _ => rfl⟩
  | cons a rest ih =>
    obtain ⟨v, g1, vs1, ha, hrest, hvs⟩ := h
    obtain ⟨N1, hN1⟩ := ha.eventually
    obtain ⟨N2, hN2⟩ := ih hrest
    subst hvs
    refine ⟨max N1 N2, fun n hn => ?_⟩
    simp only [Expr.list, EvalArgs, hN1 n (by omega), Result.bind_ok, hN2 n (by omega)]

theorem EvalList_call_form (ev : Evaluator F) (name : String) (hname : name ∉ keywords)
    (forms : List (Expr F)) (env : List (Table F)) (g : Table F) :
    EvalList ev (Expr.list (.sym name :: forms)) env g =
      Result.bind (ev (.sym name) env g) fun fn g1 =>
        Result.bind (EvalArgs ev (Expr.list forms) env g1) fun args g2 =>
          Apply ev fn args env g2 := by
  simp only [keywords, List.mem_cons, List.mem_singleton, not_or, List.mem_nil_iff,
    not_false_eq_true, and_true] at hname
  obtain ⟨h0, h1, h2, h3, h4, h5, h6, h7⟩ := hname
  rw [EvalList_application (by rw [StartsWith_list]; simpa using h0)
    (by rw [StartsWith_list]; simpa using h1) (by rw [StartsWith_list]; simpa using h2)
    (by rw [StartsWith_list]; simpa using h3) (by rw [StartsWith_list]; simpa using h4)
    (by rw [StartsWith_list]; simpa using h5) (by rw [StartsWith_list]; simpa using h6)
    (by rw [StartsWith_list]; simpa using h7)]
  rfl

theorem EvalList_call {name : String} (hname : name ∉ keywords) {params : List String}
    {body : Expr F} {nm : Option String} {forms vs : List (Expr F)} {env : List (Table F)}
    {g g2 : Table F} (n : Nat) (hfn : Env.lookup env g name = some (.fn params body nm))
    (hargs : EvalArgs (Evaluate (n + 1)) (Expr.list forms) env g = (.ok vs, g2))
    (hlen : vs.length = params.length) :
    EvalList (Evaluate (n + 1)) (Expr.list (.sym name :: forms)) env g =
      Evaluate (n + 1) body (bindParams params vs [] :: env) g2 := by
  have hsym : Evaluate (n + 1) (.sym name) env g = (.ok (.fn params body nm), g) := by
    simp only [Evaluate, Evaluate.body, EvalVar, hfn]
  rw [EvalList_call_form _ _ hname, hsym, Result.bind_ok, hargs, Result.bind_ok]
  simp only [Apply]
  rw [if_neg (not_not.mpr hlen)]

theorem Evaluates_call_iff {name : String} (hname : name ∉ keywords) {params : List String}
    {body : Expr F} {nm : Option String} {forms vs : List (Expr F)} {env : List (Table F)}
    {g g2 : Table F} (hfn : Env.lookup env g name = some (.fn params body nm))
    (hargs : ArgValues forms env g vs g2) (hlen : vs.length = params.length)
    (r : Result F (Expr F)) :
    Evaluates (Expr.list (.sym name :: forms)) env g r ↔
      Evaluates body (bindParams params vs [] :: env) g2 r := by
  obtain ⟨N0, hN0⟩ := EvalArgs_of_ArgValues hargs
  have key : ∀ n, N0 ≤ n →
      EvalList (Evaluate (n + 1)) (Expr.list (.sym name :: forms)) env g =
        Evaluate (n + 1) body (bindParams params vs [] :: env) g2 :=
    fun n hn => EvalList_call hname n hfn (hN0 (n + 1) (by omega)) hlen
  constructor
  · intro h
    obtain ⟨N2, hN2⟩ := Evaluates.EvalList_eventually h
    have h0 : N0 ≤ max N2 N0 := by omega
    have h2 : N2 ≤ max N2 N0 + 1 := by omega
    exact ⟨h.1, max N2 N0 + 1, (key _ h0).symm.trans (hN2 _ h2)⟩
  · intro h
    obtain ⟨N2, hN2⟩ := h.eventually
    have h0 : N0 ≤ max N2 N0 := by omega
    have h2 : N2 ≤ max N2 N0 + 1 := by omega
    exact Evaluates.of_EvalList (max N2 N0 + 1) h.1 ((key _ h0).trans (hN2 _ h2))

/-! ### The initial global frame -/

omit [Runtime F] in
theorem find_foldl_DefPrim (l : List (String × PrimFun)) (g : Table F) (k : String) :
    Table.find (l.foldl (fun g p => DefPrim g p.1 p.2) g) k =
      match l.reverse.find? (fun p => SymbolExpr.GetInstance p.1 == k) with
      | some p => some (.prim p.2 ("<primitive:" ++ p.1 ++ ">"))
      | none => Table.find g k := by
  induction l generalizing g with
  | nil => rfl
  | cons p l ih =>
    rw [List.foldl_cons, ih, List.reverse_cons, List.find?_append]
    cases h : List.find? (fun p => SymbolExpr.GetInstance p.1 == k) l.reverse with
    | some q => rfl
    | none =>
      simp only [Option.none_or, List.find?_cons, List.find?_nil, DefPrim, Table.find_define]
      by_cases hk : k = SymbolExpr.GetInstance p.1
      · simp [hk]
      · have : (SymbolExpr.GetInstance p.1 == k) = false := by
          simpa using fun h => hk h.symm
        simp [hk, this]

omit [Runtime F] in
/-- The initial global frame binds the names of the primitives and nothing
else. -/
theorem find_InitGlobalEnv (k : String) :
    Table.find (InitGlobalEnv : Table F) k =
      match primitives.reverse.find? (fun p => SymbolExpr.GetInstance p.1 == k) with
      | some p => some (.prim p.2 ("<primitive:" ++ p.1 ++ ">"))
      | none => none := by
  unfold InitGlobalEnv
  rw [find_foldl_DefPrim]
  rfl

omit [Runtime F] in
theorem find_scopeG_G :
    Table.find (scopeG : Table F) "G" =
      some (.fn ["X"] (Expr.list [.sym "F"]) (some "G")) := by
  simp only [scopeG, Table.find_define, if_true]

omit [Runtime F] in
theorem find_scopeG_F :
    Table.find (scopeG : Table F) "F" = some (.fn [] (.sym "X") (some "F")) := by
  simp only [scopeG, scopeF, Table.find_define, if_true]
  rfl

omit [Runtime F] in
theorem find_scopeG_X : Table.find (scopeG : Table F) "X" = none := by
  have h : primitives.reverse.find? (fun p => SymbolExpr.GetInstance p.1 == "X") = none := by
    decide
  simp only [scopeG, scopeF, Table.find_define, find_InitGlobalEnv, h]
  rfl

/-- The dynamic scope example on an argument that evaluates to itself, in a
global frame `G` that binds `F` and `G` as the two `DEFINE` forms do. -/
theorem Evaluate_G_literal (n : Nat) (v : Expr F) (G : Table F)
    (hv : ∀ env g, Evaluate (n + 2) v env g = (.ok v, g))
    (hG : Table.find G "G" = some (.fn ["X"] (Expr.list [.sym "F"]) (some "G")))
    (hF : Table.find G "F" = some (.fn [] (.sym "X") (some "F"))) :
    Evaluate (n + 3) (Expr.list [.sym "G", v]) [] G = (.ok v, G) := by
  have hG1 : Env.lookup [] G "G" =
      some (.fn ["X"] (Expr.list [.sym "F"]) (some "G")) := hG
  have hF1 : Env.lookup [bindParams ["X"] [v] []] G "F" =
      some (.fn [] (.sym "X") (some "F")) := by
    simp only [Env.lookup, bindParams, Env.define, Table.find]
    rw [if_neg (by decide)]
    exact hF
  have hargs : EvalArgs (Evaluate (n + 2)) (Expr.list [v]) [] G = (.ok [v], G) := by
    simp only [Expr.list, EvalArgs, hv, Result.bind_ok]
  rw [Evaluate_succ_list, EvalList_call (by decide) (n + 1) hG1 hargs rfl,
    Evaluate_succ_list,
    EvalList_call (by decide) n hF1 (show EvalArgs _ (Expr.list []) _ _ = (.ok [], _) from rfl)
      rfl]
  simp only [Evaluate, Evaluate.body, EvalVar, Env.lookup, bindParams, Env.define, Table.find,
    if_true]

/-- The function `F` of the dynamic scope example called from the top level,
in a global frame `G` without a binding of `X`. -/
theorem Evaluate_F_top (n : Nat) (G : Table F)
    (hX : Table.find G "X" = none)
    (hF : Table.find G "F" = some (.fn [] (.sym "X") (some "F"))) :
    Evaluate (n + 2) (Expr.list [.sym "F"]) [] G = (.error "Unbound variable: X", G) := by
  have hF1 : Env.lookup [] G "F" = some (.fn [] (.sym "X") (some "F")) := hF
  rw [Evaluate_succ_list,
    EvalList_call (by decide) n hF1
      (show EvalArgs _ (Expr.list []) _ _ = (.ok [], _) from rfl) rfl]
  simp only [Evaluate, Evaluate.body, EvalVar, Env.lookup, bindParams, Table.find, hX]
  rfl

/-! ### The fuel of the tokenizer -/

omit [Runtime F] in
theorem span_snd_length_le (q : Char → Bool) (l : List Char) :
    (l.span q).2.length ≤ l.length := by
  rw [List.span_eq_take_drop]
  exact (List.dropWhile_sublist q).length_le

omit [Runtime F] in
/-- The result of the loop of `GenerateTokens` does not depend on the bound on
its rounds, once the bound is at least the number of characters left. -/
theorem GenerateTokens_loop_fuel (n m : Nat) (cs : List Char) (hn : cs.length ≤ n)
    (hm : cs.length ≤ m) : GenerateTokens.loop n cs = GenerateTokens.loop m cs := by
  induction n generalizing m cs with
  | zero =>
    have hcs : cs = [] := List.eq_nil_of_length_eq_zero (by omega)
    subst hcs
    cases m <;> rfl
  | succ n ih =>
    cases m with
    | zero =>
      have hcs : cs = [] := List.eq_nil_of_length_eq_zero (by omega)
      subst hcs
      rfl
    | succ m =>
      cases cs with
      | nil => rfl
      | cons c rest =>
        simp only [List.length_cons] at hn hm
        have hrest := ih m rest (by omega) (by omega)
        simp only [GenerateTokens.loop]
        by_cases h1 : isspace c = true
        · simp only [h1, if_true]
          exact hrest
        simp only [h1, Bool.false_eq_true, if_false]
        by_cases h2 : c = dquote
        · simp only [if_pos h2]
          have hlen := span_snd_length_le (fun d => d != dquote) rest
          cases hs : rest.span (fun d => d != dquote) with
          | mk body tail =>
            rw [hs] at hlen
            cases tail with
            | nil => rfl
            | cons x after =>
              simp only [List.length_cons] at hlen
              simp only [ih m after (by omega) (by omega)]
        simp only [if_neg h2]
        by_cases h3 : c = '('
        · simp only [if_pos h3]
          cases rest with
          | nil => simp only [hrest]
          | cons d after =>
            by_cases h4 : d = ')'
            · subst h4
              simp only [List.length_cons] at hn hm
              simp only [ih m after (by omega) (by omega)]
            · have e1 : ∀ k, (match d :: after with
                  | ')' :: after =>
                    match GenerateTokens.loop k after with
                    | .ok ts => (Except.ok ((⟨.Nil, ""⟩ : LispToken) :: ts) :
                        Except String (List LispToken))
                    | .error m => .error m
                  | _ =>
                    match GenerateTokens.loop k (d :: after) with
                    | .ok ts => .ok (⟨.BeginParenthesis, "("⟩ :: ts)
                    | .error m => .error m) =
                  match GenerateTokens.loop k (d :: after) with
                  | .ok ts => .ok (⟨.BeginParenthesis, "("⟩ :: ts)
                  | .error m => .error m := by
                intro k
                split
                · rename_i heq
                  simp only [List.cons.injEq] at heq
                  exact absurd heq.1 h4
                · rfl
              rw [e1 n, e1 m, hrest]
        simp only [if_neg h3]
        by_cases h5 : c = ')'
        · simp only [if_pos h5, hrest]
        simp only [if_neg h5]
        by_cases h6 : c = squote
        · simp only [if_pos h6, hrest]
        simp only [if_neg h6]
        have hsep : IsSeparator c = false := by
          simp only [IsSeparator, Bool.or_eq_false_iff, beq_eq_false_iff_ne, ne_eq]
          exact ⟨⟨⟨⟨by simpa using h1, h3⟩, h5⟩, h2⟩, h6⟩
        have hlen := span_snd_length_le (fun d => !IsSeparator d) rest
        have hspan : (c :: rest).span (fun d => !IsSeparator d) =
            (c :: (rest.span (fun d => !IsSeparator d)).1,
              (rest.span (fun d => !IsSeparator d)).2) := by
          simp only [List.span_eq_take_drop, List.takeWhile, List.dropWhile, hsep,
            Bool.not_false]
        rw [hspan]
        simp only [ih m (rest.span (fun d => !IsSeparator d)).2 (by omega) (by omega)]

/-! ### The fuel of the parser

Twice the number of tokens, and one or two more, is enough for `ParseExpr`,
`ParsePair` and `ParseQuote`, and a successful call takes at least one
token. -/

theorem Parse_fuel (n : Nat) :
    (∀ ts : List LispToken, 2 * ts.length + 1 ≤ n →
      (ParseExpr n ts : Outcome (Expr F × List LispToken)) ≠ .outOfFuel ∧
      ∀ e rest, (ParseExpr n ts : Outcome (Expr F × List LispToken)) = .ok (e, rest) →
        rest.length < ts.length) ∧
    (∀ ts : List LispToken, 2 * ts.length + 2 ≤ n →
      (ParsePair n ts : Outcome (Expr F × List LispToken)) ≠ .outOfFuel ∧
      ∀ e rest, (ParsePair n ts : Outcome (Expr F × List LispToken)) = .ok (e, rest) →
        rest.length < ts.length) ∧
    (∀ ts : List LispToken, 2 * ts.length + 2 ≤ n →
      (ParseQuote n ts : Outcome (Expr F × List LispToken)) ≠ .outOfFuel ∧
      ∀ e rest, (ParseQuote n ts : Outcome (Expr F × List LispToken)) = .ok (e, rest) →
        rest.length < ts.length) := by
  induction n with
  | zero =>
    refine ⟨fun ts h => ?_, fun ts h => ?_, fun ts h => ?_⟩ <;> omega
  | succ n ih =>
    obtain ⟨ihE, ihP, ihQ⟩ := ih
    refine ⟨fun ts h => ?_, fun ts h => ?_, fun ts h => ?_⟩
    · cases ts with
      | nil => simp [ParseExpr]
      | cons t rest =>
        simp only [List.length_cons] at h
        have hP := ihP rest (by omega)
        have hQ := ihQ rest (by omega)
        cases hk : t.kind <;> simp only [ParseExpr, hk]
        case Num =>
          cases (Runtime.stof t.value : Option F) <;> simp
        case BeginParenthesis =>
          exact ⟨hP.1, fun e r he => Nat.lt_succ_of_lt (hP.2 e r he)⟩
        case Quote =>
          exact ⟨hQ.1, fun e r he => Nat.lt_succ_of_lt (hQ.2 e r he)⟩
        all_goals simp
    · have hE := ihE ts (by omega)
      simp only [ParsePair]
      cases he : (ParseExpr n ts : Outcome (Expr F × List LispToken)) with
      | outOfFuel => exact absurd he hE.1
      | error m => simp
      | ok p =>
        obtain ⟨e, r⟩ := p
        have hlt := hE.2 e r he
        cases r with
        | nil => simp
        | cons t rest =>
          simp only
          by_cases hk : t.kind = .EndParenthesis
          · simp only [if_pos hk]
            refine ⟨by simp, fun e2 r2 h2 => ?_⟩
            simp only [Outcome.ok.injEq, Prod.mk.injEq] at h2
            rw [← h2.2]
            simp only [List.length_cons] at hlt
            omega
          · simp only [if_neg hk]
            have hP := ihP (t :: rest) (by omega)
            cases hp : (ParsePair n (t :: rest) : Outcome (Expr F × List LispToken)) with
            | outOfFuel => exact absurd hp hP.1
            | error m => simp
            | ok q =>
              obtain ⟨e3, r3⟩ := q
              refine ⟨by simp, fun e2 r2 h2 => ?_⟩
              simp only [Outcome.ok.injEq, Prod.mk.injEq] at h2
              rw [← h2.2]
              exact lt_trans (hP.2 e3 r3 hp) hlt
    · have hE := ihE ts (by omega)
      simp only [ParseQuote]
      cases he : (ParseExpr n ts : Outcome (Expr F × List LispToken)) with
      | outOfFuel => exact absurd he hE.1
      | error m => simp
      | ok p =>
        obtain ⟨e, r⟩ := p
        refine ⟨by simp, fun e2 r2 h2 => ?_⟩
        simp only [Outcome.ok.injEq, Prod.mk.injEq] at h2
        rw [← h2.2]
        exact hE.2 e r he

theorem Process_loop_append {fuel : Nat} {pre : List (Expr F)} {g g1 : Table F}
    {vs : List (Expr F)} (h : FormsRun fuel pre g vs g1) (rest : List (Expr F))
    (out : List String) :
    Process.loop fuel (pre ++ rest) g out =
      Process.loop fuel rest g1 (out ++ vs.map Expr.ToString) := by
  induction pre generalizing g vs out with
  | nil =>
    obtain ⟨h1, h2⟩ := h
    subst h1 h2
    simp
  | cons e pre ih =>
    obtain ⟨v, g2, vs1, he, hrest, hvs⟩ := h
    subst hvs
    simp only [List.cons_append, Process.loop, he]
    have h1 := ih hrest (out ++ [v.ToString])
    simp only [List.map_cons, List.append_assoc, List.singleton_append] at h1 ⊢
    exact h1

theorem Process_loop_stops {fuel : Nat} {pre : List (Expr F)} {g g1 g2 : Table F}
    {vs : List (Expr F)} {f : Expr F} {m : String} (h : FormsRun fuel pre g vs g1)
    (hf : Evaluate fuel f [] g1 = (.error m, g2)) (post : List (Expr F)) :
    Process.loop fuel (pre ++ f :: post) g [] = ⟨vs.map Expr.ToString, .error m, g2⟩ := by
  rw [Process_loop_append h]
  simp only [Process.loop, hf, List.nil_append]

/-! ### Failures of the primitives -/

theorem NumCast_error {e : Expr F} {m : String} (h : NumCast e = .error m) :
    e.Type ≠ .Num ∧ m = "Not a number: " ++ e.ToString := by
  cases e <;> simp [NumCast, Expr.Type] at h ⊢ <;> exact h.symm

theorem PairCast_error {e : Expr F} {m : String} (h : PairCast e = .error m) :
    e.Type ≠ .Pair ∧ m = "Not a pair: " ++ e.ToString := by
  cases e <;> simp [PairCast, Expr.Type] at h ⊢ <;> exact h.symm

omit [Runtime F] in
theorem AssertArgsNum_error {name : String} {args : List (Expr F)} {n : Nat} {m : String}
    (h : AssertArgsNum name args n = .error m) :
    m = name ++ ": Wrong number of arguments." := by
  unfold AssertArgsNum at h
  split_ifs at h
  simp only [Except.error.injEq] at h
  exact h.symm

theorem NotANumber.cons {args : List (Expr F)} {m : String} (e : Expr F)
    (h : NotANumber args m) : NotANumber (e :: args) m := by
  obtain ⟨a, ha, h1, h2⟩ := h
  exact ⟨a, List.mem_cons_of_mem _ ha, h1, h2⟩

theorem NotANumber.head {e : Expr F} {m : String} (args : List (Expr F))
    (h : NumCast e = .error m) : NotANumber (e :: args) m :=
  ⟨e, List.mem_cons_self _ _, (NumCast_error h).1, (NumCast_error h).2⟩

theorem PrimPlus_loop_error {acc : F} {args : List (Expr F)} {m : String}
    (h : PrimPlus.loop acc args = .error m) : NotANumber args m := by
  induction args generalizing acc with
  | nil => simp [PrimPlus.loop] at h
  | cons e rest ih =>
    simp only [PrimPlus.loop] at h
    cases he : NumCast e with
    | error m2 =>
      rw [he] at h
      simp only [Except.error.injEq] at h
      subst h
      exact NotANumber.head rest he
    | ok v =>
      rw [he] at h
      exact (ih h).cons e

theorem PrimMinus_loop_error {acc : F} {args : List (Expr F)} {m : String}
    (h : PrimMinus.loop acc args = .error m) : NotANumber args m := by
  induction args generalizing acc with
  | nil => simp [PrimMinus.loop] at h
  | cons e rest ih =>
    simp only [PrimMinus.loop] at h
    cases he : NumCast e with
    | error m2 =>
      rw [he] at h
      simp only [Except.error.injEq] at h
      subst h
      exact NotANumber.head rest he
    | ok v =>
      rw [he] at h
      exact (ih h).cons e

theorem PrimMul_loop_error {acc : F} {args : List (Expr F)} {m : String}
    (h : PrimMul.loop acc args = .error m) : NotANumber args m := by
  induction args generalizing acc with
  | nil => simp [PrimMul.loop] at h
  | cons e rest ih =>
    simp only [PrimMul.loop] at h
    cases he : NumCast e with
    | error m2 =>
      rw [he] at h
      simp only [Except.error.injEq] at h
      subst h
      exact NotANumber.head rest he
    | ok v =>
      rw [he] at h
      exact (ih h).cons e

theorem Div_error {n d : F} {m : String} (h : Div n d = .error m) :
    m = "/: Division by zero." := by
  unfold Div at h
  split_ifs at h
  simp only [Except.error.injEq] at h
  exact h.symm

theorem PrimDiv_loop_error {acc : F} {args : List (Expr F)} {m : String}
    (h : PrimDiv.loop acc args = .error m) :
    NotANumber args m ∨ m = "/: Division by zero." := by
  induction args generalizing acc with
  | nil => simp [PrimDiv.loop] at h
  | cons e rest ih =>
    simp only [PrimDiv.loop] at h
    cases he : NumCast e with
    | error m2 =>
      rw [he] at h
      simp only [Except.error.injEq] at h
      subst h
      exact Or.inl (NotANumber.head rest he)
    | ok v =>
      rw [he] at h
      simp only at h
      cases hd : Div acc v with
      | error m3 =>
        rw [hd] at h
        simp only [Except.error.injEq] at h
        subst h
        exact Or.inr (Div_error hd)
      | ok q =>
        rw [hd] at h
        exact (ih h).imp (fun h1 => h1.cons e) id

theorem numCompare_error {cmp : F → F → Bool} {a b : Expr F} {m : String}
    (h : numCompare cmp [a, b] = .error m) : NotANumber [a, b] m := by
  simp only [numCompare, List.getD_cons_zero, List.getD_cons_succ] at h
  cases ha : NumCast a with
  | error m2 =>
    rw [ha] at h
    simp only [Except.error.injEq] at h
    subst h
    exact NotANumber.head _ ha
  | ok x =>
    rw [ha] at h
    cases hb : NumCast b with
    | error m3 =>
      rw [hb] at h
      simp only [Except.error.injEq] at h
      subst h
      exact (NotANumber.head _ hb).cons a
    | ok y =>
      rw [hb] at h
      simp only at h
      split_ifs at h

theorem Evaluate_extends_of_le {n m : Nat} (h : n ≤ m) :
    Evaluator.Extends (Evaluate n : Evaluator F) (Evaluate m) :=
  fun _ _ _ hr => Evaluate_mono h hr rfl

theorem Applies.eventually_applies {fv : Expr F} {args : List (Expr F)} {env : List (Table F)}
    {g : Table F} {r : Result F (Expr F)} (h : Applies fv args env g r) :
    ∃ N, ∀ n, N ≤ n → Apply (Evaluate n) fv args env g = r := by
  obtain ⟨hr, N, hN⟩ := h
  refine ⟨N, fun n hn => ?_⟩
  rw [Apply_extends (Evaluate_extends_of_le hn) fv args env g (by rw [hN]; exact hr)]
  exact hN

/-! ### `EVAL` -/

theorem EvalList_eval_form (ev : Evaluator F) (x : Expr F) (env : List (Table F))
    (g : Table F) :
    EvalList ev (Expr.list [.sym "EVAL", x]) env g =
      Result.bind (ev x env g) fun e g1 => ev e env g1 := by
  rw [EvalList_eval (by rw [StartsWith_list]; decide) (by rw [StartsWith_list]; decide)
    (by rw [StartsWith_list]; decide) (by rw [StartsWith_list]; decide)
    (by rw [StartsWith_list]; decide) (by rw [StartsWith_list]; decide)
    (by rw [StartsWith_list]; decide) (by rw [StartsWith_list]; decide),
    EvalList.caseEval, AssertList_list]
  rfl

theorem Evaluate_eval_quote (n : Nat) (E : Expr F) (env : List (Table F)) (g : Table F) :
    Evaluate (n + 2) (Expr.list [.sym "EVAL", Expr.list [.sym "QUOTE", E]]) env g =
      Evaluate (n + 1) E env g := by
  rw [Evaluate_succ_list, EvalList_eval_form, Evaluate_succ_list, EvalList_quote_form,
    Result.bind_ok]

theorem Evaluates_eval_quote_iff (E : Expr F) (env : List (Table F)) (g : Table F)
    (r : Result F (Expr F)) :
    Evaluates (Expr.list [.sym "EVAL", Expr.list [.sym "QUOTE", E]]) env g r ↔
      Evaluates E env g r := by
  constructor
  · rintro ⟨hr, n, hn⟩
    refine ⟨hr, n + 1, ?_⟩
    rw [← Evaluate_eval_quote]
    exact Evaluate_mono (by omega) hr hn
  · rintro ⟨hr, n, hn⟩
    refine ⟨hr, n + 2, ?_⟩
    rw [Evaluate_eval_quote]
    exact Evaluate_mono (by omega) hr hn

/-! ### `APPLY` -/

theorem listArgs_list (vs : List (Expr F)) : listArgs (Expr.list vs) = .ok vs := by
  induction vs with
  | nil => rfl
  | cons v vs ih => simp only [Expr.list, listArgs, ih]

theorem listArgs_chain (es : List (Expr F)) (z : Expr F) (h1 : z.Type ≠ .Pair)
    (h2 : z.Type ≠ .Nil) :
    listArgs (Expr.chain es z) = .error ("Not a pair: " ++ z.ToString) := by
  induction es with
  | nil =>
    cases z <;> simp [Expr.chain, listArgs, Expr.Type] at h1 h2 ⊢
  | cons e es ih =>
    simp only [Expr.chain, List.foldr_cons, listArgs] at ih ⊢
    rw [ih]

omit [Runtime F] in
theorem Expr.list_or_chain (e : Expr F) :
    (∃ vs, e = Expr.list vs) ∨
      ∃ es z, z.Type ≠ .Pair ∧ z.Type ≠ .Nil ∧ e = Expr.chain es z := by
  induction e with
  | pair a b _ ihb =>
    rcases ihb with ⟨vs, h⟩ | ⟨es, z, h1, h2, h⟩
    · exact Or.inl ⟨a :: vs, by rw [h]; rfl⟩
    · exact Or.inr ⟨a :: es, z, h1, h2, by rw [h]; rfl⟩
  | nil => exact Or.inl ⟨[], rfl⟩
  | num x => exact Or.inr ⟨[], _, by simp [Expr.Type], by simp [Expr.Type], rfl⟩
  | str x => exact Or.inr ⟨[], _, by simp [Expr.Type], by simp [Expr.Type], rfl⟩
  | sym x => exact Or.inr ⟨[], _, by simp [Expr.Type], by simp [Expr.Type], rfl⟩
  | tru => exact Or.inr ⟨[], _, by simp [Expr.Type], by simp [Expr.Type], rfl⟩
  | fn ps b nm _ => exact Or.inr ⟨[], _, by simp [Expr.Type], by simp [Expr.Type], rfl⟩
  | prim f nm => exact Or.inr ⟨[], _, by simp [Expr.Type], by simp [Expr.Type], rfl⟩

theorem EvalList_apply_form (ev : Evaluator F) (f l : Expr F) (env : List (Table F))
    (g : Table F) :
    EvalList ev (Expr.list [.sym "APPLY", f, l]) env g =
      Result.bind (ev f env g) fun fn g1 =>
        Result.bind (ev l env g1) fun lv g2 =>
          Result.bind (Result.lift (listArgs lv) g2) fun args g3 =>
            Apply ev fn args env g3 := by
  rw [EvalList_apply (by rw [StartsWith_list]; decide) (by rw [StartsWith_list]; decide)
    (by rw [StartsWith_list]; decide) (by rw [StartsWith_list]; decide)
    (by rw [StartsWith_list]; decide) (by rw [StartsWith_list]; decide)
    (by rw [StartsWith_list]; decide), EvalList.caseApply, AssertList_list]
  rfl

theorem Evaluates_apply_form_iff {f l fv : Expr F} {vs : List (Expr F)}
    {env : List (Table F)} {g g1 g2 : Table F} (hf : Evaluates f env g (.ok fv, g1))
    (hl : Evaluates l env g1 (.ok (Expr.list vs), g2)) (r : Result F (Expr F)) :
    Evaluates (Expr.list [.sym "APPLY", f, l]) env g r ↔ Applies fv vs env g2 r := by
  obtain ⟨N1, hN1⟩ := hf.eventually
  obtain ⟨N2, hN2⟩ := hl.eventually
  have key : ∀ n, N1 ≤ n → N2 ≤ n →
      EvalList (Evaluate n) (Expr.list [.sym "APPLY", f, l]) env g =
        Apply (Evaluate n) fv vs env g2 := by
    intro n h1 h2
    rw [EvalList_apply_form, hN1 n h1, Result.bind_ok, hN2 n h2, Result.bind_ok,
      listArgs_list, Result.lift_ok, Result.bind_ok]
  constructor
  · intro h
    obtain ⟨N3, hN3⟩ := h.EvalList_eventually
    have h1 : N1 ≤ max N3 (max N1 N2) := by omega
    have h2 : N2 ≤ max N3 (max N1 N2) := by omega
    have h3 : N3 ≤ max N3 (max N1 N2) := by omega
    exact ⟨h.1, max N3 (max N1 N2), (key _ h1 h2).symm.trans (hN3 _ h3)⟩
  · intro h
    obtain ⟨N3, hN3⟩ := h.eventually_applies
    have h1 : N1 ≤ max N3 (max N1 N2) := by omega
    have h2 : N2 ≤ max N3 (max N1 N2) := by omega
    have h3 : N3 ≤ max N3 (max N1 N2) := by omega
    exact Evaluates.of_EvalList (max N3 (max N1 N2)) h.1 ((key _ h1 h2).trans (hN3 _ h3))

theorem Evaluates_apply_form_improper {f l fv z : Expr F} {es : List (Expr F)}
    {env : List (Table F)} {g g1 g2 : Table F} (hf : Evaluates f env g (.ok fv, g1))
    (hl : Evaluates l env g1 (.ok (Expr.chain es z), g2)) (h1 : z.Type ≠ .Pair)
    (h2 : z.Type ≠ .Nil) :
    Evaluates (Expr.list [.sym "APPLY", f, l]) env g
      (.error ("Not a pair: " ++ z.ToString), g2) := by
  obtain ⟨N1, hN1⟩ := hf.eventually
  obtain ⟨N2, hN2⟩ := hl.eventually
  refine Evaluates.of_EvalList (max N1 N2) (by simp) ?_
  rw [EvalList_apply_form, hN1 _ (by omega), Result.bind_ok, hN2 _ (by omega),
    Result.bind_ok, listArgs_chain es z h1 h2]
  rfl

/-! ### The arithmetic primitives on numbers -/

theorem PrimPlus_loop_nums (acc : F) (xs : List F) :
    PrimPlus.loop acc (xs.map .num) = .ok (xs.foldl Runtime.add acc) := by
  induction xs generalizing acc with
  | nil => rfl
  | cons x xs ih => simp only [List.map_cons, PrimPlus.loop, NumCast, ih, List.foldl_cons]

theorem PrimMul_loop_nums (acc : F) (xs : List F) :
    PrimMul.loop acc (xs.map .num) = .ok (xs.foldl Runtime.mul acc) := by
  induction xs generalizing acc with
  | nil => rfl
  | cons x xs ih => simp only [List.map_cons, PrimMul.loop, NumCast, ih, List.foldl_cons]

theorem PrimMinus_loop_nums (acc : F) (xs : List F) :
    PrimMinus.loop acc (xs.map .num) = .ok (xs.foldl Runtime.sub acc) := by
  induction xs generalizing acc with
  | nil => rfl
  | cons x xs ih => simp only [List.map_cons, PrimMinus.loop, NumCast, ih, List.foldl_cons]

theorem PrimDiv_loop_nums (acc : F) (xs : List F) :
    PrimDiv.loop acc (xs.map .num) =
      if xs.any (fun d => Runtime.eq d Runtime.zero) = true then
        .error "/: Division by zero."
      else .ok (xs.foldl Runtime.div acc) := by
  induction xs generalizing acc with
  | nil => rfl
  | cons x xs ih =>
    simp only [List.map_cons, PrimDiv.loop, NumCast, Div, List.any_cons, List.foldl_cons]
    by_cases hx : Runtime.eq x (Runtime.zero : F) = true
    · simp only [hx, if_true, Bool.true_or]
    · simp only [hx, if_false, Bool.false_or, Bool.false_eq_true]
      exact ih _

theorem PrimDiv_nums (a b : F) (xs : List F) :
    PrimDiv (.num a :: .num b :: xs.map .num) =
      if (b :: xs).any (fun d => Runtime.eq d Runtime.zero) = true then
        .error "/: Division by zero."
      else .ok (.num ((b :: xs).foldl Runtime.div a)) := by
  have h := PrimDiv_loop_nums a (b :: xs)
  simp only [List.map_cons] at h
  simp only [PrimDiv, NumCast, h]
  split_ifs <;> rfl

/-! ### The text of a pair -/

omit [Runtime F] in
theorem intercalate_go_eq (acc s : String) (l : List String) :
    String.intercalate.go acc s l = acc ++ String.join (l.map fun x => s ++ x) := by
  induction l generalizing acc with
  | nil => simp [String.intercalate.go, String.join]
  | cons x l ih =>
    simp only [String.intercalate.go, ih, List.map_cons, String.join, List.foldl_cons]
    have hj : ∀ (init : String) (xs : List String),
        List.foldl (fun r t => r ++ t) init xs = init ++ List.foldl (fun r t => r ++ t) "" xs := by
      intro init xs
      induction xs generalizing init with
      | nil => simp
      | cons y ys ihy =>
        simp only [List.foldl_cons]
        rw [ihy (init ++ y), ihy ("" ++ y)]
        simp [String.append_assoc]
    rw [hj ("" ++ (s ++ x))]
    simp [String.append_assoc]

omit [Runtime F] in
theorem join_cons (x : String) (l : List String) :
    String.join (x :: l) = x ++ String.join l := by
  have hj : ∀ (init : String) (xs : List String),
      List.foldl (fun r t => r ++ t) init xs = init ++ List.foldl (fun r t => r ++ t) "" xs := by
    intro init xs
    induction xs generalizing init with
    | nil => simp
    | cons y ys ihy =>
      simp only [List.foldl_cons]
      rw [ihy (init ++ y), ihy ("" ++ y)]
      simp [String.append_assoc]
  simp only [String.join, List.foldl_cons]
  rw [hj]
  simp

theorem ToStringRest_of_not_pair (z : Expr F) (hz : z.Type ≠ .Pair) :
    z.ToStringRest = if z.Type = .Nil then "" else " . " ++ z.ToString := by
  cases z <;> simp [Expr.Type] at hz ⊢ <;> simp [Expr.ToStringRest, Expr.ToString]

theorem ToStringRest_chain (es : List (Expr F)) (z : Expr F) :
    (Expr.chain es z).ToStringRest =
      String.join (es.map fun e => " " ++ e.ToString) ++ z.ToStringRest := by
  induction es with
  | nil => simp [Expr.chain, String.join]
  | cons e es ih =>
    simp only [Expr.chain, List.foldr_cons, List.map_cons] at ih ⊢
    rw [Expr.ToStringRest, ih, join_cons]
    simp [String.append_assoc]

theorem ToString_chain (e : Expr F) (es : List (Expr F)) (z : Expr F) (hz : z.Type ≠ .Pair) :
    (Expr.chain (e :: es) z).ToString =
      "(" ++ " ".intercalate ((e :: es).map Expr.ToString) ++
        (if z.Type = .Nil then "" else " . " ++ z.ToString) ++ ")" := by
  simp only [Expr.chain, List.foldr_cons, List.map_cons, String.intercalate]
  rw [Expr.ToString]
  have h := ToStringRest_chain es z
  simp only [Expr.chain] at h
  rw [h, intercalate_go_eq, ToStringRest_of_not_pair z hz, List.map_map]
  simp only [String.append_assoc]
  rfl

omit [Runtime F] in
theorem Expr.pair_eq_chain (a b : Expr F) :
    ∃ es z, z.Type ≠ .Pair ∧ Expr.pair a b = Expr.chain (a :: es) z := by
  induction b generalizing a with
  | pair c d _ ihd =>
    obtain ⟨es, z, hz, h⟩ := ihd c
    exact ⟨c :: es, z, hz, by rw [h]; rfl⟩
  | nil => exact ⟨[], _, by simp [Expr.Type], rfl⟩
  | num x => exact ⟨[], _, by simp [Expr.Type], rfl⟩
  | str x => exact ⟨[], _, by simp [Expr.Type], rfl⟩
  | sym x => exact ⟨[], _, by simp [Expr.Type], rfl⟩
  | tru => exact ⟨[], _, by simp [Expr.Type], rfl⟩
  | fn ps b nm _ => exact ⟨[], _, by simp [Expr.Type], rfl⟩
  | prim f nm => exact ⟨[], _, by simp [Expr.Type], rfl⟩

/-! ### The classification of a run of characters -/

omit [Runtime F] in
theorem IsNumber_loop_true_iff (cs : List Char) :
    IsNumber.loop true cs = true ↔ ∀ c ∈ cs, isdigit c = true := by
  induction cs with
  | nil => simp [IsNumber.loop]
  | cons c cs ih =>
    simp only [IsNumber.loop, List.mem_cons, forall_eq_or_imp]
    by_cases hc : isdigit c = true
    · simp only [hc, if_true, true_and]
      exact ih
    · simp [hc]

omit [Runtime F] in
theorem IsNumber_loop_false_iff (cs : List Char) :
    IsNumber.loop false cs = true ↔
      ∃ ds tail : List Char, (∀ c ∈ ds, isdigit c = true) ∧
        (tail = [] ∨ ∃ frac : List Char, (∀ c ∈ frac, isdigit c = true) ∧ tail = '.' :: frac) ∧
        cs = ds ++ tail := by
  have hdot : isdigit '.' = false := by decide
  induction cs with
  | nil =>
    simp only [IsNumber.loop, true_iff]
    exact ⟨[], [], by simp, Or.inl rfl, rfl⟩
  | cons c cs ih =>
    simp only [IsNumber.loop]
    by_cases hc : isdigit c = true
    · simp only [hc, if_true]
      refine Iff.trans ih ?_
      constructor
      · rintro ⟨ds, tail, hds, htail, rfl⟩
        refine ⟨c :: ds, tail, ?_, htail, rfl⟩
        intro x hx
        rcases List.mem_cons.mp hx with rfl | hx
        · exact hc
        · exact hds x hx
      · rintro ⟨ds, tail, hds, htail, h⟩
        cases ds with
        | nil =>
          rcases htail with rfl | ⟨frac, _, rfl⟩
          · simp at h
          · simp only [List.nil_append, List.cons.injEq] at h
            rw [h.1, hdot] at hc
            exact absurd hc (by decide)
        | cons d ds =>
          simp only [List.cons_append, List.cons.injEq] at h
          exact ⟨ds, tail, fun x hx => hds x (List.mem_cons_of_mem _ hx), htail, h.2⟩
    · simp only [hc, Bool.false_eq_true, if_false]
      by_cases hd : c = '.'
      · subst hd
        simp only [beq_self_eq_true, Bool.not_false, Bool.and_self, if_true]
        rw [IsNumber_loop_true_iff]
        constructor
        · intro h
          exact ⟨[], '.' :: cs, by simp, Or.inr ⟨cs, h, rfl⟩, rfl⟩
        · rintro ⟨ds, tail, hds, htail, h⟩
          cases ds with
          | nil =>
            rcases htail with rfl | ⟨frac, hfrac, rfl⟩
            · simp at h
            · simp only [List.nil_append, List.cons.injEq, true_and] at h
              rw [h]
              exact hfrac
          | cons d ds =>
            simp only [List.cons_append, List.cons.injEq] at h
            have := hds d (List.mem_cons_self _ _)
            rw [← h.1, hdot] at this
            exact absurd this (by decide)
      · have hbeq : (c == '.') = false := by simpa using hd
        simp only [hbeq, Bool.false_and, Bool.false_eq_true, if_false, false_iff]
        rintro ⟨ds, tail, hds, htail, h⟩
        cases ds with
        | nil =>
          rcases htail with rfl | ⟨frac, _, rfl⟩
          · simp at h
          · simp only [List.nil_append, List.cons.injEq] at h
            exact hd h.1
        | cons d ds =>
          simp only [List.cons_append, List.cons.injEq] at h
          exact hc (h.1 ▸ hds d (List.mem_cons_self _ _))

omit [Runtime F] in
/-- `IsNumber` accepts exactly the runs of the shape of a number. -/
theorem IsNumber_iff_NumberShape (run : List Char) :
    IsNumber run = true ↔ NumberShape run := by
  have hminus : isdigit '-' = false := by decide
  have hdot : isdigit '.' = false := by decide
  cases run with
  | nil =>
    simp only [IsNumber, Bool.false_eq_true, false_iff]
    rintro ⟨sign, whole, tail, _, hw, _, _, h⟩
    cases whole with
    | nil => exact hw rfl
    | cons w ws => cases sign <;> simp at h
  | cons c cs =>
    simp only [IsNumber]
    by_cases hc : isdigit c = true
    · simp only [hc, Bool.not_true, Bool.false_and, Bool.false_eq_true, if_false]
      rw [IsNumber_loop_false_iff]
      constructor
      · rintro ⟨ds, tail, hds, htail, rfl⟩
        refine ⟨[], c :: ds, tail, Or.inl rfl, by simp, ?_, htail, rfl⟩
        intro x hx
        rcases List.mem_cons.mp hx with rfl | hx
        · exact hc
        · exact hds x hx
      · rintro ⟨sign, whole, tail, hsign, hw, hwd, htail, h⟩
        rcases hsign with rfl | rfl
        · cases whole with
          | nil => exact absurd rfl hw
          | cons w ws =>
            simp only [List.nil_append, List.cons_append, List.cons.injEq] at h
            exact ⟨ws, tail, fun x hx => hwd x (List.mem_cons_of_mem _ hx), htail, h.2⟩
        · simp only [List.cons_append, List.nil_append, List.cons.injEq] at h
          rw [h.1, hminus] at hc
          exact absurd hc (by decide)
    · simp only [hc, Bool.not_false, Bool.true_and]
      by_cases hm : c = '-'
      · subst hm
        cases cs with
        | nil =>
          simp only [beq_self_eq_true, Bool.true_and, Bool.not_false, if_true,
            Bool.false_eq_true, false_iff]
          rintro ⟨sign, whole, tail, hsign, hw, hwd, htail, h⟩
          cases whole with
          | nil => exact hw rfl
          | cons w ws =>
            rcases hsign with rfl | rfl
            · simp only [List.nil_append, List.cons_append, List.cons.injEq] at h
              have := hwd w (List.mem_cons_self _ _)
              rw [← h.1, hminus] at this
              exact absurd this (by decide)
            · simp at h
        | cons d cs =>
          simp only [beq_self_eq_true, Bool.true_and]
          by_cases hd : isdigit d = true
          · simp only [hd, Bool.not_true, Bool.false_eq_true, if_false]
            rw [IsNumber_loop_false_iff]
            constructor
            · rintro ⟨ds, tail, hds, htail, h⟩
              cases ds with
              | nil =>
                rcases htail with rfl | ⟨frac, _, rfl⟩
                · simp at h
                · simp only [List.nil_append, List.cons.injEq] at h
                  rw [h.1, hdot] at hd
                  exact absurd hd (by decide)
              | cons x xs =>
                exact ⟨['-'], x :: xs, tail, Or.inr rfl, by simp, hds, htail, by rw [h]; rfl⟩
            · rintro ⟨sign, whole, tail, hsign, hw, hwd, htail, h⟩
              rcases hsign with rfl | rfl
              · cases whole with
                | nil => exact absurd rfl hw
                | cons w ws =>
                  simp only [List.nil_append, List.cons_append, List.cons.injEq] at h
                  have := hwd w (List.mem_cons_self _ _)
                  rw [← h.1, hminus] at this
                  exact absurd this (by decide)
              · simp only [List.cons_append, List.nil_append, List.cons.injEq, true_and] at h
                exact ⟨whole, tail, hwd, htail, h⟩
          · simp only [hd, Bool.not_false, if_true, Bool.false_eq_true, false_iff]
            rintro ⟨sign, whole, tail, hsign, hw, hwd, htail, h⟩
            cases whole with
            | nil => exact hw rfl
            | cons w ws =>
              rcases hsign with rfl | rfl
              · simp only [List.nil_append, List.cons_append, List.cons.injEq] at h
                have := hwd w (List.mem_cons_self _ _)
                rw [← h.1, hminus] at this
                exact absurd this (by decide)
              · simp only [List.cons_append, List.nil_append, List.cons.injEq, true_and] at h
                exact hd (h.1 ▸ hwd w (List.mem_cons_self _ _))
      · have hbeq : (c == '-') = false := by simpa using hm
        simp only [hbeq, Bool.false_and, Bool.not_false, if_true, Bool.false_eq_true,
          false_iff]
        rintro ⟨sign, whole, tail, hsign, hw, hwd, htail, h⟩
        rcases hsign with rfl | rfl
        · cases whole with
          | nil => exact hw rfl
          | cons w ws =>
            simp only [List.nil_append, List.cons_append, List.cons.injEq] at h
            exact hc (h.1 ▸ hwd w (List.mem_cons_self _ _))
        · simp only [List.cons_append, List.nil_append, List.cons.injEq] at h
          exact hm h.1

omit [Runtime F] in
theorem span_run (q : Char → Bool) (run rest : List Char) (hrun : ∀ c ∈ run, q c = true)
    (hrest : rest = [] ∨ ∃ c rest2, rest = c :: rest2 ∧ q c = false) :
    (run ++ rest).span q = (run, rest) := by
  rw [List.span_eq_take_drop]
  induction run with
  | nil =>
    rcases hrest with rfl | ⟨c, rest2, rfl, hc⟩
    · rfl
    · simp [List.takeWhile, List.dropWhile, hc]
  | cons c run ih =>
    have hc := hrun c (List.mem_cons_self _ _)
    have ih2 := ih (fun x hx => hrun x (List.mem_cons_of_mem _ hx))
    simp only [Prod.mk.injEq] at ih2
    simp only [List.cons_append, List.takeWhile, List.dropWhile, hc, Prod.mk.injEq,
      List.cons.injEq, true_and]
    exact ih2

omit [Runtime F] in
/-- The loop of `GenerateTokens` on a maximal run of characters that are no
separators: one token, made by `classify`, and then the tokens of the rest. -/
theorem GenerateTokens_run (run rest : List Char) (hne : run ≠ [])
    (hrun : ∀ c ∈ run, IsSeparator c = false)
    (hrest : rest = [] ∨ ∃ c rest2, rest = c :: rest2 ∧ IsSeparator c = true) :
    GenerateTokens (String.mk (run ++ rest)) =
      match GenerateTokens (String.mk rest) with
      | .ok ts => .ok (classify run :: ts)
      | .error m => .error m := by
  cases run with
  | nil => exact absurd rfl hne
  | cons c run =>
    have hc := hrun c (List.mem_cons_self _ _)
    simp only [IsSeparator, Bool.or_eq_false_iff, beq_eq_false_iff_ne, ne_eq] at hc
    obtain ⟨⟨⟨⟨h1, h2⟩, h3⟩, h4⟩, h5⟩ := hc
    have hspan : ((c :: run) ++ rest).span (fun d => !IsSeparator d) = (c :: run, rest) := by
      apply span_run
      · intro x hx
        simp [hrun x hx]
      · rcases hrest with rfl | ⟨x, rest2, rfl, hx⟩
        · exact Or.inl rfl
        · exact Or.inr ⟨x, rest2, rfl, by simp [hx]⟩
    simp only [List.cons_append] at hspan
    show GenerateTokens.loop ((run ++ rest).length + 1) (c :: (run ++ rest)) = _
    simp only [GenerateTokens.loop, h1, Bool.false_eq_true, if_false, if_neg h4, if_neg h2,
      if_neg h3, if_neg h5, hspan]
    rw [GenerateTokens_loop_fuel _ rest.length rest (by simp) le_rfl]
    rfl

/-! ### The table of symbols -/

omit [Runtime F] in
theorem SymbolTable.Registered.empty : SymbolTable.empty.Registered := by
  intro s p
  simp [SymbolTable.empty, SymbolTable.find]

omit [Runtime F] in
theorem SymbolTable.find_cons (objs objs2 : List String) (m : List (String × Nat)) (s : String)
    (p : Nat) (s2 : String) :
    SymbolTable.find ⟨objs2, (s, p) :: m⟩ s2 =
      if s = s2 then some p else SymbolTable.find ⟨objs, m⟩ s2 := by
  by_cases h : s = s2
  · simp [SymbolTable.find, List.find?, h]
  · have hb : (s == s2) = false := by simpa using h
    simp [SymbolTable.find, List.find?, hb, h]

omit [Runtime F] in
/-- One call of `GetInstance`: the table still registers exactly the objects
made, the object at the pointer returned has the text in upper case, and the
objects made before are where they were. -/
theorem GetInstance_withTable_spec (t : SymbolTable) (ht : t.Registered) (sym : String) :
    (SymbolExpr.GetInstance.withTable t sym).2.Registered ∧
    (SymbolExpr.GetInstance.withTable t sym).2.objects[(SymbolExpr.GetInstance.withTable t sym).1]? =
      some (SymbolExpr.GetInstance sym) ∧
    (∀ (p : Nat) (s : String), t.objects[p]? = some s →
      (SymbolExpr.GetInstance.withTable t sym).2.objects[p]? = some s) := by
  obtain ⟨objs, m⟩ := t
  simp only [SymbolExpr.GetInstance.withTable, SymbolExpr.GetInstance]
  cases hfind : SymbolTable.find ⟨objs, m⟩ (String.mk (sym.data.map Char.toUpper)) with
  | some p => exact ⟨ht, (ht _ p).mp hfind, fun _ _ h => h⟩
  | none =>
    refine ⟨?_, by simp, ?_⟩
    · intro s2 p
      rw [SymbolTable.find_cons objs]
      by_cases hs : String.mk (sym.data.map Char.toUpper) = s2
      · subst hs
        simp only [if_true, Option.some.injEq]
        constructor
        · intro h
          subst h
          simp
        · intro h
          by_cases hp : p < objs.length
          · rw [List.getElem?_append_left hp] at h
            have := (ht _ p).mpr h
            rw [hfind] at this
            exact absurd this (by simp)
          · by_cases hp2 : p = objs.length
            · exact hp2.symm
            · have : (objs ++ [String.mk (sym.data.map Char.toUpper)])[p]? = none := by
                apply List.getElem?_eq_none
                simp
                omega
              rw [this] at h
              exact absurd h (by simp)
      · rw [if_neg hs, ht s2 p]
        by_cases hp : p < objs.length
        · rw [List.getElem?_append_left hp]
        · have h1 : objs[p]? = none := List.getElem?_eq_none (by omega)
          rw [h1]
          constructor
          · intro h
            exact absurd h (by simp)
          · intro h
            by_cases hp2 : p = objs.length
            · subst hp2
              simp at h
              exact absurd h hs
            · have : (objs ++ [String.mk (sym.data.map Char.toUpper)])[p]? = none := by
                apply List.getElem?_eq_none
                simp
                omega
              rw [this] at h
              exact absurd h (by simp)
    · intro p s h
      have hp : p < objs.length := by
        by_contra hp
        rw [List.getElem?_eq_none (by omega)] at h
        exact absurd h (by simp)
      show (objs ++ _)[p]? = some s
      rw [List.getElem?_append_left hp]
      exact h

omit [Runtime F] in
/-- A sequence of calls of `GetInstance` keeps the table in order and the
objects made before where they were. -/
theorem internAll_spec (calls : List String) (t : SymbolTable) (ht : t.Registered) :
    (t.internAll calls).Registered ∧
    (∀ (p : Nat) (s : String), t.objects[p]? = some s →
      (t.internAll calls).objects[p]? = some s) := by
  induction calls generalizing t with
  | nil => exact ⟨ht, fun _ _ h => h⟩
  | cons sym rest ih =>
    obtain ⟨h1, _, h3⟩ := GetInstance_withTable_spec t ht sym
    obtain ⟨i1, i2⟩ := ih _ h1
    exact ⟨i1, fun p s h => i2 p s (h3 p s h)⟩

/-! ### More fuel for the parser -/

theorem Parse_mono (n : Nat) : ∀ m, n ≤ m →
    (∀ ts : List LispToken, (ParseExpr n ts : Outcome (Expr F × List LispToken)) ≠ .outOfFuel →
      (ParseExpr m ts : Outcome (Expr F × List LispToken)) = ParseExpr n ts) ∧
    (∀ ts : List LispToken, (ParsePair n ts : Outcome (Expr F × List LispToken)) ≠ .outOfFuel →
      (ParsePair m ts : Outcome (Expr F × List LispToken)) = ParsePair n ts) ∧
    (∀ ts : List LispToken, (ParseQuote n ts : Outcome (Expr F × List LispToken)) ≠ .outOfFuel →
      (ParseQuote m ts : Outcome (Expr F × List LispToken)) = ParseQuote n ts) := by
  induction n with
  | zero =>
    intro m _
    refine ⟨fun ts h => ?_, fun ts h => ?_, fun ts h => ?_⟩
    · simp [ParseExpr] at h
    · simp [ParsePair] at h
    · simp [ParseQuote] at h
  | succ n ih =>
    intro m hm
    cases m with
    | zero => omega
    | succ m =>
      obtain ⟨ihE, ihP, ihQ⟩ := ih m (by omega)
      refine ⟨fun ts h => ?_, fun ts h => ?_, fun ts h => ?_⟩
      · cases ts with
        | nil => simp [ParseExpr]
        | cons t rest =>
          cases hk : t.kind <;> simp only [ParseExpr, hk] at h ⊢
          case BeginParenthesis => exact ihP rest h
          case Quote => exact ihQ rest h
      · simp only [ParsePair] at h ⊢
        cases he : (ParseExpr n ts : Outcome (Expr F × List LispToken)) with
        | outOfFuel => simp [he] at h
        | error msg => rw [ihE ts (by simp [he]), he]
        | ok p =>
          obtain ⟨e, r⟩ := p
          rw [ihE ts (by simp [he]), he]
          rw [he] at h
          cases r with
          | nil => rfl
          | cons t rest =>
            simp only at h ⊢
            by_cases hk : t.kind = .EndParenthesis
            · simp only [if_pos hk]
            · simp only [if_neg hk] at h ⊢
              cases hp : (ParsePair n (t :: rest) : Outcome (Expr F × List LispToken)) with
              | outOfFuel => simp [hp] at h
              | error msg => rw [ihP _ (by simp [hp]), hp]
              | ok q => rw [ihP _ (by simp [hp]), hp]
      · simp only [ParseQuote] at h ⊢
        cases he : (ParseExpr n ts : Outcome (Expr F × List LispToken)) with
        | outOfFuel => simp [he] at h
        | error msg => rw [ihE ts (by simp [he]), he]
        | ok p => rw [ihE ts (by simp [he]), he]

theorem ParseExpr_mono {n m : Nat} (hnm : n ≤ m) {ts : List LispToken}
    {r : Outcome (Expr F × List LispToken)} (h : ParseExpr n ts = r) (hr : r ≠ .outOfFuel) :
    ParseExpr m ts = r := by
  subst h
  exact (Parse_mono n m hnm).1 ts hr

theorem ParsePair_mono {n m : Nat} (hnm : n ≤ m) {ts : List LispToken}
    {r : Outcome (Expr F × List LispToken)} (h : ParsePair n ts = r) (hr : r ≠ .outOfFuel) :
    ParsePair m ts = r := by
  subst h
  exact (Parse_mono n m hnm).2.1 ts hr

/-- What `ParseExpr` returns with some fuel, it returns with the fuel that
`Parse` gives it. -/
theorem ParseExpr_enough {n fuel : Nat} {ts : List LispToken}
    {r : Outcome (Expr F × List LispToken)} (h : ParseExpr n ts = r) (hr : r ≠ .outOfFuel)
    (hfuel : 2 * ts.length + 1 ≤ fuel) : ParseExpr fuel ts = r := by
  have h1 := ((@Parse_fuel F _ fuel).1 ts hfuel).1
  have h2 := ParseExpr_mono (Nat.le_max_left n fuel) h hr
  have h3 := ParseExpr_mono (Nat.le_max_right n fuel) (rfl : ParseExpr fuel ts = _) h1
  rw [← h3, h2]

/-! ### Tokens after an expression -/

theorem Parse_append (n : Nat) (x : List LispToken) :
    (∀ (ts : List LispToken) (e : Expr F) (r : List LispToken),
      ParseExpr n ts = .ok (e, r) → ParseExpr n (ts ++ x) = .ok (e, r ++ x)) ∧
    (∀ (ts : List LispToken) (e : Expr F) (r : List LispToken),
      ParsePair n ts = .ok (e, r) → ParsePair n (ts ++ x) = .ok (e, r ++ x)) ∧
    (∀ (ts : List LispToken) (e : Expr F) (r : List LispToken),
      ParseQuote n ts = .ok (e, r) → ParseQuote n (ts ++ x) = .ok (e, r ++ x)) := by
  induction n with
  | zero =>
    refine ⟨fun ts e r h => ?_, fun ts e r h => ?_, fun ts e r h => ?_⟩
    · simp [ParseExpr] at h
    · simp [ParsePair] at h
    · simp [ParseQuote] at h
  | succ n ih =>
    obtain ⟨ihE, ihP, ihQ⟩ := ih
    refine ⟨fun ts e r h => ?_, fun ts e r h => ?_, fun ts e r h => ?_⟩
    · cases ts with
      | nil => simp [ParseExpr] at h
      | cons t rest =>
        rw [List.cons_append]
        cases hk : t.kind <;> simp only [ParseExpr, hk] at h ⊢
        case Num =>
          cases hs : (Runtime.stof t.value : Option F) with
          | none => simp [hs] at h
          | some val =>
            simp only [hs, Outcome.ok.injEq, Prod.mk.injEq] at h ⊢
            exact ⟨h.1, by rw [h.2]⟩
        case BeginParenthesis => exact ihP rest e r h
        case Quote => exact ihQ rest e r h
        case EndParenthesis => exact absurd h (by simp)
        all_goals
          simp only [Outcome.ok.injEq, Prod.mk.injEq] at h ⊢
          exact ⟨h.1, by rw [h.2]⟩
    · simp only [ParsePair] at h ⊢
      cases he : (ParseExpr n ts : Outcome (Expr F × List LispToken)) with
      | outOfFuel => simp [he] at h
      | error msg => simp [he] at h
      | ok p =>
        obtain ⟨e1, r1⟩ := p
        rw [he] at h
        cases r1 with
        | nil => simp at h
        | cons t rest =>
          rw [ihE ts e1 _ he, List.cons_append]
          simp only at h ⊢
          by_cases hk : t.kind = .EndParenthesis
          · simp only [if_pos hk, Outcome.ok.injEq, Prod.mk.injEq] at h ⊢
            exact ⟨h.1, by rw [h.2]⟩
          · simp only [if_neg hk] at h ⊢
            cases hp : (ParsePair n (t :: rest) : Outcome (Expr F × List LispToken)) with
            | outOfFuel => simp [hp] at h
            | error msg => simp [hp] at h
            | ok q =>
              obtain ⟨e2, r2⟩ := q
              have := ihP _ e2 r2 hp
              rw [List.cons_append] at this
              rw [this]
              simp only [hp, Outcome.ok.injEq, Prod.mk.injEq] at h ⊢
              exact ⟨h.1, by rw [h.2]⟩
    · simp only [ParseQuote] at h ⊢
      cases he : (ParseExpr n ts : Outcome (Expr F × List LispToken)) with
      | outOfFuel => simp [he] at h
      | error msg => simp [he] at h
      | ok p =>
        obtain ⟨e1, r1⟩ := p
        rw [ihE ts e1 r1 he]
        simp only [he, Outcome.ok.injEq, Prod.mk.injEq] at h ⊢
        exact ⟨h.1, by rw [h.2]⟩

/-! ### The parser makes proper lists -/

omit [Runtime F] in
theorem Expr.proper_pair_iff (a b : Expr F) :
    (Expr.pair a b).proper = true ↔
      a.proper = true ∧ b.proper = true ∧ (b = .nil ∨ ∃ c d, b = .pair c d) := by
  cases b <;> simp [Expr.proper]

omit [Runtime F] in
theorem Expr.proper_of_inside {p e : Expr F} (h : Expr.Inside p e) (he : e.proper = true) :
    p.proper = true := by
  induction h with
  | here => exact he
  | first _ ih => exact ih ((Expr.proper_pair_iff _ _).mp he).1
  | second _ ih => exact ih ((Expr.proper_pair_iff _ _).mp he).2.1

omit [Runtime F] in
/-- A pair with the second member of every pair inside it a pair or nil is a
chain of pairs that ends in nil. -/
theorem Expr.proper_pair_list (b a : Expr F) (h : (Expr.pair a b).proper = true) :
    ∃ xs : List (Expr F), Expr.pair a b = Expr.list (a :: xs) := by
  induction b generalizing a with
  | nil => exact ⟨[], rfl⟩
  | pair b1 b2 _ ih2 =>
    obtain ⟨xs, hxs⟩ := ih2 b1 ((Expr.proper_pair_iff _ _).mp h).2.1
    exact ⟨b1 :: xs, by rw [hxs]; rfl⟩
  | _ => simp [Expr.proper] at h

theorem Parse_proper (n : Nat) :
    (∀ (ts : List LispToken) (e : Expr F) (r : List LispToken),
      ParseExpr n ts = .ok (e, r) → e.proper = true) ∧
    (∀ (ts : List LispToken) (e : Expr F) (r : List LispToken),
      ParsePair n ts = .ok (e, r) → e.proper = true ∧ ∃ c d, e = .pair c d) ∧
    (∀ (ts : List LispToken) (e : Expr F) (r : List LispToken),
      ParseQuote n ts = .ok (e, r) → e.proper = true) := by
  induction n with
  | zero =>
    refine ⟨fun ts e r h => ?_, fun ts e r h => ?_, fun ts e r h => ?_⟩
    · simp [ParseExpr] at h
    · simp [ParsePair] at h
    · simp [ParseQuote] at h
  | succ n ih =>
    obtain ⟨ihE, ihP, ihQ⟩ := ih
    refine ⟨fun ts e r h => ?_, fun ts e r h => ?_, fun ts e r h => ?_⟩
    · cases ts with
      | nil => simp [ParseExpr] at h
      | cons t rest =>
        cases hk : t.kind <;> simp only [ParseExpr, hk] at h
        case Num =>
          cases hs : (Runtime.stof t.value : Option F) with
          | none => simp [hs] at h
          | some val =>
            simp only [hs, Outcome.ok.injEq, Prod.mk.injEq] at h
            rw [← h.1]
            rfl
        case BeginParenthesis => exact (ihP rest e r h).1
        case Quote => exact ihQ rest e r h
        case EndParenthesis => exact absurd h (by simp)
        all_goals
          simp only [Outcome.ok.injEq, Prod.mk.injEq] at h
          rw [← h.1]
          rfl
    · simp only [ParsePair] at h
      cases he : (ParseExpr n ts : Outcome (Expr F × List LispToken)) with
      | outOfFuel => simp [he] at h
      | error msg => simp [he] at h
      | ok p =>
        obtain ⟨e1, r1⟩ := p
        rw [he] at h
        have h1 := ihE ts e1 r1 he
        cases r1 with
        | nil => simp at h
        | cons t rest =>
          simp only at h
          by_cases hk : t.kind = .EndParenthesis
          · simp only [if_pos hk, Outcome.ok.injEq, Prod.mk.injEq] at h
            rw [← h.1]
            exact ⟨(Expr.proper_pair_iff _ _).mpr ⟨h1, rfl, Or.inl rfl⟩, _, _, rfl⟩
          · simp only [if_neg hk] at h
            cases hp : (ParsePair n (t :: rest) : Outcome (Expr F × List LispToken)) with
            | outOfFuel => simp [hp] at h
            | error msg => simp [hp] at h
            | ok q =>
              obtain ⟨e2, r2⟩ := q
              obtain ⟨h2, c, d, hcd⟩ := ihP _ e2 r2 hp
              simp only [hp, Outcome.ok.injEq, Prod.mk.injEq] at h
              rw [← h.1]
              exact ⟨(Expr.proper_pair_iff _ _).mpr ⟨h1, h2, Or.inr ⟨c, d, hcd⟩⟩, _, _, rfl⟩
    · simp only [ParseQuote] at h
      cases he : (ParseExpr n ts : Outcome (Expr F × List LispToken)) with
      | outOfFuel => simp [he] at h
      | error msg => simp [he] at h
      | ok p =>
        obtain ⟨e1, r1⟩ := p
        have h1 := ihE ts e1 r1 he
        simp only [he, Outcome.ok.injEq, Prod.mk.injEq] at h
        rw [← h.1]
        exact (Expr.proper_pair_iff _ _).mpr
          ⟨rfl, (Expr.proper_pair_iff _ _).mpr ⟨h1, rfl, Or.inl rfl⟩, Or.inr ⟨_, _, rfl⟩⟩

theorem Parse_loop_proper (fuel n : Nat) (ts : List LispToken) (es : List (Expr F))
    (h : Parse.loop fuel n ts = .ok es) : ∀ e ∈ es, e.proper = true := by
  induction n generalizing ts es with
  | zero => simp [Parse.loop] at h
  | succ n ih =>
    cases ts with
    | nil =>
      simp only [Parse.loop, Outcome.ok.injEq] at h
      subst h
      simp
    | cons t rest =>
      simp only [Parse.loop] at h
      cases he : (ParseExpr fuel (t :: rest) : Outcome (Expr F × List LispToken)) with
      | outOfFuel => simp [he] at h
      | error msg => simp [he] at h
      | ok p =>
        obtain ⟨e1, r1⟩ := p
        rw [he] at h
        simp only at h
        cases hl : (Parse.loop fuel n r1 : Outcome (List (Expr F))) with
        | outOfFuel => simp [hl] at h
        | error msg => simp [hl] at h
        | ok es1 =>
          simp only [hl, Outcome.ok.injEq] at h
          subst h
          intro e hmem
          rcases List.mem_cons.mp hmem with rfl | hmem
          · exact (@Parse_proper F _ fuel).1 _ _ _ he
          · exact ih r1 es1 hl e hmem

/-- The elements of a list and its closing parenthesis: `ParsePair` returns
the chain of the elements. -/
theorem ParsePair_elements {segs : List (List LispToken)} {es : List (Expr F)}
    (h : List.Forall₂ CompleteExpr segs es) (hne : es ≠ []) (te : LispToken)
    (hte : te.kind = .EndParenthesis) (rest : List LispToken) :
    ∃ n, ParsePair n (segs.flatten ++ te :: rest) = .ok (Expr.list es, rest) := by
  induction h with
  | nil => exact absurd rfl hne
  | @cons seg e segs1 es1 hse htail ih =>
    obtain ⟨n1, h1⟩ := hse
    have hE := (Parse_append n1 (segs1.flatten ++ te :: rest)).1 seg e [] h1
    rw [List.nil_append] at hE
    rw [List.flatten_cons, List.append_assoc]
    cases htail with
    | nil =>
      refine ⟨n1 + 1, ?_⟩
      simp only [List.flatten_nil, List.nil_append] at hE ⊢
      simp only [ParsePair, hE, if_pos hte]
      rfl
    | @cons seg2 e2 segs2 es2 hse2 htail2 =>
      obtain ⟨n2, h2⟩ := ih (by simp)
      obtain ⟨k, hk⟩ := hse2
      cases seg2 with
      | nil => exact absurd hk (fun hk => ParseExpr_ok_ne_nil hk)
      | cons t seg2r =>
        have hne2 := ParseExpr_ok_ne_end hk
        simp only [List.flatten_cons, List.cons_append] at hE h2 ⊢
        refine ⟨max n1 n2 + 1, ?_⟩
        simp only [ParsePair, ParseExpr_mono (Nat.le_max_left n1 n2) hE (by simp), if_neg hne2,
          ParsePair_mono (Nat.le_max_right n1 n2) h2 (by simp)]
        rfl

/-- A begin-paren, the elements of a list and the end-paren, read by
`ParseExpr` with the fuel that `Parse` gives it. -/
theorem ParseExpr_list {segs : List (List LispToken)} {es : List (Expr F)}
    (h : List.Forall₂ CompleteExpr segs es) (hne : es ≠ []) (tb te : LispToken)
    (htb : tb.kind = .BeginParenthesis) (hte : te.kind = .EndParenthesis)
    (rest : List LispToken) (fuel : Nat)
    (hfuel : 2 * (tb :: (segs.flatten ++ te :: rest)).length + 1 ≤ fuel) :
    ParseExpr fuel (tb :: (segs.flatten ++ te :: rest)) = .ok (Expr.list es, rest) := by
  obtain ⟨n, hn⟩ := ParsePair_elements h hne te hte rest
  refine ParseExpr_enough (n := n + 1) ?_ (by simp) hfuel
  simp only [ParseExpr, htb]
  exact hn

/-! ### Parentheses read by the parser -/

omit [Runtime F] in
theorem opens_cons (t : LispToken) (ts : List LispToken) :
    opens (t :: ts) = opens ts + if t.kind = .BeginParenthesis then 1 else 0 := by
  simp only [opens, List.countP_cons, decide_eq_true_eq]

omit [Runtime F] in
theorem closes_cons (t : LispToken) (ts : List LispToken) :
    closes (t :: ts) = closes ts + if t.kind = .EndParenthesis then 1 else 0 := by
  simp only [closes, List.countP_cons, decide_eq_true_eq]

theorem Parse_balance (n : Nat) :
    (∀ (ts : List LispToken) (e : Expr F) (r : List LispToken),
      ParseExpr n ts = .ok (e, r) → opens ts + closes r = closes ts + opens r) ∧
    (∀ (ts : List LispToken) (e : Expr F) (r : List LispToken),
      ParsePair n ts = .ok (e, r) → opens ts + closes r + 1 = closes ts + opens r) ∧
    (∀ (ts : List LispToken) (e : Expr F) (r : List LispToken),
      ParseQuote n ts = .ok (e, r) → opens ts + closes r = closes ts + opens r) := by
  induction n with
  | zero =>
    refine ⟨fun ts e r h => ?_, fun ts e r h => ?_, fun ts e r h => ?_⟩
    · simp [ParseExpr] at h
    · simp [ParsePair] at h
    · simp [ParseQuote] at h
  | succ n ih =>
    obtain ⟨ihE, ihP, ihQ⟩ := ih
    refine ⟨fun ts e r h => ?_, fun ts e r h => ?_, fun ts e r h => ?_⟩
    · cases ts with
      | nil => simp [ParseExpr] at h
      | cons t rest =>
        rw [opens_cons, closes_cons]
        cases hk : t.kind <;> simp only [ParseExpr, hk] at h
        case Num =>
          cases hs : (Runtime.stof t.value : Option F) with
          | none => simp [hs] at h
          | some val =>
            simp only [hs, Outcome.ok.injEq, Prod.mk.injEq] at h
            rw [← h.2]
            simp
            omega
        case BeginParenthesis =>
          have := ihP rest e r h
          simp
          omega
        case Quote =>
          have := ihQ rest e r h
          simp
          omega
        case EndParenthesis => exact absurd h (by simp)
        all_goals
          simp only [Outcome.ok.injEq, Prod.mk.injEq] at h
          rw [← h.2]
          simp
          omega
    · simp only [ParsePair] at h
      cases he : (ParseExpr n ts : Outcome (Expr F × List LispToken)) with
      | outOfFuel => simp [he] at h
      | error msg => simp [he] at h
      | ok p =>
        obtain ⟨e1, r1⟩ := p
        rw [he] at h
        have h1 := ihE ts e1 r1 he
        cases r1 with
        | nil => simp at h
        | cons t rest =>
          simp only at h
          rw [opens_cons, closes_cons] at h1
          by_cases hk : t.kind = .EndParenthesis
          · simp only [if_pos hk, Outcome.ok.injEq, Prod.mk.injEq] at h
            rw [← h.2]
            simp [hk] at h1
            omega
          · simp only [if_neg hk] at h
            cases hp : (ParsePair n (t :: rest) : Outcome (Expr F × List LispToken)) with
            | outOfFuel => simp [hp] at h
            | error msg => simp [hp] at h
            | ok q =>
              obtain ⟨e2, r2⟩ := q
              have h2 := ihP _ e2 r2 hp
              rw [opens_cons, closes_cons] at h2
              simp only [hp, Outcome.ok.injEq, Prod.mk.injEq] at h
              rw [← h.2]
              omega
    · simp only [ParseQuote] at h
      cases he : (ParseExpr n ts : Outcome (Expr F × List LispToken)) with
      | outOfFuel => simp [he] at h
      | error msg => simp [he] at h
      | ok p =>
        obtain ⟨e1, r1⟩ := p
        have h1 := ihE ts e1 r1 he
        simp only [he, Outcome.ok.injEq, Prod.mk.injEq] at h
        rw [← h.2]
        exact h1

theorem Parse_loop_balance (fuel n : Nat) (ts : List LispToken) (es : List (Expr F))
    (h : Parse.loop fuel n ts = .ok es) : opens ts = closes ts := by
  induction n generalizing ts es with
  | zero => simp [Parse.loop] at h
  | succ n ih =>
    cases ts with
    | nil => rfl
    | cons t rest =>
      simp only [Parse.loop] at h
      cases he : (ParseExpr fuel (t :: rest) : Outcome (Expr F × List LispToken)) with
      | outOfFuel => simp [he] at h
      | error msg => simp [he] at h
      | ok p =>
        obtain ⟨e1, r1⟩ := p
        rw [he] at h
        simp only at h
        have h1 := (@Parse_balance F _ fuel).1 _ _ _ he
        cases hl : (Parse.loop fuel n r1 : Outcome (List (Expr F))) with
        | outOfFuel => simp [hl] at h
        | error msg => simp [hl] at h
        | ok es1 =>
          have h2 := ih r1 es1 hl
          omega

/-! ### The end of the input inside a form -/

theorem CompleteExpr_head {seg : List LispToken} {e : Expr F}
    (h : CompleteExpr seg e) :
    ∃ t r, seg = t :: r ∧ t.kind ≠ .EndParenthesis := by
  obtain ⟨k, hk⟩ := h
  cases seg with
  | nil => exact absurd hk (fun hk => ParseExpr_ok_ne_nil hk)
  | cons t r => exact ⟨t, r, rfl, ParseExpr_ok_ne_end hk⟩

omit [Runtime F] in
/-- `Env::lookup` returns what the first frame that binds the symbol holds for
it, on the chain from the current frame to the global frame. -/
theorem Env.lookup_eq_findSome (env : List (Table F)) (g : Table F) (s : String) :
    Env.lookup env g s = (env ++ [g]).findSome? (fun t => Table.find t s) := by
  induction env with
  | nil =>
    simp only [Env.lookup, List.nil_append, List.findSome?]
    cases Table.find g s <;> rfl
  | cons t next ih =>
    simp only [Env.lookup, List.cons_append, List.findSome?]
    cases Table.find t s with
    | some v => rfl
    | none => exact ih

omit [Runtime F] in
theorem Env.lookup_first (pre : List (Table F)) (frame : Table F) (post : List (Table F))
    (s : String) (v : Expr F) (hpre : ∀ t ∈ pre, Table.find t s = none)
    (hframe : Table.find frame s = some v) :
    (pre ++ frame :: post).findSome? (fun t => Table.find t s) = some v := by
  induction pre with
  | nil => simp [List.findSome?, hframe]
  | cons t pre ih =>
    simp only [List.cons_append, List.findSome?, hpre t (List.mem_cons_self _ _)]
    exact ih (fun x hx => hpre x (List.mem_cons_of_mem _ hx))

omit [Runtime F] in
theorem Env.lookup_eq_none_iff (env : List (Table F)) (g : Table F) (s : String) :
    Env.lookup env g s = none ↔ ∀ t ∈ env ++ [g], Table.find t s = none := by
  rw [Env.lookup_eq_findSome, List.findSome?_eq_none_iff]

theorem Evaluates_sym_iff (s : String) (env : List (Table F)) (g : Table F)
    (r : Result F (Expr F)) :
    Evaluates (.sym s) env g r ↔ r = EvalVar s env g := by
  constructor
  · rintro ⟨hr, n, hn⟩
    cases n with
    | zero =>
      rw [← hn] at hr
      exact absurd rfl hr
    | succ n =>
      rw [← hn]
      rfl
  · intro h
    subst h
    refine ⟨?_, 1, rfl⟩
    simp only [EvalVar]
    cases Env.lookup env g s <;> simp

omit [Runtime F] in
theorem containsText_append (a s : String) : containsText (a ++ s) s = true := by
  simp only [containsText, List.any_eq_true, List.mem_tails]
  exact ⟨s.data, ⟨a.data, by simp⟩, by simp⟩

/-! ### The order of evaluation in an application -/

omit [Runtime F] in
theorem StartsWith_of_head {f : Expr F} {k : String} (h : f ≠ .sym k) (l : List (Expr F)) :
    ¬ StartsWith (Expr.list (f :: l)) k = true := by
  cases f with
  | sym t =>
    have ht : t ≠ k := fun e => h (by rw [e])
    simpa [StartsWith, Expr.list, Expr.First] using ht
  | _ => simp [StartsWith, Expr.list, Expr.First]

theorem EvalList_head_form (ev : Evaluator F) {f : Expr F} (hf : HeadNotKeyword f)
    (forms : List (Expr F)) (env : List (Table F)) (g : Table F) :
    EvalList ev (Expr.list (f :: forms)) env g =
      Result.bind (ev f env g) fun fn g1 =>
        Result.bind (EvalArgs ev (Expr.list forms) env g1) fun args g2 =>
          Apply ev fn args env g2 := by
  rw [EvalList_application (StartsWith_of_head (hf "IF" (by decide)) _)
    (StartsWith_of_head (hf "COND" (by decide)) _)
    (StartsWith_of_head (hf "SET" (by decide)) _)
    (StartsWith_of_head (hf "QUOTE" (by decide)) _)
    (StartsWith_of_head (hf "DEFINE" (by decide)) _)
    (StartsWith_of_head (hf "LAMBDA" (by decide)) _)
    (StartsWith_of_head (hf "APPLY" (by decide)) _)
    (StartsWith_of_head (hf "EVAL" (by decide)) _)]
  rfl

/-- The arguments before a failing one have values; the loop over the
arguments ends with the failure, whatever comes after it. -/
theorem EvalArgs_first_failure {pre vs : List (Expr F)} {env : List (Table F)}
    {g gk g2 : Table F} (hpre : ArgValues pre env g vs gk) {a : Expr F} {m : String}
    (ha : Evaluates a env gk (.error m, g2)) (post : List (Expr F)) :
    ∃ N, ∀ n, N ≤ n →
      EvalArgs (Evaluate n) (Expr.list (pre ++ a :: post)) env g = (.error m, g2) := by
  induction pre generalizing g vs with
  | nil =>
    obtain ⟨_, h2⟩ := hpre
    subst h2
    obtain ⟨N, hN⟩ := ha.eventually
    refine ⟨N, fun n hn => ?_⟩
    simp only [List.nil_append, Expr.list, EvalArgs, hN n hn, Result.bind_error]
  | cons b rest ih =>
    obtain ⟨v, g1, vs1, hb, hrest, _⟩ := hpre
    obtain ⟨N1, hN1⟩ := hb.eventually
    obtain ⟨N2, hN2⟩ := ih hrest
    refine ⟨max N1 N2, fun n hn => ?_⟩
    show EvalArgs (Evaluate n) (.pair b (Expr.list (rest ++ a :: post))) env g = _
    simp only [EvalArgs, hN1 n (by omega), Result.bind_ok, hN2 n (by omega), Result.bind_error]

/-! ### Writes to the global frame -/

omit [Runtime F] in
theorem Table.written_append (g : Table F) (a b : List (String × Expr F)) :
    (g.written a).written b = g.written (a ++ b) := by
  simp only [Table.written, List.foldl_append]

omit [Runtime F] in
theorem Table.OnlyWritten.then {g g1 g2 : Table F} (h1 : Table.OnlyWritten g g1)
    (h2 : Table.OnlyWritten g1 g2) : Table.OnlyWritten g g2 := by
  obtain ⟨a, rfl⟩ := h1
  obtain ⟨b, rfl⟩ := h2
  exact ⟨a ++ b, Table.written_append g a b⟩

omit [Runtime F] in
theorem Table.OnlyWritten.define (g : Table F) (k : String) (v : Expr F) :
    Table.OnlyWritten g (Env.define g k v) := ⟨[(k, v)], rfl⟩

theorem ParseExpr_begin_end (tb te : LispToken) (rest : List LispToken)
    (htb : tb.kind = .BeginParenthesis) (hte : te.kind = .EndParenthesis) (n : Nat) :
    (ParseExpr (n + 3) (tb :: te :: rest) : Outcome (Expr F × List LispToken)) =
      .error ("Unexpected kind: " ++ te.value) := by
  simp only [ParseExpr, htb, ParsePair, hte]

/-! ### The double quotes of the input -/

omit [Runtime F] in
/-- A run of characters none of which is a double quote, taken off the front,
leaves the number of double quotes as it is. -/
theorem count_dquote_span (q : Char → Bool) (hq : q dquote = false) (l : List Char) :
    l.count dquote = (l.span q).2.count dquote := by
  rw [List.span_eq_take_drop]
  induction l with
  | nil => rfl
  | cons c l ih =>
    by_cases hc : q c = true
    · have hne : c ≠ dquote := fun e => by rw [e, hq] at hc; exact absurd hc (by decide)
      have hb : (c == dquote) = false := by simpa using hne
      simp only [List.dropWhile, hc, List.count_cons, hb, Bool.false_eq_true, if_false,
        Nat.add_zero]
      exact ih
    · simp only [List.dropWhile, hc]

omit [Runtime F] in
theorem span_dquote_head (l : List Char) (x : Char) (after : List Char)
    (h : (l.span (fun d => d != dquote)).2 = x :: after) : x = dquote := by
  rw [List.span_eq_take_drop] at h
  induction l with
  | nil => simp at h
  | cons c l ih =>
    by_cases hc : c = dquote
    · subst hc
      simp only [List.dropWhile, bne_self_eq_false, List.cons.injEq] at h
      exact h.1.symm
    · have hb : (c != dquote) = true := by simpa using hc
      simp only [List.dropWhile, hb] at h
      exact ih h

omit [Runtime F] in
theorem PayloadFilled.cons_other {t : LispToken} {ts : List LispToken}
    (ht : t.kind ≠ .Num ∧ t.kind ≠ .True ∧ t.kind ≠ .Symbol) (h : PayloadFilled ts) :
    PayloadFilled (t :: ts) := by
  intro x hx hk
  rcases List.mem_cons.mp hx with rfl | hx
  · rcases hk with hk | hk | hk
    · exact absurd hk ht.1
    · exact absurd hk ht.2.1
    · exact absurd hk ht.2.2
  · exact h x hx hk

omit [Runtime F] in
theorem classify_value (value : List Char) : (classify value).value = String.mk value := by
  unfold classify
  split_ifs <;> rfl

omit [Runtime F] in
theorem PayloadFilled.cons_classify {c : Char} {value : List Char} {ts : List LispToken}
    (h : PayloadFilled ts) : PayloadFilled (classify (c :: value) :: ts) := by
  intro x hx hk
  rcases List.mem_cons.mp hx with rfl | hx
  · rw [classify_value]
    intro e
    have := congrArg String.data e
    simp at this
  · exact h x hx hk

omit [Runtime F] in
/-- The loop of `GenerateTokens` fails exactly on an odd number of double
quotes. -/
theorem GenerateTokens_loop_quotes (n : Nat) : ∀ cs : List Char, cs.length ≤ n →
    (cs.count dquote % 2 = 1 → GenerateTokens.loop n cs = .error "Unmatched string quote.") ∧
    (cs.count dquote % 2 = 0 → ∃ ts, GenerateTokens.loop n cs = .ok ts ∧ PayloadFilled ts) := by
  induction n with
  | zero =>
    intro cs hn
    have hcs : cs = [] := List.eq_nil_of_length_eq_zero (by omega)
    subst hcs
    exact ⟨fun h => by simp at h, fun _ => ⟨[], rfl, fun _ h => by simp at h⟩⟩
  | succ n ih =>
    intro cs hn
    cases cs with
    | nil => exact ⟨fun h => by simp at h, fun _ => ⟨[], rfl, fun _ h => by simp at h⟩⟩
    | cons c rest =>
      simp only [List.length_cons] at hn
      have hrest := ih rest (by omega)
      simp only [GenerateTokens.loop]
      by_cases h2 : c = dquote
      · subst h2
        have hsp : isspace dquote = false := by decide
        simp only [hsp, Bool.false_eq_true, if_false, if_true]
        have hcount := count_dquote_span (fun d => d != dquote) (by simp) rest
        have hlen := span_snd_length_le (fun d => d != dquote) rest
        have hhead := span_dquote_head rest
        cases hs : rest.span (fun d => d != dquote) with
        | mk body tail =>
          rw [hs] at hcount hlen hhead
          simp only at hcount hlen hhead
          cases tail with
          | nil =>
            have h1c : (dquote :: rest).count dquote = 1 := by
              simp only [List.count_cons, beq_self_eq_true, if_true, hcount, List.count_nil]
            rw [h1c]
            exact ⟨fun _ => rfl, fun h => absurd h (by decide)⟩
          | cons x after =>
            have hx := hhead x after rfl
            subst hx
            simp only [List.length_cons] at hlen
            have hafter := ih after (by omega)
            simp only [List.count_cons, beq_self_eq_true, if_true] at hcount
            simp only [List.count_cons, beq_self_eq_true, if_true, hcount]
            refine ⟨fun h => ?_, fun h => ?_⟩
            · rw [hafter.1 (by omega)]
            · obtain ⟨ts, hts, hp⟩ := hafter.2 (by omega)
              rw [hts]
              exact ⟨_, rfl, hp.cons_other (by simp)⟩
      have hb : (c == dquote) = false := by simpa using h2
      have hcount : (c :: rest).count dquote = rest.count dquote := by
        simp only [List.count_cons, hb, Bool.false_eq_true, if_false, Nat.add_zero]
      rw [hcount]
      by_cases h1 : isspace c = true
      · simp only [h1, if_true]
        exact hrest
      simp only [h1, Bool.false_eq_true, if_false, if_neg h2]
      by_cases h3 : c = '('
      · simp only [if_pos h3]
        cases rest with
        | nil =>
          refine ⟨fun h => by simp at h, fun _ => ?_⟩
          obtain ⟨ts, hts, hp⟩ := hrest.2 (by simp)
          rw [hts]
          exact ⟨_, rfl, hp.cons_other (by simp)⟩
        | cons d after =>
          by_cases h4 : d = ')'
          · subst h4
            simp only [List.length_cons] at hn
            have hafter := ih after (by omega)
            have hc2 : (')' :: after).count dquote = after.count dquote := by
              simp only [List.count_cons]
              have : (')' == dquote) = false := by decide
              simp [this]
            rw [hc2]
            refine ⟨fun h => ?_, fun h => ?_⟩
            · simp only [hafter.1 h]
            · obtain ⟨ts, hts, hp⟩ := hafter.2 h
              simp only [hts]
              exact ⟨_, rfl, hp.cons_other (by simp)⟩
          · refine ⟨fun h => ?_, fun h => ?_⟩
            · split
              · rename_i heq
                simp only [List.cons.injEq] at heq
                exact absurd heq.1 h4
              · rw [hrest.1 h]
            · obtain ⟨ts, hts, hp⟩ := hrest.2 h
              split
              · rename_i heq
                simp only [List.cons.injEq] at heq
                exact absurd heq.1 h4
              · rw [hts]
                exact ⟨_, rfl, hp.cons_other (by simp)⟩
      simp only [if_neg h3]
      by_cases h5 : c = ')'
      · simp only [if_pos h5]
        refine ⟨fun h => ?_, fun h => ?_⟩
        · rw [hrest.1 h]
        · obtain ⟨ts, hts, hp⟩ := hrest.2 h
          rw [hts]
          exact ⟨_, rfl, hp.cons_other (by simp)⟩
      simp only [if_neg h5]
      by_cases h6 : c = squote
      · simp only [if_pos h6]
        refine ⟨fun h => ?_, fun h => ?_⟩
        · rw [hrest.1 h]
        · obtain ⟨ts, hts, hp⟩ := hrest.2 h
          rw [hts]
          exact ⟨_, rfl, hp.cons_other (by simp)⟩
      simp only [if_neg h6]
      have hsep : IsSeparator c = false := by
        simp only [IsSeparator, Bool.or_eq_false_iff, beq_eq_false_iff_ne, ne_eq]
        exact ⟨⟨⟨⟨by simpa using h1, h3⟩, h5⟩, h2⟩, h6⟩
      have hlen := span_snd_length_le (fun d => !IsSeparator d) rest
      have hspan : (c :: rest).span (fun d => !IsSeparator d) =
          (c :: (rest.span (fun d => !IsSeparator d)).1,
            (rest.span (fun d => !IsSeparator d)).2) := by
        simp only [List.span_eq_take_drop, List.takeWhile, List.dropWhile, hsep,
          Bool.not_false]
      rw [hspan]
      have hc3 := count_dquote_span (fun d => !IsSeparator d) (by decide) rest
      have hafter := ih (rest.span (fun d => !IsSeparator d)).2 (by omega)
      rw [hc3]
      refine ⟨fun h => ?_, fun h => ?_⟩
      · simp only [hafter.1 h]
      · obtain ⟨ts, hts, hp⟩ := hafter.2 h
        simp only [hts]
        exact ⟨_, rfl, hp.cons_classify⟩

/-! ### The tokens that a call of the parser takes -/

omit [Runtime F] in
theorem opens_append (a b : List LispToken) : opens (a ++ b) = opens a + opens b := by
  simp only [opens, List.countP_append]

omit [Runtime F] in
theorem closes_append (a b : List LispToken) : closes (a ++ b) = closes a + closes b := by
  simp only [closes, List.countP_append]

omit [Runtime F] in
theorem closes_take_singleton_le (t : LispToken) (k : Nat) : closes ([t].take k) ≤ 1 := by
  cases k with
  | zero => simp [closes]
  | succ k =>
    simp only [List.take_succ_cons, List.take_nil, closes_cons]
    split_ifs <;> simp [closes]

theorem ParsePair_ok_ne_nil {n : Nat} {rest : List LispToken} {E : Expr F}
    (h : ParsePair n [] = .ok (E, rest)) : False := by
  cases n with
  | zero => simp [ParsePair] at h
  | succ n =>
    cases n <;> simp [ParsePair, ParseExpr] at h

/-- A successful call of the parser takes a non-empty run of tokens off the
front, reads the same expression from that run alone, and inside the run the
end-parens never outnumber the begin-parens (for `ParsePair`, which is called
after a begin-paren: by more than one). -/
theorem Parse_consumed (n : Nat) :
    (∀ (ts : List LispToken) (e : Expr F) (r : List LispToken),
      ParseExpr n ts = .ok (e, r) →
      ∃ c, ts = c ++ r ∧ ParseExpr n c = .ok (e, []) ∧
        ∀ k, closes (c.take k) ≤ opens (c.take k)) ∧
    (∀ (ts : List LispToken) (e : Expr F) (r : List LispToken),
      ParsePair n ts = .ok (e, r) →
      ∃ c, ts = c ++ r ∧ ParsePair n c = .ok (e, []) ∧
        ∀ k, closes (c.take k) ≤ opens (c.take k) + 1) ∧
    (∀ (ts : List LispToken) (e : Expr F) (r : List LispToken),
      ParseQuote n ts = .ok (e, r) →
      ∃ c, ts = c ++ r ∧ ParseQuote n c = .ok (e, []) ∧
        ∀ k, closes (c.take k) ≤ opens (c.take k)) := by
  induction n with
  | zero =>
    refine ⟨fun ts e r h => ?_, fun ts e r h => ?_, fun ts e r h => ?_⟩
    · simp [ParseExpr] at h
    · simp [ParsePair] at h
    · simp [ParseQuote] at h
  | succ n ih =>
    obtain ⟨ihE, ihP, ihQ⟩ := ih
    have atom : ∀ (t : LispToken) (rest r : List LispToken) (e : Expr F),
        t.kind ≠ .EndParenthesis → t.kind ≠ .BeginParenthesis → t.kind ≠ .Quote →
        ParseExpr (n + 1) (t :: rest) = .ok (e, r) →
        ∃ c, t :: rest = c ++ r ∧ ParseExpr (n + 1) c = .ok (e, []) ∧
          ∀ k, closes (c.take k) ≤ opens (c.take k) := by
      intro t rest r e h1 h2 h3 h
      have hr : r = rest ∧ ParseExpr (n + 1) [t] = .ok (e, []) := by
        cases hk : t.kind <;> simp only [ParseExpr, hk] at h ⊢
        case Num =>
          cases hs : (Runtime.stof t.value : Option F) with
          | none => simp [hs] at h
          | some val =>
            simp only [hs, Outcome.ok.injEq, Prod.mk.injEq] at h ⊢
            exact ⟨h.2.symm, h.1, trivial⟩
        case BeginParenthesis => exact absurd hk h2
        case Quote => exact absurd hk h3
        case EndParenthesis => exact absurd hk h1
        all_goals
          simp only [Outcome.ok.injEq, Prod.mk.injEq] at h ⊢
          exact ⟨h.2.symm, h.1, trivial⟩
      refine ⟨[t], by rw [hr.1]; rfl, hr.2, fun k => ?_⟩
      cases k with
      | zero => simp [closes, opens]
      | succ k =>
        simp only [List.take_succ_cons, List.take_nil, closes_cons, opens_cons, if_neg h1]
        simp [closes]
    refine ⟨fun ts e r h => ?_, fun ts e r h => ?_, fun ts e r h => ?_⟩
    · cases ts with
      | nil => simp [ParseExpr] at h
      | cons t rest =>
        by_cases hb : t.kind = .BeginParenthesis
        · simp only [ParseExpr, hb] at h
          obtain ⟨c, hc, hp, hd⟩ := ihP rest e r h
          refine ⟨t :: c, by rw [hc]; rfl, by simp only [ParseExpr, hb]; exact hp, fun k => ?_⟩
          cases k with
          | zero => simp [closes, opens]
          | succ k =>
            have := hd k
            simp only [List.take_succ_cons, closes_cons, opens_cons, hb, if_true]
            simp
            omega
        by_cases hq : t.kind = .Quote
        · simp only [ParseExpr, hq] at h
          obtain ⟨c, hc, hp, hd⟩ := ihQ rest e r h
          refine ⟨t :: c, by rw [hc]; rfl, by simp only [ParseExpr, hq]; exact hp, fun k => ?_⟩
          cases k with
          | zero => simp [closes, opens]
          | succ k =>
            have := hd k
            simp only [List.take_succ_cons, closes_cons, opens_cons, hq]
            simp
            omega
        · exact atom t rest r e (ParseExpr_ok_ne_end h) hb hq h
    · simp only [ParsePair] at h
      cases he : (ParseExpr n ts : Outcome (Expr F × List LispToken)) with
      | outOfFuel => simp [he] at h
      | error msg => simp [he] at h
      | ok p =>
        obtain ⟨e1, r1⟩ := p
        rw [he] at h
        obtain ⟨c1, hc1, hp1, hd1⟩ := ihE ts e1 r1 he
        cases r1 with
        | nil => simp at h
        | cons t rest =>
          simp only at h
          by_cases hk : t.kind = .EndParenthesis
          · simp only [if_pos hk, Outcome.ok.injEq, Prod.mk.injEq] at h
            have hA := (Parse_append n [t]).1 c1 e1 [] hp1
            rw [List.nil_append] at hA
            refine ⟨c1 ++ [t], by rw [hc1, ← h.2]; simp, ?_, fun k => ?_⟩
            · simp only [ParsePair, hA, if_pos hk]
              rw [h.1]
            · rw [List.take_append_eq_append_take, closes_append, opens_append]
              have h1 := hd1 k
              have h2 := closes_take_singleton_le t (k - c1.length)
              omega
          · simp only [if_neg hk] at h
            cases hp : (ParsePair n (t :: rest) : Outcome (Expr F × List LispToken)) with
            | outOfFuel => simp [hp] at h
            | error msg => simp [hp] at h
            | ok q =>
              obtain ⟨e2, r2⟩ := q
              obtain ⟨c2, hc2, hp2, hd2⟩ := ihP _ e2 r2 hp
              simp only [hp, Outcome.ok.injEq, Prod.mk.injEq] at h
              cases c2 with
              | nil => exact (ParsePair_ok_ne_nil hp2).elim
              | cons t2 c2r =>
                have ht : t2 = t := by
                  simp only [List.cons_append, List.cons.injEq] at hc2
                  exact hc2.1.symm
                subst ht
                have hA := (Parse_append n (t2 :: c2r)).1 c1 e1 [] hp1
                rw [List.nil_append] at hA
                refine ⟨c1 ++ t2 :: c2r, by rw [hc1, hc2, ← h.2]; simp, ?_, fun k => ?_⟩
                · simp only [ParsePair, hA, if_neg hk, hp2]
                  rw [h.1]
                · rw [List.take_append_eq_append_take, closes_append, opens_append]
                  have h1 := hd1 k
                  have h2 := hd2 (k - c1.length)
                  omega
    · simp only [ParseQuote] at h
      cases he : (ParseExpr n ts : Outcome (Expr F × List LispToken)) with
      | outOfFuel => simp [he] at h
      | error msg => simp [he] at h
      | ok p =>
        obtain ⟨e1, r1⟩ := p
        obtain ⟨c1, hc1, hp1, hd1⟩ := ihE ts e1 r1 he
        simp only [he, Outcome.ok.injEq, Prod.mk.injEq] at h
        refine ⟨c1, by rw [hc1, h.2], ?_, hd1⟩
        simp only [ParseQuote, hp1]
        rw [h.1]

/-- The tokens on which the loop of `Parse` succeeds are the runs of tokens of
the expressions it returns, one after the other, and in no prefix of them do
the end-parens outnumber the begin-parens. -/
theorem Parse_loop_consumed (fuel n : Nat) (ts : List LispToken) (es : List (Expr F))
    (h : Parse.loop fuel n ts = .ok es) :
    (∃ segs : List (List LispToken), ts = segs.flatten ∧ List.Forall₂ CompleteExpr segs es) ∧
    ∀ k, closes (ts.take k) ≤ opens (ts.take k) := by
  induction n generalizing ts es with
  | zero => simp [Parse.loop] at h
  | succ n ih =>
    cases ts with
    | nil =>
      simp only [Parse.loop, Outcome.ok.injEq] at h
      subst h
      exact ⟨⟨[], rfl, List.Forall₂.nil⟩, fun k => by simp [closes, opens]⟩
    | cons t rest =>
      simp only [Parse.loop] at h
      cases he : (ParseExpr fuel (t :: rest) : Outcome (Expr F × List LispToken)) with
      | outOfFuel => simp [he] at h
      | error msg => simp [he] at h
      | ok p =>
        obtain ⟨e1, r1⟩ := p
        rw [he] at h
        simp only at h
        obtain ⟨c, hc, hp, hd⟩ := (@Parse_consumed F _ fuel).1 _ _ _ he
        cases hl : (Parse.loop fuel n r1 : Outcome (List (Expr F))) with
        | outOfFuel => simp [hl] at h
        | error msg => simp [hl] at h
        | ok es1 =>
          simp only [hl, Outcome.ok.injEq] at h
          subst h
          obtain ⟨⟨segs, hsegs, hall⟩, hd2⟩ := ih r1 es1 hl
          refine ⟨⟨c :: segs, by rw [hc, hsegs]; simp, List.Forall₂.cons ⟨fuel, hp⟩ hall⟩,
            fun k => ?_⟩
          rw [hc, List.take_append_eq_append_take, closes_append, opens_append]
          have h1 := hd k
          have h2 := hd2 (k - c.length)
          omega

theorem CompleteExpr_segs_ne_nil {segs : List (List LispToken)} {es : List (Expr F)}
    (h : List.Forall₂ CompleteExpr segs es) : ∀ seg ∈ segs, seg ≠ [] := by
  induction h with
  | nil => exact fun _ hs => by simp at hs
  | @cons seg e segs1 es1 hse _ ih =>
    intro x hx
    rcases List.mem_cons.mp hx with rfl | hx
    · obtain ⟨t, r, ht, _⟩ := CompleteExpr_head hse
      rw [ht]
      simp
    · exact ih x hx

/-! ### Upper case -/

omit [Runtime F] in
/-- What `toupper` keeps of a character: the tests of the tokenizer give the
same on it, it is not changed again, and it is `T` only for `t` and `T`. -/
theorem toUpper_facts (c : Char) :
    isdigit c.toUpper = isdigit c ∧ IsSeparator c.toUpper = IsSeparator c ∧
    (c.toUpper == '.') = (c == '.') ∧ (c.toUpper == '-') = (c == '-') ∧
    c.toUpper.toUpper = c.toUpper ∧ c.toUpper ≠ 't' ∧
    (c.toUpper = 'T' → c = 't' ∨ c = 'T') := by
  by_cases h : 97 ≤ c.toNat ∧ c.toNat ≤ 122
  · have hc : c = Char.ofNat c.toNat := (Char.ofNat_toNat c).symm
    generalize c.toNat = n at h hc
    subst hc
    obtain ⟨h1, h2⟩ := h
    interval_cases n <;> decide
  · have hu : c.toUpper = c := by
      unfold Char.toUpper
      exact if_neg h
    rw [hu, hu]
    refine ⟨rfl, rfl, rfl, rfl, rfl, fun e => h ?_, fun e => Or.inr e⟩
    rw [e]
    decide

omit [Runtime F] in
theorem IsNumber_loop_toUpper (b : Bool) (l : List Char) :
    IsNumber.loop b (l.map Char.toUpper) = IsNumber.loop b l := by
  induction l generalizing b with
  | nil => rfl
  | cons c l ih =>
    obtain ⟨h1, _, h3, _⟩ := toUpper_facts c
    simp only [List.map_cons, IsNumber.loop, h1, h3, ih]

omit [Runtime F] in
theorem IsNumber_toUpper (l : List Char) : IsNumber (l.map Char.toUpper) = IsNumber l := by
  cases l with
  | nil => rfl
  | cons c l =>
    obtain ⟨h1, _, _, h4, _⟩ := toUpper_facts c
    cases l with
    | nil => simp only [List.map_cons, List.map_nil, IsNumber, h1, h4]
    | cons d l =>
      have hd := (toUpper_facts d).1
      have hl := IsNumber_loop_toUpper false (d :: l)
      simp only [List.map_cons] at hl
      simp only [List.map_cons, IsNumber, h1, h4, hd, hl]

omit [Runtime F] in
/-- The symbol that `GetInstance` makes from the text of a symbol token has a
text that is read back as the same symbol. -/
theorem SymbolText_GetInstance (v : List Char) (hne : v ≠ [])
    (hsep : ∀ c ∈ v, IsSeparator c = false) (hcl : classify v = ⟨.Symbol, String.mk v⟩) :
    SymbolText (SymbolExpr.GetInstance (String.mk v)) := by
  have hnum : IsNumber v = false := by
    by_contra hn
    simp only [Bool.not_eq_false] at hn
    simp [classify, hn] at hcl
  have ht : ¬ (String.mk v = "t" ∨ String.mk v = "T") := by
    intro h
    simp [classify, hnum, h] at hcl
  refine ⟨?_, ?_, ?_, ?_⟩
  · simpa [SymbolExpr.GetInstance] using hne
  · intro c hc
    simp only [SymbolExpr.GetInstance, List.mem_map] at hc
    obtain ⟨d, hd, rfl⟩ := hc
    rw [(toUpper_facts d).2.1]
    exact hsep d hd
  · have hnum2 : IsNumber (v.map Char.toUpper) = false := by rw [IsNumber_toUpper, hnum]
    have ht2 : ¬ (String.mk (v.map Char.toUpper) = "t" ∨ String.mk (v.map Char.toUpper) = "T") := by
      rintro (h | h)
      · have h2 : v.map Char.toUpper = ['t'] := congrArg String.data h
        cases v with
        | nil => simp at h2
        | cons c v =>
          simp only [List.map_cons, List.cons.injEq] at h2
          exact (toUpper_facts c).2.2.2.2.2.1 h2.1
      · have h2 : v.map Char.toUpper = ['T'] := congrArg String.data h
        cases v with
        | nil => simp at h2
        | cons c v =>
          simp only [List.map_cons, List.cons.injEq, List.map_eq_nil_iff] at h2
          obtain ⟨hc, hv⟩ := h2
          subst hv
          rcases (toUpper_facts c).2.2.2.2.2.2 hc with rfl | rfl
          · exact ht (Or.inl rfl)
          · exact ht (Or.inr rfl)
    simp only [SymbolExpr.GetInstance, classify, hnum2, Bool.false_eq_true, if_false,
      if_neg ht2]
  · simp only [SymbolExpr.GetInstance, List.map_map]
    congr 1
    apply List.map_congr_left
    intro c _
    exact (toUpper_facts c).2.2.2.2.1

/-! ### The tokens that the tokenizer makes -/

omit [Runtime F] in
theorem cons_ok_inv {r : Except String (List LispToken)} {t : LispToken}
    {ts0 : List LispToken}
    (h : (match r with
      | .ok ts => (Except.ok (t :: ts) : Except String (List LispToken))
      | .error m => .error m) = .ok ts0) :
    ∃ ts, r = .ok ts ∧ ts0 = t :: ts := by
  cases r with
  | error m => exact Except.noConfusion h
  | ok ts => exact ⟨ts, rfl, (Except.ok.inj h).symm⟩

omit [Runtime F] in
theorem FromText_of_kind {t : LispToken} (h1 : t.kind ≠ .Symbol) (h2 : t.kind ≠ .String) :
    t.FromText :=
  ⟨fun h => absurd h h1, fun h => absurd h h2⟩

omit [Runtime F] in
theorem FromText_classify (c : Char) (value : List Char)
    (hsep : ∀ x ∈ c :: value, IsSeparator x = false) : (classify (c :: value)).FromText := by
  refine ⟨fun _ => ?_, fun h => ?_⟩
  · rw [classify_value]
    exact ⟨by simp, hsep, rfl⟩
  · unfold classify at h
    split_ifs at h

omit [Runtime F] in
theorem span_fst_all (q : Char → Bool) (l : List Char) : ∀ x ∈ (l.span q).1, q x = true := by
  rw [List.span_eq_take_drop]
  intro x hx
  exact List.mem_takeWhile_imp hx

omit [Runtime F] in
/-- Every token that the loop of `GenerateTokens` makes is made from the text
as `LispToken.FromText` says. -/
theorem GenerateTokens_loop_fromText (n : Nat) : ∀ (cs : List Char) (ts : List LispToken),
    GenerateTokens.loop n cs = .ok ts → ∀ t ∈ ts, t.FromText := by
  induction n with
  | zero =>
    intro cs ts h
    simp only [GenerateTokens.loop] at h
    rw [← Except.ok.inj h]
    exact fun _ ht => by simp at ht
  | succ n ih =>
    intro cs ts h
    cases cs with
    | nil =>
      simp only [GenerateTokens.loop] at h
      rw [← Except.ok.inj h]
      exact fun _ ht => by simp at ht
    | cons c rest =>
      have step : ∀ (tok : LispToken) (after : List Char) (ts0 : List LispToken),
          tok.FromText →
          (match GenerateTokens.loop n after with
            | .ok ts => (Except.ok (tok :: ts) : Except String (List LispToken))
            | .error m => .error m) = .ok ts0 → ∀ t ∈ ts0, t.FromText := by
        intro tok after ts0 htok h0 t ht
        obtain ⟨ts1, h1, rfl⟩ := cons_ok_inv h0
        rcases List.mem_cons.mp ht with rfl | ht
        · exact htok
        · exact ih after ts1 h1 t ht
      simp only [GenerateTokens.loop] at h
      by_cases h1 : isspace c = true
      · simp only [h1, if_true] at h
        exact ih rest ts h
      simp only [h1, Bool.false_eq_true, if_false] at h
      by_cases h2 : c = dquote
      · simp only [if_pos h2] at h
        have hbody := span_fst_all (fun d => d != dquote) rest
        cases hs : rest.span (fun d => d != dquote) with
        | mk body tail =>
          rw [hs] at h hbody
          cases tail with
          | nil => exact Except.noConfusion h
          | cons x after =>
            simp only at h
            refine step _ after ts ⟨fun hk => by simp at hk, fun _ hd => ?_⟩ h
            have := hbody dquote hd
            simp at this
      simp only [if_neg h2] at h
      by_cases h3 : c = '('
      · simp only [if_pos h3] at h
        split at h
        · exact step _ _ ts (FromText_of_kind (by simp) (by simp)) h
        · exact step _ _ ts (FromText_of_kind (by simp) (by simp)) h
      simp only [if_neg h3] at h
      by_cases h5 : c = ')'
      · simp only [if_pos h5] at h
        exact step _ _ ts (FromText_of_kind (by simp) (by simp)) h
      simp only [if_neg h5] at h
      by_cases h6 : c = squote
      · simp only [if_pos h6] at h
        exact step _ _ ts (FromText_of_kind (by simp) (by simp)) h
      simp only [if_neg h6] at h
      have hsep : IsSeparator c = false := by
        simp only [IsSeparator, Bool.or_eq_false_iff, beq_eq_false_iff_ne, ne_eq]
        exact ⟨⟨⟨⟨by simpa using h1, h3⟩, h5⟩, h2⟩, h6⟩
      have hspan : (c :: rest).span (fun d => !IsSeparator d) =
          (c :: (rest.span (fun d => !IsSeparator d)).1,
            (rest.span (fun d => !IsSeparator d)).2) := by
        simp only [List.span_eq_take_drop, List.takeWhile, List.dropWhile, hsep,
          Bool.not_false]
      rw [hspan] at h
      simp only at h
      refine step _ _ ts (FromText_classify c _ ?_) h
      intro x hx
      rcases List.mem_cons.mp hx with rfl | hx
      · exact hsep
      · have := span_fst_all (fun d => !IsSeparator d) rest x hx
        simpa using this

/-! ### The expressions that the parser makes from such tokens -/

omit [Runtime F] in
theorem SymbolText_QUOTE : SymbolText (SymbolExpr.GetInstance "QUOTE") :=
  SymbolText_GetInstance "QUOTE".data (by decide) (by decide) (by decide)

theorem Parse_readable (n : Nat) :
    (∀ (ts : List LispToken) (e : Expr F) (r : List LispToken),
      (∀ t ∈ ts, t.FromText) → ParseExpr n ts = .ok (e, r) → e.noNum = true → e.Readable) ∧
    (∀ (ts : List LispToken) (e : Expr F) (r : List LispToken),
      (∀ t ∈ ts, t.FromText) → ParsePair n ts = .ok (e, r) → e.noNum = true → e.Readable) ∧
    (∀ (ts : List LispToken) (e : Expr F) (r : List LispToken),
      (∀ t ∈ ts, t.FromText) → ParseQuote n ts = .ok (e, r) → e.noNum = true →
      e.Readable) := by
  induction n with
  | zero =>
    refine ⟨fun ts e r _ h => ?_, fun ts e r _ h => ?_, fun ts e r _ h => ?_⟩
    · simp [ParseExpr] at h
    · simp [ParsePair] at h
    · simp [ParseQuote] at h
  | succ n ih =>
    obtain ⟨ihE, ihP, ihQ⟩ := ih
    refine ⟨fun ts e r hts h hn => ?_, fun ts e r hts h hn => ?_, fun ts e r hts h hn => ?_⟩
    · cases ts with
      | nil => simp [ParseExpr] at h
      | cons t rest =>
        have ht := hts t (List.mem_cons_self _ _)
        have hrest : ∀ x ∈ rest, x.FromText := fun x hx => hts x (List.mem_cons_of_mem _ hx)
        cases hk : t.kind <;> simp only [ParseExpr, hk] at h
        case Num =>
          cases hs : (Runtime.stof t.value : Option F) with
          | none => simp [hs] at h
          | some val =>
            simp only [hs, Outcome.ok.injEq, Prod.mk.injEq] at h
            rw [← h.1] at hn
            simp [Expr.noNum] at hn
        case String =>
          simp only [Outcome.ok.injEq, Prod.mk.injEq] at h
          rw [← h.1]
          exact ht.2 hk
        case Symbol =>
          simp only [Outcome.ok.injEq, Prod.mk.injEq] at h
          rw [← h.1]
          obtain ⟨h1, h2, h3⟩ := ht.1 hk
          refine SymbolText_GetInstance t.value.data h1 h2 ?_
          rw [h3]
          cases t
          simp only at hk
          rw [hk]
        case BeginParenthesis => exact ihP rest e r hrest h hn
        case Quote => exact ihQ rest e r hrest h hn
        case EndParenthesis => exact absurd h (by simp)
        all_goals
          simp only [Outcome.ok.injEq, Prod.mk.injEq] at h
          rw [← h.1]
          trivial
    · simp only [ParsePair] at h
      cases he : (ParseExpr n ts : Outcome (Expr F × List LispToken)) with
      | outOfFuel => simp [he] at h
      | error msg => simp [he] at h
      | ok p =>
        obtain ⟨e1, r1⟩ := p
        rw [he] at h
        obtain ⟨c1, hc1, _, _⟩ := (@Parse_consumed F _ n).1 ts e1 r1 he
        cases r1 with
        | nil => simp at h
        | cons t rest =>
          simp only at h
          by_cases hk : t.kind = .EndParenthesis
          · simp only [if_pos hk, Outcome.ok.injEq, Prod.mk.injEq] at h
            rw [← h.1] at hn ⊢
            simp only [Expr.noNum, Bool.and_eq_true] at hn
            exact ⟨ihE ts e1 _ hts he hn.1, trivial, Or.inl rfl⟩
          · simp only [if_neg hk] at h
            cases hp : (ParsePair n (t :: rest) : Outcome (Expr F × List LispToken)) with
            | outOfFuel => simp [hp] at h
            | error msg => simp [hp] at h
            | ok q =>
              obtain ⟨e2, r2⟩ := q
              simp only [hp, Outcome.ok.injEq, Prod.mk.injEq] at h
              rw [← h.1] at hn ⊢
              simp only [Expr.noNum, Bool.and_eq_true] at hn
              have hts2 : ∀ x ∈ t :: rest, x.FromText := by
                intro x hx
                apply hts x
                rw [hc1]
                exact List.mem_append_right _ hx
              exact ⟨ihE ts e1 _ hts he hn.1, ihP _ e2 r2 hts2 hp hn.2,
                Or.inr ((@Parse_proper F _ n).2.1 _ e2 r2 hp).2⟩
    · simp only [ParseQuote] at h
      cases he : (ParseExpr n ts : Outcome (Expr F × List LispToken)) with
      | outOfFuel => simp [he] at h
      | error msg => simp [he] at h
      | ok p =>
        obtain ⟨e1, r1⟩ := p
        simp only [he, Outcome.ok.injEq, Prod.mk.injEq] at h
        rw [← h.1] at hn ⊢
        simp only [Expr.noNum, Bool.and_eq_true, Bool.true_and] at hn
        exact ⟨SymbolText_QUOTE, ⟨ihE ts e1 _ hts he hn.1, trivial, Or.inl rfl⟩,
          Or.inr ⟨_, _, rfl⟩⟩

theorem Parse_loop_readable (fuel n : Nat) (ts : List LispToken) (es : List (Expr F))
    (hts : ∀ t ∈ ts, t.FromText) (h : Parse.loop fuel n ts = .ok es) :
    ∀ e ∈ es, e.noNum = true → e.Readable := by
  induction n generalizing ts es with
  | zero => simp [Parse.loop] at h
  | succ n ih =>
    cases ts with
    | nil =>
      simp only [Parse.loop, Outcome.ok.injEq] at h
      subst h
      simp
    | cons t rest =>
      simp only [Parse.loop] at h
      cases he : (ParseExpr fuel (t :: rest) : Outcome (Expr F × List LispToken)) with
      | outOfFuel => simp [he] at h
      | error msg => simp [he] at h
      | ok p =>
        obtain ⟨e1, r1⟩ := p
        rw [he] at h
        simp only at h
        obtain ⟨c1, hc1, _, _⟩ := (@Parse_consumed F _ fuel).1 _ e1 r1 he
        cases hl : (Parse.loop fuel n r1 : Outcome (List (Expr F))) with
        | outOfFuel => simp [hl] at h
        | error msg => simp [hl] at h
        | ok es1 =>
          simp only [hl, Outcome.ok.injEq] at h
          subst h
          intro e hmem hn
          rcases List.mem_cons.mp hmem with rfl | hmem
          · exact (@Parse_readable F _ fuel).1 _ _ _ hts he hn
          · refine ih r1 es1 (fun x hx => hts x ?_) hl e hmem hn
            rw [hc1]
            exact List.mem_append_right _ hx

/-! ### The tokens of a printed text -/

omit [Runtime F] in
theorem GenerateTokens_mk (cs : List Char) :
    GenerateTokens (String.mk cs) = GenerateTokens.loop cs.length cs := rfl

omit [Runtime F] in
theorem GenerateTokens_space (cs : List Char) :
    GenerateTokens (String.mk (' ' :: cs)) = GenerateTokens (String.mk cs) := by
  simp only [GenerateTokens_mk, List.length_cons, GenerateTokens.loop]
  have h : isspace ' ' = true := by decide
  simp only [h, if_true]

omit [Runtime F] in
theorem GenerateTokens_end (cs : List Char) (tk : List LispToken)
    (h : GenerateTokens (String.mk cs) = .ok tk) :
    GenerateTokens (String.mk (')' :: cs)) = .ok (⟨.EndParenthesis, ")"⟩ :: tk) := by
  simp only [GenerateTokens_mk] at h
  simp only [GenerateTokens_mk, List.length_cons, GenerateTokens.loop]
  have h1 : isspace ')' = false := by decide
  have h2 : ¬ (')' = dquote) := by decide
  have h3 : ¬ (')' = '(') := by decide
  simp only [h1, Bool.false_eq_true, if_false, if_neg h2, if_neg h3, if_true, h]

omit [Runtime F] in
theorem GenerateTokens_nil (cs : List Char) (tk : List LispToken)
    (h : GenerateTokens (String.mk cs) = .ok tk) :
    GenerateTokens (String.mk ('(' :: ')' :: cs)) = .ok (⟨.Nil, ""⟩ :: tk) := by
  simp only [GenerateTokens_mk] at h
  simp only [GenerateTokens_mk, List.length_cons, GenerateTokens.loop]
  have h1 : isspace '(' = false := by decide
  have h2 : ¬ ('(' = dquote) := by decide
  simp only [h1, Bool.false_eq_true, if_false, if_neg h2, if_true]
  rw [GenerateTokens_loop_fuel _ cs.length cs (by omega) le_rfl, h]

omit [Runtime F] in
theorem GenerateTokens_begin (d : Char) (cs : List Char) (tk : List LispToken)
    (hd : d ≠ ')') (h : GenerateTokens (String.mk (d :: cs)) = .ok tk) :
    GenerateTokens (String.mk ('(' :: d :: cs)) = .ok (⟨.BeginParenthesis, "("⟩ :: tk) := by
  simp only [GenerateTokens_mk] at h
  simp only [GenerateTokens_mk, List.length_cons]
  rw [GenerateTokens.loop]
  have h1 : isspace '(' = false := by decide
  have h2 : ¬ ('(' = dquote) := by decide
  · simp only [h1, Bool.false_eq_true, if_false, if_neg h2, if_true]
    simp only [List.length_cons] at h
    rw [h]
  · intro after heq
    simp only [List.cons.injEq] at heq
    exact hd heq.1

omit [Runtime F] in
theorem GenerateTokens_string (body cs : List Char) (tk : List LispToken)
    (hbody : dquote ∉ body) (h : GenerateTokens (String.mk cs) = .ok tk) :
    GenerateTokens (String.mk (dquote :: (body ++ dquote :: cs))) =
      .ok (⟨.String, String.mk body⟩ :: tk) := by
  simp only [GenerateTokens_mk] at h
  simp only [GenerateTokens_mk, List.length_cons, GenerateTokens.loop]
  have h1 : isspace dquote = false := by decide
  simp only [h1, Bool.false_eq_true, if_false, if_true]
  have hspan : (body ++ dquote :: cs).span (fun d => d != dquote) = (body, dquote :: cs) := by
    apply span_run
    · intro c hc
      have : c ≠ dquote := fun e => hbody (e ▸ hc)
      simpa using this
    · exact Or.inr ⟨dquote, cs, rfl, by simp⟩
  rw [hspan]
  simp only
  rw [GenerateTokens_loop_fuel _ cs.length cs (by simp; omega) le_rfl, h]

omit [Runtime F] in
theorem GenerateTokens_run_ok (run rest : List Char) (tk : List LispToken) (hne : run ≠ [])
    (hrun : ∀ c ∈ run, IsSeparator c = false)
    (hrest : rest = [] ∨ ∃ c rest2, rest = c :: rest2 ∧ IsSeparator c = true)
    (h : GenerateTokens (String.mk rest) = .ok tk) :
    GenerateTokens (String.mk (run ++ rest)) = .ok (classify run :: tk) := by
  rw [GenerateTokens_run run rest hne hrun hrest, h]

/-! ### The printed text of an expression that can be read back -/

theorem ToString_pair_data (a b : Expr F) :
    (Expr.ToString (.pair a b)).data =
      '(' :: (a.ToString.data ++ (b.ToStringRest.data ++ [')'])) := by
  simp only [Expr.ToString, String.data_append, List.append_assoc]
  rfl

theorem ToStringRest_pair_data (c d : Expr F) :
    (Expr.ToStringRest (.pair c d)).data = ' ' :: (c.ToString.data ++ d.ToStringRest.data) := by
  simp only [Expr.ToStringRest, String.data_append, List.append_assoc]
  rfl

theorem Readable_head {e : Expr F} (h : e.Readable) :
    ∃ c cs, e.ToString.data = c :: cs ∧ c ≠ ')' := by
  cases e with
  | sym s =>
    obtain ⟨h1, h2, _, _⟩ := h
    cases hs : s.data with
    | nil => exact absurd hs h1
    | cons c cs =>
      refine ⟨c, cs, hs, fun e => ?_⟩
      have := h2 c (by rw [hs]; exact List.mem_cons_self _ _)
      rw [e] at this
      exact absurd this (by decide)
  | str s => exact ⟨dquote, s.data ++ [dquote], by
      simp only [Expr.ToString, Expr.atomToString, String.data_append]; rfl, by decide⟩
  | nil => exact ⟨'(', [')'], rfl, by decide⟩
  | tru => exact ⟨'T', [], rfl, by decide⟩
  | pair a b => exact ⟨'(', _, ToString_pair_data a b, by decide⟩
  | num v => exact h.elim
  | fn ps bd nm => exact h.elim
  | prim f nm => exact h.elim

theorem Rest_head {b : Expr F} (hb : b = .nil ∨ ∃ c d, b = .pair c d) (k : List Char) :
    ∃ c k2, b.ToStringRest.data ++ ')' :: k = c :: k2 ∧ IsSeparator c = true := by
  rcases hb with rfl | ⟨c, d, rfl⟩
  · exact ⟨')', k, rfl, by decide⟩
  · rw [ToStringRest_pair_data]
    exact ⟨' ', _, rfl, by decide⟩

/-- The tokenizer on the printed text of an expression that can be read back,
before a separator or the end of the text, and on what is printed after the
first element of such a pair. -/
theorem GenerateTokens_printed (e : Expr F) :
    (e.Readable → ∀ (k : List Char) (tk : List LispToken),
      (k = [] ∨ ∃ c k2, k = c :: k2 ∧ IsSeparator c = true) →
      GenerateTokens (String.mk k) = .ok tk →
      GenerateTokens (String.mk (e.ToString.data ++ k)) = .ok (e.tokens ++ tk)) ∧
    (e.Readable → (e = .nil ∨ ∃ c d, e = .pair c d) → ∀ (k : List Char) (tk : List LispToken),
      GenerateTokens (String.mk k) = .ok tk →
      GenerateTokens (String.mk (e.ToStringRest.data ++ ')' :: k)) =
        .ok (e.restTokens ++ tk)) := by
  induction e with
  | sym s =>
    refine ⟨fun h k tk hk htk => ?_, fun _ hb => ?_⟩
    · obtain ⟨h1, h2, h3, _⟩ := h
      have := GenerateTokens_run_ok s.data k tk h1 h2 hk htk
      rw [h3] at this
      exact this
    · rcases hb with hb | ⟨c, d, hb⟩ <;> exact Expr.noConfusion hb
  | str s =>
    refine ⟨fun h k tk _ htk => ?_, fun _ hb => ?_⟩
    · have := GenerateTokens_string s.data k tk h htk
      have e1 : (Expr.ToString (.str s : Expr F)).data ++ k = dquote :: (s.data ++ dquote :: k) := by
        simp only [Expr.ToString, Expr.atomToString, String.data_append, List.append_assoc]
        rfl
      rw [e1, this]
      rfl
    · rcases hb with hb | ⟨c, d, hb⟩ <;> exact Expr.noConfusion hb
  | nil =>
    refine ⟨fun _ k tk _ htk => GenerateTokens_nil k tk htk,
      fun _ _ k tk htk => GenerateTokens_end k tk htk⟩
  | tru =>
    refine ⟨fun _ k tk hk htk => ?_, fun _ hb => ?_⟩
    · exact GenerateTokens_run_ok ['T'] k tk (by simp) (by decide) hk htk
    · rcases hb with hb | ⟨c, d, hb⟩ <;> exact Expr.noConfusion hb
  | pair a b iha ihb =>
    have inner : (Expr.pair a b).Readable → ∀ (k : List Char) (tk : List LispToken),
        GenerateTokens (String.mk k) = .ok tk →
        GenerateTokens (String.mk (a.ToString.data ++ (b.ToStringRest.data ++ ')' :: k))) =
          .ok (a.tokens ++ (b.restTokens ++ tk)) := by
      intro h k tk htk
      obtain ⟨ha, hb, hshape⟩ := h
      obtain ⟨c, k2, hck, hc⟩ := Rest_head hshape k
      exact iha.1 ha _ _ (Or.inr ⟨c, k2, hck, hc⟩) (ihb.2 hb hshape k tk htk)
    refine ⟨fun h k tk _ htk => ?_, fun h _ k tk htk => ?_⟩
    · have h1 := inner h k tk htk
      obtain ⟨d, ds, hd, hne⟩ := Readable_head h.1
      rw [ToString_pair_data]
      have e1 : '(' :: (a.ToString.data ++ (b.ToStringRest.data ++ [')'])) ++ k =
          '(' :: (a.ToString.data ++ (b.ToStringRest.data ++ ')' :: k)) := by simp
      rw [e1]
      rw [hd, List.cons_append] at h1 ⊢
      rw [GenerateTokens_begin d _ _ hne h1]
      simp [Expr.tokens]
    · have h1 := inner h k tk htk
      rw [ToStringRest_pair_data]
      have e1 : ' ' :: (a.ToString.data ++ b.ToStringRest.data) ++ ')' :: k =
          ' ' :: (a.ToString.data ++ (b.ToStringRest.data ++ ')' :: k)) := by simp
      rw [e1, GenerateTokens_space, h1]
      simp [Expr.restTokens]
  | num v => exact ⟨fun h => h.elim, fun h => h.elim⟩
  | fn ps bd nm _ => exact ⟨fun h => h.elim, fun h => h.elim⟩
  | prim f nm => exact ⟨fun h => h.elim, fun h => h.elim⟩

/-! ### The parser on the tokens of a printed text -/

omit [Runtime F] in
theorem tokens_head {e : Expr F} (h : e.Readable) :
    ∃ t ts, e.tokens = t :: ts ∧ t.kind ≠ .EndParenthesis := by
  cases e with
  | sym s => exact ⟨_, [], rfl, by simp⟩
  | str s => exact ⟨_, [], rfl, by simp⟩
  | nil => exact ⟨_, [], rfl, by simp⟩
  | tru => exact ⟨_, [], rfl, by simp⟩
  | pair a b => exact ⟨_, _, rfl, by simp⟩
  | num v => exact h.elim
  | fn ps bd nm => exact h.elim
  | prim f nm => exact h.elim

/-- The parser on the tokens of the printed text of an expression that can be
read back returns the expression. -/
theorem Parse_tokens (e : Expr F) :
    (e.Readable → ∃ n, ∀ r : List LispToken, ParseExpr n (e.tokens ++ r) = .ok (e, r)) ∧
    (e.Readable → (e = .nil ∨ ∃ c d, e = .pair c d) → ∀ (a : Expr F) (na : Nat),
      (∀ r : List LispToken, ParseExpr na (a.tokens ++ r) = .ok (a, r)) →
      ∃ n, ∀ r : List LispToken,
        ParsePair n (a.tokens ++ (e.restTokens ++ r)) = .ok (.pair a e, r)) := by
  induction e with
  | sym s =>
    refine ⟨fun h => ⟨1, fun r => ?_⟩, fun _ hb => ?_⟩
    · simp only [Expr.tokens, List.singleton_append, ParseExpr, h.2.2.2]
    · rcases hb with hb | ⟨c, d, hb⟩ <;> exact Expr.noConfusion hb
  | str s =>
    refine ⟨fun h => ⟨1, fun r => ?_⟩, fun _ hb => ?_⟩
    · simp only [Expr.tokens, List.singleton_append, ParseExpr]
    · rcases hb with hb | ⟨c, d, hb⟩ <;> exact Expr.noConfusion hb
  | nil =>
    refine ⟨fun h => ⟨1, fun r => ?_⟩, fun _ _ a na ha => ⟨na + 1, fun r => ?_⟩⟩
    · simp only [Expr.tokens, List.singleton_append, ParseExpr]
    · simp only [Expr.restTokens, List.singleton_append, ParsePair, ha, if_true]
  | tru =>
    refine ⟨fun h => ⟨1, fun r => ?_⟩, fun _ hb => ?_⟩
    · simp only [Expr.tokens, List.singleton_append, ParseExpr]
    · rcases hb with hb | ⟨c, d, hb⟩ <;> exact Expr.noConfusion hb
  | pair c d ihc ihd =>
    refine ⟨fun h => ?_, fun h _ a na ha => ?_⟩
    · obtain ⟨hc, hd, hshape⟩ := h
      obtain ⟨nc, hnc⟩ := ihc.1 hc
      obtain ⟨n, hn⟩ := ihd.2 hd hshape c nc hnc
      refine ⟨n + 1, fun r => ?_⟩
      simp only [Expr.tokens, List.cons_append, List.append_assoc, ParseExpr, hn]
    · obtain ⟨hc, hd, hshape⟩ := h
      obtain ⟨nc, hnc⟩ := ihc.1 hc
      obtain ⟨n, hn⟩ := ihd.2 hd hshape c nc hnc
      obtain ⟨t, ts, hts, hk⟩ := tokens_head hc
      refine ⟨max na n + 1, fun r => ?_⟩
      have h1 := ha (c.tokens ++ (d.restTokens ++ r))
      have h2 := hn r
      rw [hts, List.cons_append] at h1 h2
      simp only [Expr.restTokens, List.append_assoc, hts, List.cons_append, ParsePair,
        ParseExpr_mono (Nat.le_max_left na n) h1 (by simp), if_neg hk,
        ParsePair_mono (Nat.le_max_right na n) h2 (by simp)]
  | num v => exact ⟨fun h => h.elim, fun h => h.elim⟩
  | fn ps bd nm _ => exact ⟨fun h => h.elim, fun h => h.elim⟩
  | prim f nm => exact ⟨fun h => h.elim, fun h => h.elim⟩

/-- Printing an expression that can be read back and reading the text gives
the expression, and nothing else. -/
theorem Readable_roundtrip {e : Expr F} (h : e.Readable) :
    GenerateTokens e.ToString = .ok e.tokens ∧
    (Parse e.tokens : Outcome (List (Expr F))) = .ok [e] := by
  constructor
  · have := (GenerateTokens_printed e).1 h [] [] (Or.inl rfl) rfl
    simpa using this
  · obtain ⟨n, hn⟩ := (Parse_tokens e).1 h
    obtain ⟨t, ts, hts, _⟩ := tokens_head h
    have h1 := hn []
    rw [List.append_nil, hts] at h1
    have h2 := @ParseExpr_enough F _ _ (2 * (t :: ts).length + 2) _ _ h1 (by simp) (by omega)
    rw [hts]
    simp only [Parse, List.length_cons, Parse.loop]
    simp only [List.length_cons] at h2
    rw [h2]
    rfl

/-! ### The frame of a call -/

omit [Runtime F] in
theorem getElem?_ne_of_not_mem {ps : List String} {p : String} (h : p ∉ ps) (j : Nat) :
    ps[j]? ≠ some p := by
  intro hj
  obtain ⟨hlt, he⟩ := List.getElem?_eq_some_iff.mp hj
  exact h (he ▸ List.getElem_mem hlt)

omit [Runtime F] in
theorem getElem?_ne_of_nodup {ps : List String} (hnd : ps.Nodup) {i j : Nat} {p : String}
    (hi : ps[i]? = some p) (hij : i < j) : ps[j]? ≠ some p := by
  intro hj
  have h1 : i < ps.length := (List.getElem?_eq_some_iff.mp hi).1
  have h2 : j < ps.length := (List.getElem?_eq_some_iff.mp hj).1
  have e1 : ps[i] = p := (List.getElem?_eq_some_iff.mp hi).2
  have e2 : ps[j] = p := (List.getElem?_eq_some_iff.mp hj).2
  have := (List.Nodup.getElem_inj_iff hnd).mp (e1.trans e2.symm)
  omega

theorem Evaluates_condForm_test_error {pre post : List (Expr F × Expr F)} {t r : Expr F}
    {env : List (Table F)} {g gk g2 : Table F} {m : String} (hpre : AllTestsNil pre env g gk)
    (ht : Evaluates t env gk (.error m, g2)) :
    Evaluates (condForm (pre ++ (t, r) :: post)) env g (.error m, g2) := by
  obtain ⟨N0, hN0⟩ := EvalCond_skip hpre
  obtain ⟨N1, hN1⟩ := ht.eventually
  have hne : pre ++ (t, r) :: post ≠ [] := by simp
  refine Evaluates.of_EvalList_pair (max N0 N1) (by simp) ?_
  have h1 := EvalList_condForm (Evaluate (max N0 N1)) _ hne env g
  rw [hN0 _ (Nat.le_max_left _ _)] at h1
  simp only [Expr.clauses, EvalCond, hN1 _ (Nat.le_max_right _ _), Result.bind_error] at h1
  exact h1

theorem PrimPlus_loop_error_iff (acc : F) (args : List (Expr F)) (m : String) :
    PrimPlus.loop acc args = .error m ↔
      ∃ a, args.find? (fun e => decide (e.Type ≠ .Num)) = some a ∧
        m = "Not a number: " ++ a.ToString := by
  induction args generalizing acc with
  | nil => simp [PrimPlus.loop]
  | cons e rest ih =>
    cases e <;> simp [PrimPlus.loop, NumCast, List.find?, Expr.Type, ih, eq_comm]

theorem PrimMul_loop_error_iff (acc : F) (args : List (Expr F)) (m : String) :
    PrimMul.loop acc args = .error m ↔
      ∃ a, args.find? (fun e => decide (e.Type ≠ .Num)) = some a ∧
        m = "Not a number: " ++ a.ToString := by
  induction args generalizing acc with
  | nil => simp [PrimMul.loop]
  | cons e rest ih =>
    cases e <;> simp [PrimMul.loop, NumCast, List.find?, Expr.Type, ih, eq_comm]

theorem PrimMinus_loop_error_iff (acc : F) (args : List (Expr F)) (m : String) :
    PrimMinus.loop acc args = .error m ↔
      ∃ a, args.find? (fun e => decide (e.Type ≠ .Num)) = some a ∧
        m = "Not a number: " ++ a.ToString := by
  induction args generalizing acc with
  | nil => simp [PrimMinus.loop]
  | cons e rest ih =>
    cases e <;> simp [PrimMinus.loop, NumCast, List.find?, Expr.Type, ih, eq_comm]

theorem PrimDiv_loop_error_iff (acc : F) (args : List (Expr F)) (m : String) :
    PrimDiv.loop acc args = .error m ↔
      ∃ a, args.find? (fun e => decide (e.Type ≠ .Num) || e.zeroNum) = some a ∧
        ((a.Type ≠ .Num ∧ m = "Not a number: " ++ a.ToString) ∨
          (a.zeroNum = true ∧ m = "/: Division by zero.")) := by
  induction args generalizing acc with
  | nil => simp [PrimDiv.loop]
  | cons e rest ih =>
    cases e with
    | num v =>
      by_cases hz : Runtime.eq v Runtime.zero = true
      · simp only [PrimDiv.loop, NumCast, Div, hz, if_true, List.find?, Expr.Type, Expr.zeroNum,
          ne_eq, not_true_eq_false, decide_False, Bool.false_or, Option.some.injEq,
          Except.error.injEq]
        constructor
        · intro h
          exact ⟨_, rfl, Or.inr ⟨hz, h.symm⟩⟩
        · rintro ⟨a, rfl, h | h⟩
          · exact absurd rfl h.1
          · exact h.2.symm
      · simp only [PrimDiv.loop, NumCast, Div, hz, List.find?, Expr.Type, Expr.zeroNum,
          ne_eq, not_true_eq_false, decide_False, Bool.false_or, Bool.false_eq_true, if_false]
        exact ih _
    | _ =>
      simp only [PrimDiv.loop, NumCast, List.find?, Expr.Type, Expr.zeroNum, ne_eq,
        decide_True, Bool.true_or, Option.some.injEq, Except.error.injEq, reduceCtorEq,
        not_false_eq_true, Bool.or_false]
      constructor
      · intro h
        exact ⟨_, rfl, Or.inl ⟨by simp [Expr.Type], h.symm⟩⟩
      · rintro ⟨a, rfl, h | h⟩
        · exact h.2.symm
        · simp [Expr.zeroNum] at h

theorem PrimPlus_error_iff (args : List (Expr F)) (m : String) :
    PrimPlus args = .error m ↔
      ∃ a, args.find? (fun e => decide (e.Type ≠ .Num)) = some a ∧
        m = "Not a number: " ++ a.ToString := by
  rw [← PrimPlus_loop_error_iff Runtime.zero args m]
  unfold PrimPlus
  cases PrimPlus.loop Runtime.zero args <;> simp

theorem PrimMul_error_iff (args : List (Expr F)) (m : String) :
    PrimMul args = .error m ↔
      ∃ a, args.find? (fun e => decide (e.Type ≠ .Num)) = some a ∧
        m = "Not a number: " ++ a.ToString := by
  rw [← PrimMul_loop_error_iff Runtime.one args m]
  unfold PrimMul
  cases PrimMul.loop Runtime.one args <;> simp

omit [Runtime F] in
theorem Expr.Type_eq_num {e : Expr F} (h : e.Type = .Num) : ∃ v, e = .num v := by
  cases e <;> simp [Expr.Type] at h
  exact ⟨_, rfl⟩

omit [Runtime F] in
theorem find_nonNum_num (v : F) (rest : List (Expr F)) :
    (Expr.num v :: rest).find? (fun e => decide (e.Type ≠ .Num)) =
      rest.find? (fun e => decide (e.Type ≠ .Num)) := by
  simp [List.find?, Expr.Type]

omit [Runtime F] in
theorem find_nonNum_other {e : Expr F} (h : e.Type ≠ .Num) (rest : List (Expr F)) :
    (e :: rest).find? (fun e => decide (e.Type ≠ .Num)) = some e := by
  simp [List.find?, h]

theorem NumCast_of_not_num {e : Expr F} (h : e.Type ≠ .Num) :
    NumCast e = .error ("Not a number: " ++ e.ToString) := by
  cases e <;> simp [NumCast, Expr.Type] at h ⊢

theorem error_iff_first {α : Type} (e : Expr F) (m : String) :
    (Except.error ("Not a number: " ++ e.ToString) : Except String α) = .error m ↔
      ∃ a, some e = some a ∧ m = "Not a number: " ++ a.ToString := by
  constructor
  · intro h
    exact ⟨e, rfl, (Except.error.inj h).symm⟩
  · rintro ⟨a, ha, rfl⟩
    cases ha
    rfl

theorem PrimMinus_error_iff (args : List (Expr F)) (m : String) :
    PrimMinus args = .error m ↔
      (args = [] ∧ m = "-: Expects at least one argument.") ∨
      ∃ a, args.find? (fun e => decide (e.Type ≠ .Num)) = some a ∧
        m = "Not a number: " ++ a.ToString := by
  cases args with
  | nil =>
    simp only [PrimMinus, Except.error.injEq, List.find?, true_and, reduceCtorEq, false_and,
      exists_false, or_false]
    exact eq_comm
  | cons e rest =>
    simp only [reduceCtorEq, false_and, false_or]
    by_cases he : e.Type = .Num
    · obtain ⟨v, rfl⟩ := Expr.Type_eq_num he
      rw [find_nonNum_num]
      cases rest with
      | nil => simp [PrimMinus, NumCast]
      | cons e2 rest2 =>
        rw [← PrimMinus_loop_error_iff v (e2 :: rest2) m]
        simp only [PrimMinus, NumCast]
        cases PrimMinus.loop v (e2 :: rest2) <;> simp
    · rw [find_nonNum_other he]
      simp only [PrimMinus, NumCast_of_not_num he]
      exact error_iff_first e m

theorem numCompare_error_iff (cmp : F → F → Bool) (args : List (Expr F)) (m : String)
    (hlen : args.length = 2) :
    numCompare cmp args = .error m ↔
      ∃ a, args.find? (fun e => decide (e.Type ≠ .Num)) = some a ∧
        m = "Not a number: " ++ a.ToString := by
  match args, hlen with
  | [a, b], _ =>
    simp only [numCompare, List.getD_cons_zero, List.getD_cons_succ]
    by_cases ha : a.Type = .Num
    · obtain ⟨x, rfl⟩ := Expr.Type_eq_num ha
      rw [find_nonNum_num]
      by_cases hb : b.Type = .Num
      · obtain ⟨y, rfl⟩ := Expr.Type_eq_num hb
        rw [find_nonNum_num]
        simp only [NumCast, List.find?]
        split_ifs <;> simp
      · rw [find_nonNum_other hb]
        have hx : NumCast (Expr.num x) = .ok x := rfl
        rw [hx, NumCast_of_not_num hb]
        exact error_iff_first b m
    · rw [find_nonNum_other ha]
      simp only [NumCast_of_not_num ha]
      exact error_iff_first a m

omit [Runtime F] in
theorem AssertArgsNum_then {α : Type} (name : String) (args : List (Expr F)) (n : Nat)
    (k : Except String α) (m : String) :
    (match AssertArgsNum name args n with
      | .error m => .error m
      | .ok _ => k) = Except.error m ↔
      (args.length ≠ n ∧ m = name ++ ": Wrong number of arguments.") ∨
      (args.length = n ∧ k = .error m) := by
  unfold AssertArgsNum
  by_cases h : args.length = n
  · simp [h]
  · simp only [h, if_false, Except.error.injEq, ne_eq, not_false_eq_true, true_and, false_and,
      or_false]
    exact eq_comm

theorem PrimDiv_error_iff (args : List (Expr F)) (m : String) :
    PrimDiv args = .error m ↔
      (args = [] ∧ m = "/: Expects at least one argument.") ∨
      (∃ e rest, args = e :: rest ∧ e.Type ≠ .Num ∧ m = "Not a number: " ++ e.ToString) ∨
      (∃ x, args = [.num x] ∧ Runtime.eq x Runtime.zero = true ∧
        m = "/: Division by zero.") ∨
      (∃ x rest a, args = .num x :: rest ∧
        rest.find? (fun e => decide (e.Type ≠ .Num) || e.zeroNum) = some a ∧
        ((a.Type ≠ .Num ∧ m = "Not a number: " ++ a.ToString) ∨
          (a.zeroNum = true ∧ m = "/: Division by zero."))) := by
  cases args with
  | nil =>
    simp only [PrimDiv, Except.error.injEq, true_and, reduceCtorEq, false_and, exists_false,
      or_false, exists_const]
    exact eq_comm
  | cons e rest =>
    by_cases he : e.Type = .Num
    · obtain ⟨v, rfl⟩ := Expr.Type_eq_num he
      cases rest with
      | nil =>
        simp only [PrimDiv, NumCast, Div]
        constructor
        · intro h
          split_ifs at h with hz
          exact Or.inr (Or.inr (Or.inl ⟨v, rfl, hz, (Except.error.inj h).symm⟩))
        · rintro (⟨h, -⟩ | ⟨e, rest, h1, h2, -⟩ | ⟨x, h1, h2, rfl⟩ | ⟨x, rest, a, h1, h2, -⟩)
          · cases h
          · cases h1
            exact absurd rfl h2
          · cases h1
            simp only [h2, if_true]
          · cases h1
            simp [List.find?] at h2
      | cons e2 rest2 =>
        have h := PrimDiv_loop_error_iff v (e2 :: rest2) m
        have h0 : PrimDiv (.num v :: e2 :: rest2) = .error m ↔
            PrimDiv.loop v (e2 :: rest2) = .error m := by
          simp only [PrimDiv, NumCast]
          cases PrimDiv.loop v (e2 :: rest2) <;> simp
        rw [h0, h]
        constructor
        · rintro ⟨a, ha, h4⟩
          exact Or.inr (Or.inr (Or.inr ⟨v, e2 :: rest2, a, rfl, ha, h4⟩))
        · rintro (⟨h, -⟩ | ⟨e, rest, h1, h2, -⟩ | ⟨x, h1, -⟩ | ⟨x, rest, a, h1, h2, h3⟩)
          · cases h
          · cases h1
            exact absurd rfl h2
          · cases h1
          · cases h1
            exact ⟨a, h2, h3⟩
    · simp only [PrimDiv, NumCast_of_not_num he, Except.error.injEq]
      constructor
      · intro h
        exact Or.inr (Or.inl ⟨e, rest, rfl, he, h.symm⟩)
      · rintro (⟨h, -⟩ | ⟨e, rest, h1, -, rfl⟩ | ⟨x, h1, -⟩ | ⟨x, rest, a, h1, -⟩)
        · cases h
        · cases h1
          rfl
        · cases h1
          exact absurd rfl he
        · cases h1
          exact absurd rfl he

omit [Runtime F] in
theorem containsText_prefix (s b : String) : containsText (s ++ b) s = true := by
  unfold containsText
  rw [List.any_eq_true]
  refine ⟨(s ++ b).data, (List.mem_tails _ _).2 (List.suffix_refl _), ?_⟩
  simp

end Lemmas

/-! ## The claims -/

section Claims

variable [Runtime F]

/-- C6: a proper list headed by `IF`, `SET`, `QUOTE`, `DEFINE`, `LAMBDA`,
`APPLY` or `EVAL` whose number of elements, keyword included, is not 4, 3, 2,
4, 3, 3, 2, and a proper list headed by `COND` with one element or an even
number of elements, fails with the printed text of the form as its message;
no sub-expression is evaluated and the global frame is unchanged. -/
theorem C6_special_form_length (rest : List (Expr F)) (env : List (Table F))
    (g : Table F) :
    (rest.length + 1 ≠ 4 → RejectedAsMalformed (Expr.list (.sym "IF" :: rest)) env g) ∧
    (rest.length + 1 ≠ 3 → RejectedAsMalformed (Expr.list (.sym "SET" :: rest)) env g) ∧
    (rest.length + 1 ≠ 2 → RejectedAsMalformed (Expr.list (.sym "QUOTE" :: rest)) env g) ∧
    (rest.length + 1 ≠ 4 → RejectedAsMalformed (Expr.list (.sym "DEFINE" :: rest)) env g) ∧
    (rest.length + 1 ≠ 3 → RejectedAsMalformed (Expr.list (.sym "LAMBDA" :: rest)) env g) ∧
    (rest.length + 1 ≠ 3 → RejectedAsMalformed (Expr.list (.sym "APPLY" :: rest)) env g) ∧
    (rest.length + 1 ≠ 2 → RejectedAsMalformed (Expr.list (.sym "EVAL" :: rest)) env g) ∧
    (rest.length + 1 = 1 ∨ (rest.length + 1) % 2 = 0 →
      RejectedAsMalformed (Expr.list (.sym "COND" :: rest)) env g) := by
  refine ⟨fun h => ?_, fun h => ?_, fun h => ?_, fun h => ?_, fun h => ?_, fun h => ?_,
    fun h => ?_, fun h => ?_⟩
  · refine RejectedAsMalformed.of_every_evaluator fun ev => ?_
    rw [EvalList_if (by rw [StartsWith_list]; decide), EvalList.caseIf, AssertList_list,
      if_neg h]
    rfl
  · refine RejectedAsMalformed.of_every_evaluator fun ev => ?_
    rw [EvalList_set (by rw [StartsWith_list]; decide) (by rw [StartsWith_list]; decide)
      (by rw [StartsWith_list]; decide), EvalList.caseSet, AssertList_list, if_neg h]
    rfl
  · refine RejectedAsMalformed.of_every_evaluator fun ev => ?_
    rw [EvalList_quote (by rw [StartsWith_list]; decide) (by rw [StartsWith_list]; decide)
      (by rw [StartsWith_list]; decide) (by rw [StartsWith_list]; decide),
      EvalList.caseQuote, AssertList_list, if_neg h]
    rfl
  · refine RejectedAsMalformed.of_every_evaluator fun ev => ?_
    rw [EvalList_define (by rw [StartsWith_list]; decide) (by rw [StartsWith_list]; decide)
      (by rw [StartsWith_list]; decide) (by rw [StartsWith_list]; decide)
      (by rw [StartsWith_list]; decide), EvalList.caseDefine, AssertList_list, if_neg h]
    rfl
  · refine RejectedAsMalformed.of_every_evaluator fun ev => ?_
    rw [EvalList_lambda (by rw [StartsWith_list]; decide) (by rw [StartsWith_list]; decide)
      (by rw [StartsWith_list]; decide) (by rw [StartsWith_list]; decide)
      (by rw [StartsWith_list]; decide) (by rw [StartsWith_list]; decide),
      EvalList.caseLambda, AssertList_list, if_neg h]
    rfl
  · refine RejectedAsMalformed.of_every_evaluator fun ev => ?_
    rw [EvalList_apply (by rw [StartsWith_list]; decide) (by rw [StartsWith_list]; decide)
      (by rw [StartsWith_list]; decide) (by rw [StartsWith_list]; decide)
      (by rw [StartsWith_list]; decide) (by rw [StartsWith_list]; decide)
      (by rw [StartsWith_list]; decide), EvalList.caseApply, AssertList_list, if_neg h]
    rfl
  · refine RejectedAsMalformed.of_every_evaluator fun ev => ?_
    rw [EvalList_eval (by rw [StartsWith_list]; decide) (by rw [StartsWith_list]; decide)
      (by rw [StartsWith_list]; decide) (by rw [StartsWith_list]; decide)
      (by rw [StartsWith_list]; decide) (by rw [StartsWith_list]; decide)
      (by rw [StartsWith_list]; decide) (by rw [StartsWith_list]; decide),
      EvalList.caseEval, AssertList_list, if_neg h]
    rfl
  · refine RejectedAsMalformed.of_every_evaluator fun ev => ?_
    rw [EvalList_cond (by rw [StartsWith_list]; decide) (by rw [StartsWith_list]; decide),
      EvalList.caseCond, IsList_list, if_pos]
    right
    rcases h with h | h
    · left; exact h
    · right; simp only; omega

/-- C6, at the form `(IF 1 2)` of three elements. -/
theorem C6_witness :
    RejectedAsMalformed (Expr.list [.sym "IF", .num (1 : ℚ), .num 2]) [] [] :=
  (C6_special_form_length [.num (1 : ℚ), .num 2] [] []).1 (by decide)

/-- C7: in a well-formed `(IF test a b)` the test is evaluated first; when its
value is Nil the form has exactly the results of `b`, and when its value is
anything else (the number 0 and the empty string included) exactly the results
of `a`, evaluated from the global frame the test has left; the other branch
has no part in the result.  `(IF () 1 2)` prints 2 and `(IF T 1 2)` prints 1. -/
theorem C7_if_chooses_branch (test a b : Expr F) (env : List (Table F)) (g : Table F) :
    (∀ ev : Evaluator F,
      EvalList ev (Expr.list [.sym "IF", test, a, b]) env g =
        Result.bind (ev test env g) fun e g1 =>
          if e.Type = .Nil then ev b env g1 else ev a env g1) ∧
    (∀ g1 r, Evaluates test env g (.ok .nil, g1) →
      (Evaluates (Expr.list [.sym "IF", test, a, b]) env g r ↔ Evaluates b env g1 r)) ∧
    (∀ v g1 r, Evaluates test env g (.ok v, g1) → v ≠ .nil →
      (Evaluates (Expr.list [.sym "IF", test, a, b]) env g r ↔ Evaluates a env g1 r)) ∧
    (∀ (x : F) r, Evaluates (Expr.list [.sym "IF", .num x, a, b]) env g r ↔
      Evaluates a env g r) ∧
    (∀ r, Evaluates (Expr.list [.sym "IF", .str "", a, b]) env g r ↔ Evaluates a env g r) ∧
    (∀ n, Process (n + 2) "(IF () 1 2)" (InitGlobalEnv : Table ℚ) =
      ⟨["2"], .ok (), InitGlobalEnv⟩) ∧
    (∀ n, Process (n + 2) "(IF T 1 2)" (InitGlobalEnv : Table ℚ) =
      ⟨["1"], .ok (), InitGlobalEnv⟩) ∧
    (∀ n, Process (n + 2) "(IF 0 1 2)" (InitGlobalEnv : Table ℚ) =
      ⟨["1"], .ok (), InitGlobalEnv⟩) := by
  refine ⟨fun ev => EvalList_if_form ev test a b env g, fun g1 r ht => ?_,
    fun v g1 r ht hv => ?_, fun x r => ?_, fun r => ?_, fun n => ?_, fun n => ?_, fun n => ?_⟩
  · rw [Evaluates_if_form_iff ht, if_pos (show (Expr.nil : Expr F).Type = .Nil from rfl)]
  · rw [Evaluates_if_form_iff ht, if_neg (fun h => hv ((Expr.Type_eq_Nil_iff v).1 h))]
  · have ht : Evaluates (.num x : Expr F) env g (.ok (.num x), g) := ⟨by simp, 1, rfl⟩
    rw [Evaluates_if_form_iff ht, if_neg (by simp [Expr.Type])]
  · have ht : Evaluates (.str "" : Expr F) env g (.ok (.str ""), g) := ⟨by simp, 1, rfl⟩
    rw [Evaluates_if_form_iff ht, if_neg (by simp [Expr.Type])]
  · with_unfolding_all rfl
  · with_unfolding_all rfl
  · with_unfolding_all rfl

/-- C7, at the form `(IF () 1 2)`: its value is 2. -/
theorem C7_witness :
    Evaluates (Expr.list [.sym "IF", .nil, .num (1 : ℚ), .num 2]) [] [] (.ok (.num 2), []) :=
  ((C7_if_chooses_branch (.nil : Expr ℚ) (.num 1) (.num 2) [] []).2.1 [] _
    ⟨by simp, 1, rfl⟩).2 ⟨by simp, 1, rfl⟩

/-- C10: when the tokens after a quote mark parse as the expression `E`, the
quote mark and those tokens parse as the two-element proper list `(QUOTE E)`,
the same tree that the tokens of the written-out form `(QUOTE E)` parse as; and
in every environment the evaluation of `(QUOTE E)` returns `E` itself without
evaluating it, cannot fail, and leaves the global frame as it was. -/
theorem C10_quote (E : Expr F) (env : List (Table F)) (g : Table F) :
    (∀ n (q : LispToken) tokens rest, q.kind = .Quote →
      ParseExpr n tokens = .ok (E, rest) →
      ParseExpr (n + 2) (q :: tokens) = .ok (Expr.list [.sym "QUOTE", E], rest)) ∧
    (∀ n (b s c : LispToken) tokens rest, b.kind = .BeginParenthesis →
      s.kind = .Symbol → SymbolExpr.GetInstance s.value = "QUOTE" →
      c.kind = .EndParenthesis →
      ParseExpr n tokens = .ok (E, c :: rest) →
      ParseExpr (n + 3) (b :: s :: tokens) = .ok (Expr.list [.sym "QUOTE", E], rest)) ∧
    (∀ ev : Evaluator F, EvalList ev (Expr.list [.sym "QUOTE", E]) env g = (.ok E, g)) ∧
    (∀ fuel, Evaluate (fuel + 1) (Expr.list [.sym "QUOTE", E]) env g = (.ok E, g)) ∧
    (∀ r, Evaluates (Expr.list [.sym "QUOTE", E]) env g r ↔ r = (.ok E, g)) := by
  refine ⟨fun n q tokens rest hq h => ?_, fun n b s c tokens rest hb hs hname hc h => ?_,
    fun ev => EvalList_quote_form ev E env g,
    fun fuel => by rw [Evaluate_succ_list]; exact EvalList_quote_form _ E env g,
    fun r => ⟨fun h => ?_, fun h => ?_⟩⟩
  · simp only [ParseExpr, hq, ParseQuote, h]
    rfl
  · cases tokens with
    | nil => exact (ParseExpr_ok_ne_nil h).elim
    | cons t ts =>
      have ht := ParseExpr_ok_ne_end h
      simp only [ParseExpr, hb]
      simp only [ParsePair, ParseExpr, hs, hname, if_neg ht, h, hc, if_true]
      rfl
  · have h1 : Evaluates (Expr.list [.sym "QUOTE", E]) env g (.ok E, g) :=
      Evaluates.of_EvalList 0 (by simp) (EvalList_quote_form _ E env g)
    exact h.unique h1
  · rw [h]
    exact Evaluates.of_EvalList 0 (by simp) (EvalList_quote_form _ E env g)

/-- C10, at the tokens of `'a`: they parse as `(QUOTE A)`. -/
theorem C10_witness :
    (ParseExpr 3 [⟨.Quote, String.singleton squote⟩, ⟨.Symbol, "a"⟩] :
      Outcome (Expr ℚ × List LispToken)) =
      .ok (Expr.list [.sym "QUOTE", .sym "A"], []) :=
  (C10_quote (.sym "A" : Expr ℚ) [] []).1 1 ⟨.Quote, String.singleton squote⟩
    [⟨.Symbol, "a"⟩] [] rfl (by with_unfolding_all rfl)

/-- C5: `(SET X e)` evaluates `e` in the current environment, returns its
value and binds `X` to it in the global frame, whatever frame is current; the
frames of the active calls are as they were, so when the current frame binds
`X` a lookup of `X` from it still gives the old value; when `e` fails nothing
is bound.  `((LAMBDA (X) (CONS (SET X 5) X)) 1)` prints `(5 . 1)` and leaves 5
as the global value of `X`. -/
theorem C5_set_writes_global (X : String) (e : Expr F) (env : List (Table F))
    (g : Table F) :
    (∀ ev : Evaluator F, EvalList ev (Expr.list [.sym "SET", .sym X, e]) env g =
      Result.bind (ev e env g) fun v g1 => (.ok v, Env.define g1 X v)) ∧
    (∀ v g1, Evaluates e env g (.ok v, g1) →
      Evaluates (Expr.list [.sym "SET", .sym X, e]) env g (.ok v, Env.define g1 X v) ∧
      Env.lookup [] (Env.define g1 X v) X = some v ∧
      (∀ Y, Y ≠ X → Table.find (Env.define g1 X v) Y = Table.find g1 Y) ∧
      (∀ frame rest old, env = frame :: rest → Table.find frame X = some old →
        Env.lookup env (Env.define g1 X v) X = some old)) ∧
    (∀ m g1, Evaluates e env g (.error m, g1) →
      Evaluates (Expr.list [.sym "SET", .sym X, e]) env g (.error m, g1)) ∧
    (∀ n, Process (n + 4) "((LAMBDA (X) (CONS (SET X 5) X)) 1)" (InitGlobalEnv : Table ℚ) =
      ⟨["(5 . 1)"], .ok (), Env.define InitGlobalEnv "X" (.num 5)⟩) := by
  refine ⟨fun ev => EvalList_set_form ev X e env g, fun v g1 he => ⟨?_, ?_, ?_, ?_⟩,
    fun m g1 he => ?_, fun n => ?_⟩
  · obtain ⟨N, hN⟩ := he.eventually
    refine Evaluates.of_EvalList N (by simp) ?_
    rw [EvalList_set_form, hN N le_rfl]
    rfl
  · simp only [Env.lookup, Table.find_define, if_true]
  · intro Y hY
    rw [Table.find_define, if_neg hY]
  · intro frame rest old henv hold
    rw [henv]
    exact Env.lookup_of_frame frame rest _ X old hold
  · obtain ⟨N, hN⟩ := he.eventually
    refine Evaluates.of_EvalList N (by simp) ?_
    rw [EvalList_set_form, hN N le_rfl]
    rfl
  · with_unfolding_all rfl

/-- C5, at `(SET X 5)` in a call frame that binds `X` to 1: the value is 5, the
global frame binds `X` to 5, and `X` looked up from the call frame is still
1. -/
theorem C5_witness :
    Evaluates (Expr.list [.sym "SET", .sym "X", .num (5 : ℚ)]) [[("X", .num 1)]] []
        (.ok (.num 5), Env.define [] "X" (.num 5)) ∧
      Env.lookup [] (Env.define [] "X" (.num (5 : ℚ))) "X" = some (.num 5) ∧
      Env.lookup [[("X", .num 1)]] (Env.define [] "X" (.num (5 : ℚ))) "X" = some (.num 1) :=
  have h := (C5_set_writes_global "X" (.num (5 : ℚ)) [[("X", .num 1)]] []).2.1 (.num 5) []
    ⟨by simp, 1, rfl⟩
  ⟨h.1, h.2.1, h.2.2.2 _ _ _ rfl rfl⟩

/-- C9, as amended: a well-formed `(DEFINE name (p1 ... pn) body)` returns Nil
and binds `name` in the global frame to the function with those parameters in
order, that body and that name.  Applying the function to as many argument
values as it has parameters evaluates the body in a new frame, in which a
parameter is bound to the argument at the last position where the parameter
occurs (the i-th argument when the parameters are distinct); and a later form
`(name a1 ... an)` does this with the values of `a1 ... an` when `name` is not
one of the keywords of `EvalList`.  After `(DEFINE SQUARE (X) (* X X))` the
form `(SQUARE 5)` prints 25. -/
theorem C9_define_binds_function (name : String) (params : List String) (body : Expr F)
    (env : List (Table F)) (g : Table F) :
    (∀ ev : Evaluator F, EvalList ev (defineForm name params body) env g =
      (.ok .nil, Env.define g name (.fn params body (some name)))) ∧
    Evaluates (defineForm name params body) env g
      (.ok .nil, Env.define g name (.fn params body (some name))) ∧
    Env.lookup [] (Env.define g name (.fn params body (some name))) name =
      some (.fn params body (some name)) ∧
    (∀ (ev : Evaluator F) args frames g1, args.length = params.length →
      Apply ev (.fn params body (some name)) args frames g1 =
        ev body (bindParams params args [] :: frames) g1) ∧
    (∀ (args : List (Expr F)) (i : Nat) p a, params[i]? = some p → args[i]? = some a →
      (∀ j, i < j → params[j]? ≠ some p) →
      Table.find (bindParams params args []) p = some a) ∧
    (name ∉ keywords → ∀ forms frames g1 vs g2 r,
      Env.lookup frames g1 name = some (.fn params body (some name)) →
      ArgValues forms frames g1 vs g2 → vs.length = params.length →
      (Evaluates (Expr.list (.sym name :: forms)) frames g1 r ↔
        Evaluates body (bindParams params vs [] :: frames) g2 r)) ∧
    (∀ n, Process (n + 1) "(DEFINE SQUARE (X) (* X X))" (InitGlobalEnv : Table ℚ) =
      ⟨["()"], .ok (), Env.define InitGlobalEnv "SQUARE"
        (.fn ["X"] (Expr.list [.sym "*", .sym "X", .sym "X"]) (some "SQUARE"))⟩) ∧
    (∀ n, Process (n + 3) "(SQUARE 5)" (Env.define (InitGlobalEnv : Table ℚ) "SQUARE"
        (.fn ["X"] (Expr.list [.sym "*", .sym "X", .sym "X"]) (some "SQUARE"))) =
      ⟨["25"], .ok (), Env.define InitGlobalEnv "SQUARE"
        (.fn ["X"] (Expr.list [.sym "*", .sym "X", .sym "X"]) (some "SQUARE"))⟩) := by
  refine ⟨fun ev => EvalList_define_form ev name params body env g,
    Evaluates.of_EvalList 0 (by simp) (EvalList_define_form _ name params body env g),
    ?_, fun ev args frames g1 hlen => ?_,
    fun args i p a hp ha hlast => find_bindParams_last params args [] i p a hp ha hlast,
    fun hname forms frames g1 vs g2 r hfn hargs hlen =>
      Evaluates_call_iff hname hfn hargs hlen r,
    fun n => ?_, fun n => ?_⟩
  · simp only [Env.lookup, Table.find_define, if_true]
  · simp only [Apply]
    rw [if_neg (not_not.mpr hlen)]
  · with_unfolding_all rfl
  · with_unfolding_all rfl

/-- C9, at a function `ID` of one parameter bound in the global frame: the form
`(ID 5)` has the value of the body `X` in the frame that binds `X` to 5. -/
theorem C9_witness :
    Evaluates (Expr.list [.sym "ID", .num (5 : ℚ)]) []
      (Env.define [] "ID" (.fn ["X"] (.sym "X") (some "ID")))
      (.ok (.num 5), Env.define [] "ID" (.fn ["X"] (.sym "X") (some "ID"))) :=
  ((C9_define_binds_function "ID" ["X"] (.sym "X" : Expr ℚ) [] []).2.2.2.2.2.1 (by decide)
    [.num 5] [] (Env.define [] "ID" (.fn ["X"] (.sym "X") (some "ID"))) [.num 5]
    (Env.define [] "ID" (.fn ["X"] (.sym "X") (some "ID"))) _ rfl
    ⟨.num 5, _, [], ⟨by simp, 1, rfl⟩, ⟨rfl, rfl⟩, rfl⟩ rfl).2
    ⟨by simp, 1, rfl⟩

/-- C9, the claim as written fails: with the parameter list `(X X)` the first
parameter is bound to the second argument, so `(H 1 2)` prints 2 for the body
`X`; and a function defined under the name `QUOTE` is not called by the form
`(QUOTE 1)`, which prints 1 where the body would give 5. -/
theorem C9_counterexample :
    Process 5 "(DEFINE H (X X) X)" (InitGlobalEnv : Table ℚ) =
      ⟨["()"], .ok (), Env.define InitGlobalEnv "H" (.fn ["X", "X"] (.sym "X") (some "H"))⟩ ∧
    Process 5 "(H 1 2)"
        (Env.define (InitGlobalEnv : Table ℚ) "H" (.fn ["X", "X"] (.sym "X") (some "H"))) =
      ⟨["2"], .ok (), Env.define InitGlobalEnv "H" (.fn ["X", "X"] (.sym "X") (some "H"))⟩ ∧
    Process 5 "(DEFINE QUOTE (X) 5)" (InitGlobalEnv : Table ℚ) =
      ⟨["()"], .ok (), Env.define InitGlobalEnv "QUOTE" (.fn ["X"] (.num 5) (some "QUOTE"))⟩ ∧
    Process 5 "(QUOTE 1)"
        (Env.define (InitGlobalEnv : Table ℚ) "QUOTE" (.fn ["X"] (.num 5) (some "QUOTE"))) =
      ⟨["1"], .ok (), Env.define InitGlobalEnv "QUOTE" (.fn ["X"] (.num 5) (some "QUOTE"))⟩ := by
  refine ⟨?_, ?_, ?_, ?_⟩ <;> with_unfolding_all rfl

/-- C1: `Apply` evaluates the body of a function in a new frame chained onto
the environment of the call site.  So after `(DEFINE F () X)` and
`(DEFINE G (X) (F))` in the initial global frame, where `X` has no global
binding, the form `(G v)` returns `v` for every literal `v` (a number, a
string, `()` or `T`), with every bound of at least 3 on the depth: the frame of
the call of `F` is chained onto the frame of the call of `G`, which binds `X`.
Called from the top level `F` finds no `X`.  `(G 10)` prints 10. -/
theorem C1_dynamic_scope (n : Nat) :
    (∀ (ev : Evaluator F) params body name args env g, args.length = params.length →
      Apply ev (.fn params body name) args env g =
        ev body (bindParams params args [] :: env) g) ∧
    Evaluate (n + 1) (defineForm "F" [] (.sym "X")) [] (InitGlobalEnv : Table F) =
      (.ok .nil, scopeF) ∧
    Evaluate (n + 1) (defineForm "G" ["X"] (Expr.list [.sym "F"])) [] (scopeF : Table F) =
      (.ok .nil, scopeG) ∧
    Env.lookup [] (scopeG : Table F) "X" = none ∧
    (∀ x : F, Evaluate (n + 3) (Expr.list [.sym "G", .num x]) [] scopeG =
      (.ok (.num x), scopeG)) ∧
    (∀ s : String, Evaluate (n + 3) (Expr.list [.sym "G", .str s]) [] (scopeG : Table F) =
      (.ok (.str s), scopeG)) ∧
    Evaluate (n + 3) (Expr.list [.sym "G", .nil]) [] (scopeG : Table F) =
      (.ok .nil, scopeG) ∧
    Evaluate (n + 3) (Expr.list [.sym "G", .tru]) [] (scopeG : Table F) =
      (.ok .tru, scopeG) ∧
    Evaluate (n + 2) (Expr.list [.sym "F"]) [] (scopeG : Table F) =
      (.error "Unbound variable: X", scopeG) ∧
    Process (n + 1) "(DEFINE F () X)" (InitGlobalEnv : Table ℚ) = ⟨["()"], .ok (), scopeF⟩ ∧
    Process (n + 1) "(DEFINE G (X) (F))" (scopeF : Table ℚ) = ⟨["()"], .ok (), scopeG⟩ ∧
    Process (n + 3) "(G 10)" (scopeG : Table ℚ) = ⟨["10"], .ok (), scopeG⟩ := by
  refine ⟨fun ev params body name args env g hlen => ?_, ?_⟩
  · simp only [Apply]
    rw [if_neg (not_not.mpr hlen)]
  refine ⟨?_, ?_, find_scopeG_X,
    fun x => Evaluate_G_literal n _ _ (fun _ _ => rfl) find_scopeG_G find_scopeG_F,
    fun s => Evaluate_G_literal n _ _ (fun _ _ => rfl) find_scopeG_G find_scopeG_F,
    Evaluate_G_literal n _ _ (fun _ _ => rfl) find_scopeG_G find_scopeG_F,
    Evaluate_G_literal n _ _ (fun _ _ => rfl) find_scopeG_G find_scopeG_F,
    Evaluate_F_top n _ find_scopeG_X find_scopeG_F, ?_, ?_, ?_⟩
  · rw [show defineForm "F" [] (Expr.sym "X") = Expr.list _ from rfl, Evaluate_succ_list]
    exact EvalList_define_form _ "F" [] (.sym "X") [] _
  · rw [show defineForm "G" ["X"] (Expr.list [Expr.sym "F"]) = Expr.list _ from rfl,
      Evaluate_succ_list]
    exact EvalList_define_form _ "G" ["X"] _ [] _
  · with_unfolding_all rfl
  · with_unfolding_all rfl
  · with_unfolding_all rfl

/-- C2, as amended: `Process` tokenizes and parses the whole input before it
evaluates anything.  When the input parses and the forms `f1 .. fk` evaluate
to values and the next form fails to evaluate, `Process` has printed the
renderings of `f1 .. fk` in order, raises that error, and the forms after the
failing one have no part in the result; the global frame is the one left at
the failure.  When the tokenizer or the parser fails on any part of the input,
`Process` raises that error with nothing printed and the global frame
untouched. -/
theorem C2_process_stops_at_first_error (fuel : Nat) (input : String) (g : Table F) :
    (∀ tokens pre f post vs g1 m g2, GenerateTokens input = .ok tokens →
      Parse tokens = .ok (pre ++ f :: post) → FormsRun fuel pre g vs g1 →
      Evaluate fuel f [] g1 = (.error m, g2) →
      Process fuel input g = ⟨vs.map Expr.ToString, .error m, g2⟩ ∧
      ∀ others, Process.loop fuel (pre ++ f :: others) g [] =
        ⟨vs.map Expr.ToString, .error m, g2⟩) ∧
    (∀ tokens m, GenerateTokens input = .ok tokens →
      (Parse tokens : Outcome (List (Expr F))) = .error m →
      Process fuel input g = ⟨[], .error m, g⟩) ∧
    (∀ m, GenerateTokens input = .error m → Process fuel input g = ⟨[], .error m, g⟩) ∧
    (∀ n, Process (n + 2) "1 (CAR 2) 3" (InitGlobalEnv : Table ℚ) =
      ⟨["1"], .error "Not a pair: 2", InitGlobalEnv⟩) := by
  refine ⟨fun tokens pre f post vs g1 m g2 htok hparse hpre hf => ⟨?_, ?_⟩,
    fun tokens m htok hparse => ?_, fun m htok => ?_, fun n => ?_⟩
  · simp only [Process, htok, hparse]
    exact Process_loop_stops hpre hf post
  · exact fun others => Process_loop_stops hpre hf others
  · simp only [Process, htok, hparse]
  · simp only [Process, htok]
  · with_unfolding_all rfl

/-- C2, at the input `1 (CAR 2) 3`: the first form prints 1, the second fails,
the third is not evaluated. -/
theorem C2_witness :
    Process 3 "1 (CAR 2) 3" (InitGlobalEnv : Table ℚ) =
      ⟨["1"], .error "Not a pair: 2", InitGlobalEnv⟩ :=
  ((C2_process_stops_at_first_error 3 "1 (CAR 2) 3" (InitGlobalEnv : Table ℚ)).1
    [⟨.Num, "1"⟩, ⟨.BeginParenthesis, "("⟩, ⟨.Symbol, "CAR"⟩, ⟨.Num, "2"⟩,
      ⟨.EndParenthesis, ")"⟩, ⟨.Num, "3"⟩]
    [.num 1] (Expr.list [.sym "CAR", .num 2]) [.num 3] [.num 1] InitGlobalEnv
    "Not a pair: 2" InitGlobalEnv (by with_unfolding_all rfl) (by with_unfolding_all rfl)
    ⟨.num 1, InitGlobalEnv, [], rfl, ⟨rfl, rfl⟩, rfl⟩ (by with_unfolding_all rfl)).1

/-- C2, the claim as written fails when a later form does not parse: in the
input `1 (` the first form parses (and alone prints 1), the second does not,
and `Process` raises the parse error without having printed anything. -/
theorem C2_counterexample :
    GenerateTokens "1 (" = .ok [⟨.Num, "1"⟩, ⟨.BeginParenthesis, "("⟩] ∧
    (ParseExpr 3 [⟨.Num, "1"⟩, ⟨.BeginParenthesis, "("⟩] : Outcome (Expr ℚ × List LispToken)) =
      .ok (.num 1, [⟨.BeginParenthesis, "("⟩]) ∧
    (ParseExpr 3 [⟨.BeginParenthesis, "("⟩] : Outcome (Expr ℚ × List LispToken)) =
      .error "Unexpected end of the input." ∧
    Process 3 "1" (InitGlobalEnv : Table ℚ) = ⟨["1"], .ok (), InitGlobalEnv⟩ ∧
    Process 3 "1 (" (InitGlobalEnv : Table ℚ) =
      ⟨[], .error "Unexpected end of the input.", InitGlobalEnv⟩ := by
  refine ⟨?_, ?_, ?_, ?_, ?_⟩ <;> with_unfolding_all rfl

/-- C4, the claim as written fails: the message of a type failure does not
name the primitive.  `(CAR ())` fails with `Not a pair: ()` and `(+ T)` with
`Not a number: T`; the first holds the text of the offending value but
neither `CAR` nor the printed name of the primitive, the second does not hold
`+`. -/
theorem C4_counterexample :
    PrimFun.call .PrimCar [(.nil : Expr ℚ)] = .error "Not a pair: ()" ∧
    containsText "Not a pair: ()" "()" = true ∧
    containsText "Not a pair: ()" "CAR" = false ∧
    containsText "Not a pair: ()" "<primitive:CAR>" = false ∧
    PrimFun.call .PrimPlus [(.tru : Expr ℚ)] = .error "Not a number: T" ∧
    containsText "Not a number: T" "+" = false ∧
    Process 3 "(CAR ())" (InitGlobalEnv : Table ℚ) =
      ⟨[], .error "Not a pair: ()", InitGlobalEnv⟩ ∧
    Process 3 "(+ T)" (InitGlobalEnv : Table ℚ) =
      ⟨[], .error "Not a number: T", InitGlobalEnv⟩ := by
  refine ⟨?_, ?_, ?_, ?_, ?_, ?_, ?_, ?_⟩ <;> with_unfolding_all rfl

/-- C11: `(EVAL x)` evaluates `x` and then evaluates the resulting expression
in the same environment, from the global frame the first evaluation has left.
So `(EVAL (QUOTE E))` has exactly the results of `E` in every environment: the
same value or the same error, and the same global frame afterwards; with a
bound on the depth it takes one level more than `E`. -/
theorem C11_eval_undoes_quote (E : Expr F) (env : List (Table F)) (g : Table F) :
    (∀ (ev : Evaluator F) x, EvalList ev (Expr.list [.sym "EVAL", x]) env g =
      Result.bind (ev x env g) fun e g1 => ev e env g1) ∧
    (∀ n, Evaluate (n + 2) (Expr.list [.sym "EVAL", Expr.list [.sym "QUOTE", E]]) env g =
      Evaluate (n + 1) E env g) ∧
    (∀ r, Evaluates (Expr.list [.sym "EVAL", Expr.list [.sym "QUOTE", E]]) env g r ↔
      Evaluates E env g r) ∧
    (∀ n, Process (n + 4) "(EVAL (QUOTE (+ 1 2)))" (InitGlobalEnv : Table ℚ) =
      Process (n + 3) "(+ 1 2)" InitGlobalEnv) ∧
    (∀ n, Process (n + 4) "(EVAL (QUOTE (+ 1 2)))" (InitGlobalEnv : Table ℚ) =
      ⟨["3"], .ok (), InitGlobalEnv⟩) ∧
    (∀ n, Process (n + 3) "(EVAL (QUOTE NOBODY))" (InitGlobalEnv : Table ℚ) =
      ⟨[], .error "Unbound variable: NOBODY", InitGlobalEnv⟩) ∧
    (∀ n, Process (n + 5) "(EVAL (QUOTE (SET X 7)))" (InitGlobalEnv : Table ℚ) =
      ⟨["7"], .ok (), Env.define InitGlobalEnv "X" (.num 7)⟩) := by
  refine ⟨fun ev x => EvalList_eval_form ev x env g, fun n => Evaluate_eval_quote n E env g,
    fun r => Evaluates_eval_quote_iff E env g r, fun n => ?_, fun n => ?_, fun n => ?_,
    fun n => ?_⟩ <;> with_unfolding_all rfl

/-- C11, at `(EVAL (QUOTE T))`: its value is `T`, the value of `T`. -/
theorem C11_witness :
    Evaluates (Expr.list [.sym "EVAL", Expr.list [.sym "QUOTE", (.tru : Expr ℚ)]]) [] []
      (.ok .tru, []) :=
  ((C11_eval_undoes_quote (.tru : Expr ℚ) [] []).2.2.1 _).2 ⟨by simp, 1, rfl⟩

/-- C12: a well-formed `(APPLY f l)` evaluates `f`, then `l`, and applies the
value of `f` to the elements of the value of `l` in order, in the current
environment, as `Apply` does with argument values: they are not evaluated
again.  When the value of `l` is a chain of pairs that does not end in Nil, or
no pair and not Nil, the form fails with `Not a pair: ` and the text of the
value at the end of the chain.  `(APPLY + (QUOTE (1 2 3)))` prints 6. -/
theorem C12_apply_form (f l : Expr F) (env : List (Table F)) (g : Table F) :
    (∀ ev : Evaluator F, EvalList ev (Expr.list [.sym "APPLY", f, l]) env g =
      Result.bind (ev f env g) fun fn g1 =>
        Result.bind (ev l env g1) fun lv g2 =>
          Result.bind (Result.lift (listArgs lv) g2) fun args g3 =>
            Apply ev fn args env g3) ∧
    (∀ fv g1 vs g2 r, Evaluates f env g (.ok fv, g1) →
      Evaluates l env g1 (.ok (Expr.list vs), g2) →
      (Evaluates (Expr.list [.sym "APPLY", f, l]) env g r ↔ Applies fv vs env g2 r)) ∧
    (∀ fv g1 es z g2, Evaluates f env g (.ok fv, g1) →
      Evaluates l env g1 (.ok (Expr.chain es z), g2) → z.Type ≠ .Pair → z.Type ≠ .Nil →
      Evaluates (Expr.list [.sym "APPLY", f, l]) env g
        (.error ("Not a pair: " ++ z.ToString), g2)) ∧
    (∀ lv : Expr F, (∃ vs, lv = Expr.list vs) ∨
      ∃ es z, z.Type ≠ .Pair ∧ z.Type ≠ .Nil ∧ lv = Expr.chain es z) ∧
    (∀ n, Process (n + 3) "(APPLY + (QUOTE (1 2 3)))" (InitGlobalEnv : Table ℚ) =
      ⟨["6"], .ok (), InitGlobalEnv⟩) ∧
    (∀ n, Process (n + 3) "(APPLY CONS (QUOTE (A B)))" (InitGlobalEnv : Table ℚ) =
      ⟨["(A . B)"], .ok (), InitGlobalEnv⟩) ∧
    (∀ n, Process (n + 3) "(APPLY + ())" (InitGlobalEnv : Table ℚ) =
      ⟨["0"], .ok (), InitGlobalEnv⟩) ∧
    (∀ n, Process (n + 3) "(APPLY + (CONS 1 2))" (InitGlobalEnv : Table ℚ) =
      ⟨[], .error "Not a pair: 2", InitGlobalEnv⟩) ∧
    (∀ n, Process (n + 3) "(APPLY + 5)" (InitGlobalEnv : Table ℚ) =
      ⟨[], .error "Not a pair: 5", InitGlobalEnv⟩) := by
  refine ⟨fun ev => EvalList_apply_form ev f l env g,
    fun fv g1 vs g2 r hf hl => Evaluates_apply_form_iff hf hl r,
    fun fv g1 es z g2 hf hl h1 h2 => Evaluates_apply_form_improper hf hl h1 h2,
    Expr.list_or_chain, fun n => ?_, fun n => ?_, fun n => ?_, fun n => ?_, fun n => ?_⟩ <;>
    with_unfolding_all rfl

/-- C12, at `(APPLY CONS (QUOTE (1 2)))`: the value is the pair `(1 . 2)`. -/
theorem C12_witness :
    Evaluates (Expr.list [.sym "APPLY", .sym "CONS",
        Expr.list [.sym "QUOTE", Expr.list [.num (1 : ℚ), .num 2]]]) []
      [("CONS", .prim .PrimCons "<primitive:CONS>")]
      (.ok (.pair (.num 1) (.num 2)), [("CONS", .prim .PrimCons "<primitive:CONS>")]) :=
  ((C12_apply_form (.sym "CONS") (Expr.list [.sym "QUOTE", Expr.list [.num (1 : ℚ), .num 2]])
      [] [("CONS", .prim .PrimCons "<primitive:CONS>")]).2.1
    (.prim .PrimCons "<primitive:CONS>") _ [.num 1, .num 2] _ _ ⟨by simp, 1, rfl⟩
    ⟨by simp, 2, rfl⟩).2 ⟨by simp, 0, rfl⟩

/-- C17: on numbers `+` returns the left fold of the addition over the
arguments from 0, the sum, and 0 for no argument; `*` the left fold of the
multiplication from 1, the product, and 1 for no argument; `-` the negation
of a single argument and for more arguments the left fold
`((a1 - a2) - ...) - an`; `-` without an argument fails.  `(+ 1 2 3)` prints
6, `(- 5)` prints -5 and `(- 10 3 2)` prints 5. -/
theorem C17_additive_multiplicative_folds (a b : F) (xs : List F) :
    PrimPlus (xs.map .num) = .ok (.num (xs.foldl Runtime.add Runtime.zero)) ∧
    PrimPlus ([] : List (Expr F)) = .ok (.num Runtime.zero) ∧
    PrimMul (xs.map .num) = .ok (.num (xs.foldl Runtime.mul Runtime.one)) ∧
    PrimMul ([] : List (Expr F)) = .ok (.num Runtime.one) ∧
    PrimMinus [.num a] = .ok (.num (Runtime.neg a)) ∧
    PrimMinus (.num a :: .num b :: xs.map .num) =
      .ok (.num ((b :: xs).foldl Runtime.sub a)) ∧
    PrimMinus ([] : List (Expr F)) = .error "-: Expects at least one argument." ∧
    (∀ qs : List ℚ, PrimPlus (qs.map .num) = .ok (.num qs.sum)) ∧
    (∀ qs : List ℚ, PrimMul (qs.map .num) = .ok (.num qs.prod)) ∧
    (∀ p q r : ℚ, PrimMinus [.num p, .num q, .num r] = .ok (.num (p - q - r))) ∧
    (∀ n, Process (n + 2) "(+ 1 2 3)" (InitGlobalEnv : Table ℚ) =
      ⟨["6"], .ok (), InitGlobalEnv⟩) ∧
    (∀ n, Process (n + 2) "(- 5)" (InitGlobalEnv : Table ℚ) =
      ⟨["-5"], .ok (), InitGlobalEnv⟩) ∧
    (∀ n, Process (n + 2) "(- 10 3 2)" (InitGlobalEnv : Table ℚ) =
      ⟨["5"], .ok (), InitGlobalEnv⟩) ∧
    (∀ n, Process (n + 2) "(+) (*) (* 2 3 4)" (InitGlobalEnv : Table ℚ) =
      ⟨["0", "1", "24"], .ok (), InitGlobalEnv⟩) ∧
    (∀ n, Process (n + 2) "(-)" (InitGlobalEnv : Table ℚ) =
      ⟨[], .error "-: Expects at least one argument.", InitGlobalEnv⟩) := by
  refine ⟨?_, rfl, ?_, rfl, rfl, ?_, rfl, fun qs => ?_, fun qs => ?_, fun p q r => rfl,
    fun n => ?_, fun n => ?_, fun n => ?_, fun n => ?_, fun n => ?_⟩
  · simp only [PrimPlus, PrimPlus_loop_nums]
  · simp only [PrimMul, PrimMul_loop_nums]
  · have h := PrimMinus_loop_nums a (b :: xs)
    simp only [List.map_cons] at h
    simp only [PrimMinus, NumCast, h]
  · simp only [PrimPlus, PrimPlus_loop_nums]
    congr 2
    exact (List.sum_eq_foldl).symm
  · simp only [PrimMul, PrimMul_loop_nums]
    congr 2
    exact (List.prod_eq_foldl).symm
  all_goals with_unfolding_all rfl

/-- C18: on numbers `/` with one argument returns the reciprocal, and fails
with the division-by-zero error exactly when the argument compares equal to
0; with more arguments the divisors are the arguments after the first: it
fails with that error exactly when one of them compares equal to 0, whatever
the first argument is, and otherwise returns the left fold
`((a1 / a2) / ...) / an`; `/` without an argument fails.  `(/ 1 0)` fails
with division by zero and `(/ 2)` prints 0.5. -/
theorem C18_division (a b : F) (xs : List F) :
    PrimDiv [.num a] =
      (if Runtime.eq a Runtime.zero = true then .error "/: Division by zero."
      else .ok (.num (Runtime.div Runtime.one a))) ∧
    (PrimDiv [.num a] = .error "/: Division by zero." ↔ Runtime.eq a Runtime.zero = true) ∧
    PrimDiv (.num a :: .num b :: xs.map .num) =
      (if (b :: xs).any (fun d => Runtime.eq d Runtime.zero) = true then
        .error "/: Division by zero."
      else .ok (.num ((b :: xs).foldl Runtime.div a))) ∧
    (PrimDiv (.num a :: .num b :: xs.map .num) = .error "/: Division by zero." ↔
      ∃ d ∈ b :: xs, Runtime.eq d Runtime.zero = true) ∧
    ((∀ d ∈ b :: xs, Runtime.eq d Runtime.zero = false) →
      PrimDiv (.num a :: .num b :: xs.map .num) =
        .ok (.num ((b :: xs).foldl Runtime.div a))) ∧
    PrimDiv ([] : List (Expr F)) = .error "/: Expects at least one argument." ∧
    (∀ n, Process (n + 2) "(/ 1 0)" (InitGlobalEnv : Table ℚ) =
      ⟨[], .error "/: Division by zero.", InitGlobalEnv⟩) ∧
    (∀ n, Process (n + 2) "(/ 2)" (InitGlobalEnv : Table ℚ) =
      ⟨["0.5"], .ok (), InitGlobalEnv⟩) ∧
    (∀ n, Process (n + 2) "(/ 0 4) (/ 12 3 2)" (InitGlobalEnv : Table ℚ) =
      ⟨["0", "2"], .ok (), InitGlobalEnv⟩) ∧
    (∀ n, Process (n + 2) "(/ 0)" (InitGlobalEnv : Table ℚ) =
      ⟨[], .error "/: Division by zero.", InitGlobalEnv⟩) ∧
    (∀ n, Process (n + 2) "(/)" (InitGlobalEnv : Table ℚ) =
      ⟨[], .error "/: Expects at least one argument.", InitGlobalEnv⟩) := by
  have h1 : PrimDiv [.num a] =
      (if Runtime.eq a Runtime.zero = true then .error "/: Division by zero."
      else .ok (.num (Runtime.div Runtime.one a))) := by
    simp only [PrimDiv, NumCast, Div]
    split_ifs <;> rfl
  have h2 := PrimDiv_nums a b xs
  refine ⟨h1, ?_, h2, ?_, fun h => ?_, rfl, fun n => ?_, fun n => ?_, fun n => ?_,
    fun n => ?_, fun n => ?_⟩
  · rw [h1]
    split_ifs with h <;> simp [h]
  · rw [h2]
    split_ifs with h
    · simp only [true_iff]
      obtain ⟨d, hd, hz⟩ := List.any_eq_true.mp h
      exact ⟨d, hd, hz⟩
    · simp only [false_iff, reduceCtorEq]
      rintro ⟨d, hd, hz⟩
      exact h (List.any_eq_true.mpr ⟨d, hd, hz⟩)
  · rw [h2, if_neg]
    intro hany
    obtain ⟨d, hd, hz⟩ := List.any_eq_true.mp hany
    rw [h d hd] at hz
    exact Bool.false_ne_true hz
  all_goals with_unfolding_all rfl

/-- C18, at `(/ 6 3)` with exact arithmetic: no divisor is 0 and the value is
the quotient. -/
theorem C18_witness :
    PrimDiv [.num (6 : ℚ), .num 3] = .ok (.num ([(3 : ℚ)].foldl Runtime.div 6)) :=
  (C18_division (6 : ℚ) 3 []).2.2.2.2.1 (by
    intro d hd
    simp only [List.mem_singleton] at hd
    subst hd
    with_unfolding_all rfl)

/-- C19: `CONS` of two values is the pair of them, and `CAR` and `CDR` of that
pair give the two values back; `CONS` fails exactly when it is not given two
arguments; `CAR` and `CDR` of one argument fail exactly when the argument is
not a pair, as on Nil. -/
theorem C19_car_cdr_invert_cons (a b x : Expr F) (args : List (Expr F)) :
    PrimCons [a, b] = .ok (.pair a b) ∧
    PrimCar [.pair a b] = .ok a ∧
    PrimCdr [.pair a b] = .ok b ∧
    ((PrimCons [a, b]).bind fun p => PrimCar [p]) = .ok a ∧
    ((PrimCons [a, b]).bind fun p => PrimCdr [p]) = .ok b ∧
    ((∃ m, PrimCons args = .error m) ↔ args.length ≠ 2) ∧
    (args.length ≠ 2 → PrimCons args = .error "CONS: Wrong number of arguments.") ∧
    ((∃ m, PrimCar [x] = .error m) ↔ x.Type ≠ .Pair) ∧
    ((∃ m, PrimCdr [x] = .error m) ↔ x.Type ≠ .Pair) ∧
    (x.Type ≠ .Pair → PrimCar [x] = .error ("Not a pair: " ++ x.ToString) ∧
      PrimCdr [x] = .error ("Not a pair: " ++ x.ToString)) ∧
    PrimCar [(.nil : Expr F)] = .error "Not a pair: ()" ∧
    PrimCdr [(.nil : Expr F)] = .error "Not a pair: ()" ∧
    (∀ n, Process (n + 3) "(CAR (CONS 1 2)) (CDR (CONS 1 2))" (InitGlobalEnv : Table ℚ) =
      ⟨["1", "2"], .ok (), InitGlobalEnv⟩) ∧
    (∀ n, Process (n + 2) "(CAR ())" (InitGlobalEnv : Table ℚ) =
      ⟨[], .error "Not a pair: ()", InitGlobalEnv⟩) ∧
    (∀ n, Process (n + 2) "(CONS 1)" (InitGlobalEnv : Table ℚ) =
      ⟨[], .error "CONS: Wrong number of arguments.", InitGlobalEnv⟩) := by
  have hcons : args.length ≠ 2 → PrimCons args = .error "CONS: Wrong number of arguments." := by
    intro h
    simp only [PrimCons, AssertArgsNum, if_neg h]
    rfl
  have hcar : x.Type ≠ .Pair → PrimCar [x] = .error ("Not a pair: " ++ x.ToString) ∧
      PrimCdr [x] = .error ("Not a pair: " ++ x.ToString) := by
    intro h
    cases x <;> first | exact absurd rfl h | exact ⟨rfl, rfl⟩
  refine ⟨rfl, rfl, rfl, rfl, rfl, ⟨fun ⟨m, hm⟩ hlen => ?_, fun h => ⟨_, hcons h⟩⟩, hcons,
    ⟨fun ⟨m, hm⟩ hp => ?_, fun h => ⟨_, (hcar h).1⟩⟩,
    ⟨fun ⟨m, hm⟩ hp => ?_, fun h => ⟨_, (hcar h).2⟩⟩, hcar, rfl, rfl,
    fun n => ?_, fun n => ?_, fun n => ?_⟩
  · simp [PrimCons, AssertArgsNum, hlen] at hm
  · cases x <;> simp [Expr.Type] at hp
    simp [PrimCar, AssertArgsNum, PairCast] at hm
  · cases x <;> simp [Expr.Type] at hp
    simp [PrimCdr, AssertArgsNum, PairCast] at hm
  all_goals with_unfolding_all rfl

/-- C19, at the value `T`, which is not a pair: `CAR` and `CDR` of it fail. -/
theorem C19_witness :
    PrimCar [(.tru : Expr ℚ)] = .error ("Not a pair: " ++ (.tru : Expr ℚ).ToString) ∧
      PrimCdr [(.tru : Expr ℚ)] = .error ("Not a pair: " ++ (.tru : Expr ℚ).ToString) :=
  (C19_car_cdr_invert_cons (.nil : Expr ℚ) .nil .tru []).2.2.2.2.2.2.2.2.2.1 (by decide)

/-- C20: every pair is a chain of pairs with elements `e1 .. en`, `n ≥ 1`, that
ends in a value `z` which is no pair, and it prints as `(`, the texts of the
elements with one space between them, then ` . ` and the text of `z` when `z`
is not Nil, and `)`.  Nil prints as `()` and True as `T`.  The value of
`(CONS 1 2)` prints as `(1 . 2)` and that of `(CONS 1 (CONS 2 ()))` as
`(1 2)`. -/
theorem C20_pair_rendering (e : Expr F) (es : List (Expr F)) (z : Expr F)
    (hz : z.Type ≠ .Pair) :
    (Expr.chain (e :: es) z).ToString =
      "(" ++ " ".intercalate ((e :: es).map Expr.ToString) ++
        (if z.Type = .Nil then "" else " . " ++ z.ToString) ++ ")" ∧
    (∀ a b : Expr F, ∃ es2 z2, z2.Type ≠ .Pair ∧ Expr.pair a b = Expr.chain (a :: es2) z2) ∧
    (Expr.nil : Expr F).ToString = "()" ∧
    (Expr.tru : Expr F).ToString = "T" ∧
    (∀ n, Process (n + 2) "(CONS 1 2)" (InitGlobalEnv : Table ℚ) =
      ⟨["(1 . 2)"], .ok (), InitGlobalEnv⟩) ∧
    (∀ n, Process (n + 3) "(CONS 1 (CONS 2 ()))" (InitGlobalEnv : Table ℚ) =
      ⟨["(1 2)"], .ok (), InitGlobalEnv⟩) ∧
    (∀ n, Process (n + 3) "(QUOTE ((A B) () T (C)))" (InitGlobalEnv : Table ℚ) =
      ⟨["((A B) () T (C))"], .ok (), InitGlobalEnv⟩) := by
  refine ⟨ToString_chain e es z hz, Expr.pair_eq_chain, rfl, rfl, fun n => ?_, fun n => ?_,
    fun n => ?_⟩ <;> with_unfolding_all rfl

/-- C20, at the chain with the elements 1 and 2 that ends in 3: it prints as
`(1 2 . 3)`. -/
theorem C20_witness :
    (Expr.chain [(.num 1 : Expr ℚ), .num 2] (.num 3)).ToString =
        "(" ++ " ".intercalate ([(.num 1 : Expr ℚ), .num 2].map Expr.ToString) ++
          (if (.num 3 : Expr ℚ).Type = .Nil then "" else " . " ++ (.num 3 : Expr ℚ).ToString)
          ++ ")" ∧
      (Expr.chain [(.num 1 : Expr ℚ), .num 2] (.num 3)).ToString = "(1 2 . 3)" :=
  ⟨(C20_pair_rendering (.num 1 : Expr ℚ) [.num 2] (.num 3) (by decide)).1,
    by with_unfolding_all rfl⟩

/-- C14: a maximal run of characters that are no separators becomes one token;
it is a number token exactly when the run has the shape of a number (an
optional leading `-`, one or more digits, optionally one `.` followed by zero
or more digits), otherwise a true-literal exactly when the run is `t` or `T`,
and otherwise a symbol token; every token carries the run as its text.  So
`3`, `-3`, `1.5` and `1.` are numbers, and `-`, `.5`, `-.5`, `1.2.3`, `1e5` and
`5-` are symbols. -/
theorem C14_number_classification (run : List Char) :
    (IsNumber run = true ↔ NumberShape run) ∧
    (NumberShape run → classify run = ⟨.Num, String.mk run⟩) ∧
    (¬ NumberShape run → (run = ['t'] ∨ run = ['T']) →
      classify run = ⟨.True, String.mk run⟩) ∧
    (¬ NumberShape run → run ≠ ['t'] → run ≠ ['T'] →
      classify run = ⟨.Symbol, String.mk run⟩) ∧
    (∀ rest : List Char, run ≠ [] → (∀ c ∈ run, IsSeparator c = false) →
      (rest = [] ∨ ∃ c rest2, rest = c :: rest2 ∧ IsSeparator c = true) →
      GenerateTokens (String.mk (run ++ rest)) =
        match GenerateTokens (String.mk rest) with
        | .ok ts => .ok (classify run :: ts)
        | .error m => .error m) ∧
    GenerateTokens "3 -3 1.5 1. t T" =
      .ok [⟨.Num, "3"⟩, ⟨.Num, "-3"⟩, ⟨.Num, "1.5"⟩, ⟨.Num, "1."⟩, ⟨.True, "t"⟩,
        ⟨.True, "T"⟩] ∧
    GenerateTokens "- .5 -.5 1.2.3 1e5 5- tt" =
      .ok [⟨.Symbol, "-"⟩, ⟨.Symbol, ".5"⟩, ⟨.Symbol, "-.5"⟩, ⟨.Symbol, "1.2.3"⟩,
        ⟨.Symbol, "1e5"⟩, ⟨.Symbol, "5-"⟩, ⟨.Symbol, "tt"⟩] := by
  have hiff := IsNumber_iff_NumberShape run
  refine ⟨hiff, fun h => ?_, fun h ht => ?_, fun h h1 h2 => ?_,
    fun rest hne hrun hrest => GenerateTokens_run run rest hne hrun hrest, by decide,
    by decide⟩
  · simp only [classify, hiff.mpr h, if_true]
  · have hn : ¬ IsNumber run = true := fun hn => h (hiff.mp hn)
    rcases ht with rfl | rfl <;> simp [classify, hn]
  · have hn : ¬ IsNumber run = true := fun hn => h (hiff.mp hn)
    have e1 : ¬ String.mk run = "t" := fun e => h1 (congrArg String.data e)
    have e2 : ¬ String.mk run = "T" := fun e => h2 (congrArg String.data e)
    simp [classify, hn, e1, e2]

/-- C14, at the run `-12.5`, which has the shape of a number. -/
theorem C14_witness : classify ['-', '1', '2', '.', '5'] = ⟨.Num, "-12.5"⟩ :=
  (C14_number_classification ['-', '1', '2', '.', '5']).2.1
    ⟨['-'], ['1', '2'], ['.', '5'], Or.inr rfl, by simp, by decide,
      Or.inr ⟨['5'], by decide, rfl⟩, rfl⟩

/-- C13: interning a symbol does not look at the case of its letters, and its
result is stable.  With the table of `GetInstance` made explicit: after any
calls, the pointers `ra.1` and `rb.1` returned for the texts `a` and `b`, with
any calls in between, are the same exactly when `a` and `b` are equal after every character
is put in upper case, and the objects at them hold those texts in upper case,
which is what a symbol prints as.  The embedding names a symbol by that text.
So `(SET a e)` binds what evaluating `b` reads whenever `a` and `b` differ in
case only: after `(SET x 1)`, `X` has the value 1. -/
theorem C13_symbol_interning (calls between : List String) (a b : String)
    (ra rb : Nat × SymbolTable)
    (hra : ra = SymbolExpr.GetInstance.withTable (SymbolTable.empty.internAll calls) a)
    (hrb : rb = SymbolExpr.GetInstance.withTable (ra.2.internAll between) b) :
    (ra.1 = rb.1 ↔ a.data.map Char.toUpper = b.data.map Char.toUpper) ∧
    ra.2.objects[ra.1]? = some (String.mk (a.data.map Char.toUpper)) ∧
    rb.2.objects[ra.1]? = some (String.mk (a.data.map Char.toUpper)) ∧
    rb.2.objects[rb.1]? = some (String.mk (b.data.map Char.toUpper)) ∧
    ((SymbolExpr.GetInstance a = SymbolExpr.GetInstance b) ↔
      a.data.map Char.toUpper = b.data.map Char.toUpper) ∧
    (Expr.sym (SymbolExpr.GetInstance a) : Expr F).ToString =
      String.mk (a.data.map Char.toUpper) ∧
    (a.data.map Char.toUpper = b.data.map Char.toUpper →
      (Parse [⟨.Symbol, a⟩] : Outcome (List (Expr F))) = .ok [.sym (SymbolExpr.GetInstance a)] ∧
      (Parse [⟨.Symbol, b⟩] : Outcome (List (Expr F))) = .ok [.sym (SymbolExpr.GetInstance a)] ∧
      ∀ (e v : Expr F) (env : List (Table F)) (g g1 : Table F),
        Evaluates e env g (.ok v, g1) →
        Evaluates (Expr.list [.sym "SET", .sym (SymbolExpr.GetInstance a), e]) env g
          (.ok v, Env.define g1 (SymbolExpr.GetInstance a) v) ∧
        Evaluates (.sym (SymbolExpr.GetInstance b)) []
          (Env.define g1 (SymbolExpr.GetInstance a) v)
          (.ok v, Env.define g1 (SymbolExpr.GetInstance a) v)) ∧
    (∀ n, Process (n + 3) "(SET x 1) X" (InitGlobalEnv : Table ℚ) =
      ⟨["1", "1"], .ok (), Env.define InitGlobalEnv "X" (.num 1)⟩) := by
  have h0 := (internAll_spec calls SymbolTable.empty SymbolTable.Registered.empty).1
  obtain ⟨a1, a2, _⟩ := GetInstance_withTable_spec _ h0 a
  rw [← hra] at a1 a2
  obtain ⟨m1, m2⟩ := internAll_spec between _ a1
  obtain ⟨b1, b2, b3⟩ := GetInstance_withTable_spec _ m1 b
  rw [← hrb] at b1 b2 b3
  have ha : rb.2.objects[ra.1]? = some (SymbolExpr.GetInstance a) := b3 _ _ (m2 _ _ a2)
  have hinj : SymbolExpr.GetInstance a = SymbolExpr.GetInstance b ↔
      a.data.map Char.toUpper = b.data.map Char.toUpper := by
    simp only [SymbolExpr.GetInstance]
    exact ⟨fun h => congrArg String.data h, fun h => congrArg String.mk h⟩
  refine ⟨?_, a2, ha, b2, hinj, ?_, fun hab => ⟨?_, ?_, ?_⟩, fun n => ?_⟩
  · rw [← hinj]
    constructor
    · intro h
      have h2 : rb.2.objects[ra.1]? = some (SymbolExpr.GetInstance b) := by
        rw [h]
        exact b2
      rw [ha] at h2
      exact Option.some.inj h2
    · intro h
      have h1 := (b1 _ _).mpr ha
      have h2 := (b1 _ _).mpr b2
      rw [← h, h1] at h2
      exact Option.some.inj h2
  · simp [Expr.ToString, Expr.atomToString, SymbolExpr.GetInstance]
  · rfl
  · rw [hinj.mpr hab]
    rfl
  · intro e v env g g1 he
    refine ⟨?_, ?_⟩
    · obtain ⟨N, hN⟩ := he.eventually
      refine Evaluates.of_EvalList N (by simp) ?_
      rw [EvalList_set_form, hN N le_rfl]
      rfl
    · rw [← hinj.mpr hab]
      refine ⟨by simp, 1, ?_⟩
      simp only [Evaluate, Evaluate.body, EvalVar, Env.lookup, Table.find_define, if_true]
  · with_unfolding_all rfl

/-- C13, at the texts `x` and `X`, interned one after the other from the empty
table: the pointers are the same. -/
theorem C13_witness :
    (SymbolExpr.GetInstance.withTable SymbolTable.empty "x").1 =
      (SymbolExpr.GetInstance.withTable
        (SymbolExpr.GetInstance.withTable SymbolTable.empty "x").2 "X").1 :=
  (C13_symbol_interning (F := ℚ) [] [] "x" "X" _ _ rfl rfl).1.mpr (by decide)

/-- C15: the parser makes proper lists only.  When `Parse` succeeds, the
second member of every pair inside every expression returned is a pair or nil,
so every pair inside is a chain of pairs that ends in nil; and a begin-paren,
then one or more complete expressions, then an end-paren are read as the chain
of exactly those expressions, in their order, by `Parse` when they are the
whole input and by `ParseExpr` whatever follows them. -/
theorem C15_parser_proper_lists (tokens : List LispToken) :
    (∀ es : List (Expr F), Parse tokens = .ok es → ∀ e ∈ es,
      e.proper = true ∧
      ∀ p, Expr.Inside p e → p.Type = .Pair →
        p.proper = true ∧ ∃ (a : Expr F) (xs : List (Expr F)), p = Expr.list (a :: xs)) ∧
    (∀ (tb te : LispToken) (segs : List (List LispToken)) (es : List (Expr F)),
      tb.kind = .BeginParenthesis → te.kind = .EndParenthesis → es ≠ [] →
      List.Forall₂ CompleteExpr segs es →
      (tokens = tb :: (segs.flatten ++ [te]) → Parse tokens = .ok [Expr.list es]) ∧
      (∀ (rest : List LispToken) (fuel : Nat),
        2 * (tb :: (segs.flatten ++ te :: rest)).length + 1 ≤ fuel →
        ParseExpr fuel (tb :: (segs.flatten ++ te :: rest)) = .ok (Expr.list es, rest))) ∧
    (match GenerateTokens "(a (b c) 1)" with
      | .ok ts => (Parse ts : Outcome (List (Expr ℚ)))
      | .error m => .error m) =
      .ok [Expr.list [.sym "A", Expr.list [.sym "B", .sym "C"], .num 1]] := by
  refine ⟨fun es h e he => ?_, fun tb te segs es htb hte hne hsegs => ⟨fun htok => ?_,
    fun rest fuel hfuel => ParseExpr_list hsegs hne tb te htb hte rest fuel hfuel⟩, ?_⟩
  · have hp := Parse_loop_proper _ _ tokens es h e he
    refine ⟨hp, fun p hin hty => ?_⟩
    have hpp := Expr.proper_of_inside hin hp
    refine ⟨hpp, ?_⟩
    cases p with
    | pair a b => exact ⟨a, Expr.proper_pair_list b a hpp⟩
    | _ => simp [Expr.Type] at hty
  · subst htok
    have hE := ParseExpr_list hsegs hne tb te htb hte []
      (2 * (tb :: (segs.flatten ++ [te])).length + 2) (by omega)
    simp only [Parse, List.length_cons, Parse.loop]
    simp only [List.length_cons] at hE
    rw [hE]
    rfl
  · with_unfolding_all rfl

/-- C15, at the tokens of `(a)`: the list of the one element `A`. -/
theorem C15_witness :
    (Parse [⟨.BeginParenthesis, "("⟩, ⟨.Symbol, "a"⟩, ⟨.EndParenthesis, ")"⟩] :
      Outcome (List (Expr ℚ))) = .ok [Expr.list [.sym "A"]] :=
  ((C15_parser_proper_lists (F := ℚ)
      [⟨.BeginParenthesis, "("⟩, ⟨.Symbol, "a"⟩, ⟨.EndParenthesis, ")"⟩]).2.1
    ⟨.BeginParenthesis, "("⟩ ⟨.EndParenthesis, ")"⟩ [[⟨.Symbol, "a"⟩]] [.sym "A"] rfl rfl
    (by simp) (List.Forall₂.cons ⟨1, rfl⟩ List.Forall₂.nil)).1 rfl

/-- C21: evaluating a symbol returns what the first frame that binds it holds
for it, on the chain from the current frame to the global frame, and leaves
the global frame as it is; it fails exactly when no frame of the chain binds
the symbol, and then the message is `Unbound variable: ` followed by the text
of the symbol, which is the text in upper case of what was read.  Evaluating
`(UNDEFINED-THING)` in the initial environment fails with
`Unbound variable: UNDEFINED-THING`. -/
theorem C21_symbol_lookup (s : String) (env : List (Table F)) (g : Table F) :
    Env.lookup env g s = (env ++ [g]).findSome? (fun t => Table.find t s) ∧
    (∀ (pre : List (Table F)) (frame : Table F) (post : List (Table F)) (v : Expr F),
      env ++ [g] = pre ++ frame :: post → (∀ t ∈ pre, Table.find t s = none) →
      Table.find frame s = some v →
      Evaluates (.sym s) env g (.ok v, g) ∧ ∀ n, Evaluate (n + 1) (.sym s) env g = (.ok v, g)) ∧
    ((∃ m g1, Evaluates (.sym s) env g (.error m, g1)) ↔
      ∀ t ∈ env ++ [g], Table.find t s = none) ∧
    (∀ m g1, Evaluates (.sym s) env g (.error m, g1) →
      m = "Unbound variable: " ++ s ∧ g1 = g ∧ containsText m s = true) ∧
    (∀ raw : String, s = SymbolExpr.GetInstance raw →
      (∀ t ∈ env ++ [g], Table.find t s = none) →
      Evaluates (.sym s) env g
        (.error ("Unbound variable: " ++ String.mk (raw.data.map Char.toUpper)), g)) ∧
    (∀ n, Process (n + 2) "(UNDEFINED-THING)" (InitGlobalEnv : Table ℚ) =
      ⟨[], .error "Unbound variable: UNDEFINED-THING", InitGlobalEnv⟩) ∧
    (∀ n, Process (n + 2) "(undefined-thing)" (InitGlobalEnv : Table ℚ) =
      ⟨[], .error "Unbound variable: UNDEFINED-THING", InitGlobalEnv⟩) := by
  refine ⟨Env.lookup_eq_findSome env g s, fun pre frame post v henv hpre hframe => ?_,
    ⟨?_, fun hnone => ?_⟩, fun m g1 h => ?_, fun raw hraw hnone => ?_, fun n => ?_, fun n => ?_⟩
  · have hl : Env.lookup env g s = some v := by
      rw [Env.lookup_eq_findSome, henv]
      exact Env.lookup_first pre frame post s v hpre hframe
    have he : EvalVar s env g = (.ok v, g) := by simp only [EvalVar, hl]
    exact ⟨(Evaluates_sym_iff s env g _).mpr he.symm, fun n => he⟩
  · rintro ⟨m, g1, h⟩
    rw [Evaluates_sym_iff] at h
    rw [← Env.lookup_eq_none_iff]
    simp only [EvalVar] at h
    cases hl : Env.lookup env g s with
    | none => rfl
    | some v => simp [hl] at h
  · rw [← Env.lookup_eq_none_iff] at hnone
    refine ⟨"Unbound variable: " ++ s, g, (Evaluates_sym_iff s env g _).mpr ?_⟩
    simp only [EvalVar, hnone]
  · rw [Evaluates_sym_iff] at h
    simp only [EvalVar] at h
    cases hl : Env.lookup env g s with
    | none =>
      simp only [hl, Prod.mk.injEq, Outcome.error.injEq] at h
      refine ⟨h.1, h.2, ?_⟩
      rw [h.1]
      exact containsText_append _ _
    | some v => simp [hl] at h
  · rw [← Env.lookup_eq_none_iff] at hnone
    refine (Evaluates_sym_iff s env g _).mpr ?_
    simp only [EvalVar, hnone]
    rw [hraw]
    rfl
  · with_unfolding_all rfl
  · with_unfolding_all rfl

/-- C21, at the symbol `X` in a call frame that does not bind it, under a
global frame that binds it to 1: the value is 1. -/
theorem C21_witness :
    Evaluates (.sym "X") [[("Y", .num 2)]] [("X", .num (1 : ℚ))]
      (.ok (.num 1), [("X", .num 1)]) :=
  ((C21_symbol_lookup "X" [[("Y", .num 2)]] [("X", .num (1 : ℚ))]).2.1
    [[("Y", .num 2)]] [("X", .num 1)] [] (.num 1) rfl (by decide) (by decide)).1

/-- C24: a list `(f a1 ... an)` whose head is no keyword is evaluated as an
application: first `f`, then `a1`, ..., `an` from left to right, every one from
the global frame that the one before has left, and then the value of `f` is
applied to the values.  When `f` fails the arguments are not evaluated; when
an argument fails the ones after it are not evaluated and nothing is applied;
the error and the global frame are those of the leftmost failure.  After
`(+ (SET X 1) (SET X 2))` the global `X` is 2. -/
theorem C24_application_order (f : Expr F) (forms : List (Expr F)) (env : List (Table F))
    (g : Table F) (hf : HeadNotKeyword f) :
    (∀ ev : Evaluator F, EvalList ev (Expr.list (f :: forms)) env g =
      Result.bind (ev f env g) fun fn g1 =>
        Result.bind (EvalArgs ev (Expr.list forms) env g1) fun args g2 =>
          Apply ev fn args env g2) ∧
    (∀ m g1, Evaluates f env g (.error m, g1) →
      Evaluates (Expr.list (f :: forms)) env g (.error m, g1)) ∧
    (∀ fv g1, Evaluates f env g (.ok fv, g1) →
      (∀ (pre post vs : List (Expr F)) (a : Expr F) (gk g2 : Table F) (m : String),
        forms = pre ++ a :: post → ArgValues pre env g1 vs gk →
        Evaluates a env gk (.error m, g2) →
        Evaluates (Expr.list (f :: forms)) env g (.error m, g2)) ∧
      (∀ (vs : List (Expr F)) (g2 : Table F), ArgValues forms env g1 vs g2 →
        ∀ r, Evaluates (Expr.list (f :: forms)) env g r ↔ Applies fv vs env g2 r)) ∧
    (∀ n, Process (n + 3) "(+ (SET X 1) (SET X 2))" (InitGlobalEnv : Table ℚ) =
      ⟨["3"], .ok (), Env.define InitGlobalEnv "X" (.num 2)⟩) ∧
    (∀ n, Process (n + 3) "(+ (SET X 1) (CAR 1) (SET X 2) (CDR 2))" (InitGlobalEnv : Table ℚ) =
      ⟨[], .error "Not a pair: 1", Env.define InitGlobalEnv "X" (.num 1)⟩) := by
  refine ⟨fun ev => EvalList_head_form ev hf forms env g, fun m g1 h => ?_,
    fun fv g1 h => ⟨fun pre post vs a gk g2 m hforms hpre ha => ?_, fun vs g2 hargs r => ?_⟩,
    fun n => ?_, fun n => ?_⟩
  · obtain ⟨N, hN⟩ := h.eventually
    refine Evaluates.of_EvalList N (by simp) ?_
    rw [EvalList_head_form _ hf, hN N le_rfl, Result.bind_error]
  · obtain ⟨N1, hN1⟩ := h.eventually
    obtain ⟨N2, hN2⟩ := EvalArgs_first_failure hpre ha post
    refine Evaluates.of_EvalList (max N1 N2) (by simp) ?_
    rw [EvalList_head_form _ hf, hN1 _ (by omega), Result.bind_ok, hforms,
      hN2 _ (by omega), Result.bind_error]
  · obtain ⟨N1, hN1⟩ := h.eventually
    obtain ⟨N2, hN2⟩ := EvalArgs_of_ArgValues hargs
    have key : ∀ n, max N1 N2 ≤ n →
        EvalList (Evaluate n) (Expr.list (f :: forms)) env g =
          Apply (Evaluate n) fv vs env g2 := by
      intro n hn
      rw [EvalList_head_form _ hf, hN1 n (by omega), Result.bind_ok, hN2 n (by omega),
        Result.bind_ok]
    constructor
    · intro hr
      obtain ⟨N3, hN3⟩ := Evaluates.EvalList_eventually hr
      exact ⟨hr.1, max (max N1 N2) N3,
        (key _ (Nat.le_max_left _ _)).symm.trans (hN3 _ (Nat.le_max_right _ _))⟩
    · intro hr
      obtain ⟨N3, hN3⟩ := hr.eventually_applies
      exact Evaluates.of_EvalList (max (max N1 N2) N3) hr.1
        ((key _ (Nat.le_max_left _ _)).trans (hN3 _ (Nat.le_max_right _ _)))
  · with_unfolding_all rfl
  · with_unfolding_all rfl

/-- C24, at `((CAR 1) (SET X 2))` from the empty global frame: the head fails,
and `X` is not bound. -/
theorem C24_witness :
    Evaluates (Expr.list [Expr.list [.sym "CAR", .num (1 : ℚ)],
        Expr.list [.sym "SET", .sym "X", .num 2]]) []
      [("CAR", .prim .PrimCar "<primitive:CAR>")]
      (.error "Not a pair: 1", [("CAR", .prim .PrimCar "<primitive:CAR>")]) :=
  (C24_application_order (Expr.list [.sym "CAR", .num (1 : ℚ)])
    [Expr.list [.sym "SET", .sym "X", .num 2]] []
    [("CAR", .prim .PrimCar "<primitive:CAR>")]
    (fun k _ => by simp [Expr.list])).2.1 "Not a pair: 1" _
    ⟨by simp, 2, by with_unfolding_all rfl⟩

/-- C23, as amended: a begin-paren token right before an end-paren token is
not read as a list of no expressions.  `ParsePair` reads an expression first,
so `ParseExpr` fails there with `Unexpected kind: ` followed by the text of
the end-paren, and so does `Parse` on an input that begins so.  That is what
happens for the text `( )`, with a blank between the parentheses; only the
text `()`, for which the tokenizer makes the single empty-list token, gives
`kNil`. -/
theorem C23_begin_end_rejected (tb te : LispToken) (rest : List LispToken)
    (htb : tb.kind = .BeginParenthesis) (hte : te.kind = .EndParenthesis) :
    (∀ n, (ParseExpr (n + 3) (tb :: te :: rest) : Outcome (Expr F × List LispToken)) =
      .error ("Unexpected kind: " ++ te.value)) ∧
    (Parse (tb :: te :: rest) : Outcome (List (Expr F))) =
      .error ("Unexpected kind: " ++ te.value) ∧
    GenerateTokens "( )" = .ok [⟨.BeginParenthesis, "("⟩, ⟨.EndParenthesis, ")"⟩] ∧
    GenerateTokens "()" = .ok [⟨.Nil, ""⟩] ∧
    (Parse [⟨.Nil, ""⟩] : Outcome (List (Expr F))) = .ok [.nil] ∧
    (∀ n, Process n "( )" (InitGlobalEnv : Table ℚ) =
      ⟨[], .error "Unexpected kind: )", InitGlobalEnv⟩) ∧
    (∀ n, Process (n + 1) "()" (InitGlobalEnv : Table ℚ) = ⟨["()"], .ok (), InitGlobalEnv⟩) := by
  refine ⟨ParseExpr_begin_end tb te rest htb hte, ?_, by decide, by decide, rfl,
    fun n => ?_, fun n => ?_⟩
  · have h := @ParseExpr_begin_end F _ tb te rest htb hte (2 * rest.length + 3)
    simp only [Parse, List.length_cons, Parse.loop]
    have e : 2 * (rest.length + 1 + 1) + 2 = 2 * rest.length + 3 + 3 := by omega
    rw [e, h]
  · with_unfolding_all rfl
  · with_unfolding_all rfl

/-- C23, at the tokens of `( )`: `Parse` fails. -/
theorem C23_witness :
    (Parse [⟨.BeginParenthesis, "("⟩, ⟨.EndParenthesis, ")"⟩] : Outcome (List (Expr ℚ))) =
      .error "Unexpected kind: )" :=
  (C23_begin_end_rejected (F := ℚ) ⟨.BeginParenthesis, "("⟩ ⟨.EndParenthesis, ")"⟩ [] rfl
    rfl).2.1

/-- C23, the claim as written fails: the tokens of `( )` are a begin-paren and
an end-paren, and `Parse` does not return `kNil` for them but fails, while the
text `()` is read as `kNil`. -/
theorem C23_counterexample :
    GenerateTokens "( )" = .ok [⟨.BeginParenthesis, "("⟩, ⟨.EndParenthesis, ")"⟩] ∧
    (Parse [⟨.BeginParenthesis, "("⟩, ⟨.EndParenthesis, ")"⟩] : Outcome (List (Expr ℚ))) ≠
      .ok [.nil] ∧
    (Parse [⟨.BeginParenthesis, "("⟩, ⟨.EndParenthesis, ")"⟩] : Outcome (List (Expr ℚ))) =
      .error "Unexpected kind: )" ∧
    (∀ n, (ParseExpr n [⟨.BeginParenthesis, "("⟩, ⟨.EndParenthesis, ")"⟩] :
      Outcome (Expr ℚ × List LispToken)) ≠ .ok (.nil, [])) ∧
    (match GenerateTokens "()" with
      | .ok ts => (Parse ts : Outcome (List (Expr ℚ)))
      | .error m => .error m) = .ok [.nil] := by
  refine ⟨by decide, by decide, by decide, fun n => ?_, by decide⟩
  rcases n with _ | _ | _ | n
  · simp [ParseExpr]
  · simp [ParseExpr, ParsePair]
  · simp [ParseExpr, ParsePair]
  · simp [ParseExpr, ParsePair]

/-- C25: `GenerateTokens` fails exactly on the texts with an odd number of
double quotes, and then with `Unmatched string quote.`; on every other text it
returns the list of tokens, in which every number, true-literal and symbol
token has a text that is not empty. -/
theorem C25_tokenizer_failures (s : String) :
    ((∃ m, GenerateTokens s = .error m) ↔ s.data.count dquote % 2 = 1) ∧
    (∀ m, GenerateTokens s = .error m → m = "Unmatched string quote.") ∧
    (s.data.count dquote % 2 = 0 → ∃ ts, GenerateTokens s = .ok ts) ∧
    (∀ ts, GenerateTokens s = .ok ts → PayloadFilled ts) ∧
    GenerateTokens (String.mk [dquote, 'a', dquote, ' ', dquote, 'b']) =
      .error "Unmatched string quote." ∧
    GenerateTokens (String.mk ['(', dquote, 'a', ')', dquote, ' ', 'x', ')']) =
      .ok [⟨.BeginParenthesis, "("⟩, ⟨.String, "a)"⟩, ⟨.Symbol, "x"⟩,
        ⟨.EndParenthesis, ")"⟩] := by
  have key := GenerateTokens_loop_quotes s.data.length s.data le_rfl
  have hpar : s.data.count dquote % 2 = 1 ∨ s.data.count dquote % 2 = 0 := by omega
  have hG : GenerateTokens s = GenerateTokens.loop s.data.length s.data := rfl
  refine ⟨⟨?_, fun h => ⟨_, key.1 h⟩⟩, fun m hm => ?_, fun h => ?_, fun ts hts => ?_,
    by decide, by decide⟩
  · rintro ⟨m, hm⟩
    rcases hpar with h | h
    · exact h
    · obtain ⟨ts, hts, _⟩ := key.2 h
      rw [hG, hts] at hm
      exact Except.noConfusion hm
  · rcases hpar with h | h
    · rw [hG, key.1 h] at hm
      exact (Except.error.inj hm).symm
    · obtain ⟨ts, hts, _⟩ := key.2 h
      rw [hG, hts] at hm
      exact Except.noConfusion hm
  · obtain ⟨ts, hts, _⟩ := key.2 h
    exact ⟨ts, hts⟩
  · rcases hpar with h | h
    · rw [hG, key.1 h] at hts
      exact Except.noConfusion hts
    · obtain ⟨ts2, hts2, hp⟩ := key.2 h
      rw [hG, hts2] at hts
      rw [← Except.ok.inj hts]
      exact hp

/-- C25, at the text `ab 1`, which has no double quote: the tokens have texts
that are not empty. -/
theorem C25_witness : PayloadFilled [⟨.Symbol, "ab"⟩, ⟨.Num, "1"⟩] :=
  (C25_tokenizer_failures "ab 1").2.2.2.1 _ (by decide)

/-- C26: on the tokens on which `Parse` succeeds the parentheses are balanced:
there are as many begin-parens as end-parens, and in no prefix do the
end-parens outnumber the begin-parens.  A successful call of `ParseExpr` takes
a run of one or more tokens off the front and leaves the rest, and the tokens
are the runs of the expressions that `Parse` returns, in order, each a
complete expression: every token is taken once. -/
theorem C26_balanced_and_consumed (tokens : List LispToken) (es : List (Expr F))
    (h : Parse tokens = .ok es) :
    opens tokens = closes tokens ∧
    (∀ p : List LispToken, p <+: tokens → closes p ≤ opens p) ∧
    (∃ segs : List (List LispToken), tokens = segs.flatten ∧
      List.Forall₂ CompleteExpr segs es ∧ ∀ seg ∈ segs, seg ≠ []) ∧
    (∀ (n : Nat) (ts : List LispToken) (e : Expr F) (r : List LispToken),
      ParseExpr n ts = .ok (e, r) →
      ∃ c, c ≠ [] ∧ ts = c ++ r ∧ r.length < ts.length ∧ ParseExpr n c = .ok (e, [])) := by
  obtain ⟨⟨segs, hsegs, hall⟩, hd⟩ := Parse_loop_consumed _ _ tokens es h
  refine ⟨Parse_loop_balance _ _ tokens es h, fun p hp => ?_, ⟨segs, hsegs, hall, ?_⟩,
    fun n ts e r hn => ?_⟩
  · rw [List.prefix_iff_eq_take.mp hp]
    exact hd _
  · exact CompleteExpr_segs_ne_nil hall
  · obtain ⟨c, hc, hp, _⟩ := (@Parse_consumed F _ n).1 ts e r hn
    have hne : c ≠ [] := fun e0 => by
      rw [e0] at hp
      exact ParseExpr_ok_ne_nil hp
    refine ⟨c, hne, hc, ?_, hp⟩
    rw [hc, List.length_append]
    have : 0 < c.length := List.length_pos.mpr hne
    omega

/-- C26, at the tokens of `(a)`: one begin-paren and one end-paren. -/
theorem C26_witness :
    opens [⟨.BeginParenthesis, "("⟩, ⟨.Symbol, "a"⟩, ⟨.EndParenthesis, ")"⟩] =
      closes [⟨.BeginParenthesis, "("⟩, ⟨.Symbol, "a"⟩, ⟨.EndParenthesis, ")"⟩] :=
  (C26_balanced_and_consumed (F := ℚ)
    [⟨.BeginParenthesis, "("⟩, ⟨.Symbol, "a"⟩, ⟨.EndParenthesis, ")"⟩]
    [Expr.list [.sym "A"]] rfl).1

/-- C27: printing and then reading is the identity on the expressions without
numbers that the tokenizer and the parser make.  When `e` is one of the
expressions that `Parse` returns for the tokens of a text and no `NumExpr` is
inside it, the tokenizer succeeds on the printed text of `e`, and `Parse`
returns for its tokens exactly one expression, `e` itself. -/
theorem C27_print_read_roundtrip (input : String) (tokens : List LispToken)
    (es : List (Expr F)) (e : Expr F) (htok : GenerateTokens input = .ok tokens)
    (hparse : Parse tokens = .ok es) (he : e ∈ es) (hnum : e.noNum = true) :
    (∃ ts, GenerateTokens e.ToString = .ok ts ∧
      (Parse ts : Outcome (List (Expr F))) = .ok [e]) ∧
    GenerateTokens e.ToString = .ok e.tokens ∧
    (Parse e.tokens : Outcome (List (Expr F))) = .ok [e] ∧
    e.Readable := by
  have hft : ∀ t ∈ tokens, t.FromText := GenerateTokens_loop_fromText _ _ tokens htok
  have hr : e.Readable := Parse_loop_readable _ _ tokens es hft hparse e he hnum
  obtain ⟨h1, h2⟩ := Readable_roundtrip hr
  exact ⟨⟨e.tokens, h1, h2⟩, h1, h2, hr⟩

/-- C27, at the text `(a "b c" () t (d))`: the expression read prints as
`(A "b c" () T (D))`, and that text is read as the same expression. -/
theorem C27_witness :
    ∃ ts, GenerateTokens (Expr.ToString (Expr.list [.sym "A", .str "b c", .nil, .tru,
        Expr.list [.sym "D"]] : Expr ℚ)) = .ok ts ∧
      (Parse ts : Outcome (List (Expr ℚ))) =
        .ok [Expr.list [.sym "A", .str "b c", .nil, .tru, Expr.list [.sym "D"]]] :=
  (C27_print_read_roundtrip
    (String.mk ['(', 'a', ' ', dquote, 'b', ' ', 'c', dquote, ' ', '(', ')', ' ', 't', ' ',
      '(', 'd', ')', ')'])
    [⟨.BeginParenthesis, "("⟩, ⟨.Symbol, "a"⟩, ⟨.String, "b c"⟩, ⟨.Nil, ""⟩, ⟨.True, "t"⟩,
      ⟨.BeginParenthesis, "("⟩, ⟨.Symbol, "d"⟩, ⟨.EndParenthesis, ")"⟩,
      ⟨.EndParenthesis, ")"⟩]
    [Expr.list [.sym "A", .str "b c", .nil, .tru, Expr.list [.sym "D"]]]
    (Expr.list [.sym "A", .str "b c", .nil, .tru, Expr.list [.sym "D"]] : Expr ℚ)
    (by decide) (by with_unfolding_all rfl) (by simp) (by rfl)).1

/-- C3: `Apply` on a `FunExpr` binds the parameters and evaluates the body
exactly when the number of arguments is the number of parameters.  Then the
result is that of the body in a new frame in front of the current
environment, in which every parameter is bound to the argument at its place
(at its last place, when it occurs more than once) and nothing else is bound,
so that a body that is a parameter has the argument as its value.  Otherwise
`Apply` fails, whatever the evaluation of the body would do and with the
global frame unchanged, with a message that starts with the name of the
function (`<procedure>` when it has none) and gives the two counts.  A function
of two parameters called with one argument fails with `given 1 arguments
instead of 2`. -/
theorem C3_apply_arity (params : List String) (body : Expr F) (name : Option String)
    (args : List (Expr F)) (env : List (Table F)) (g : Table F) :
    (args.length = params.length →
      (∀ ev : Evaluator F, Apply ev (.fn params body name) args env g =
        ev body (bindParams params args [] :: env) g) ∧
      (∀ (i : Nat) (p : String) (a : Expr F), params[i]? = some p → args[i]? = some a →
        (∀ j, i < j → params[j]? ≠ some p) →
        Table.find (bindParams params args []) p = some a ∧
        Env.lookup (bindParams params args [] :: env) g p = some a ∧
        ∀ n, Apply (Evaluate (n + 1)) (.fn params (.sym p) name) args env g = (.ok a, g)) ∧
      (params.Nodup → ∀ (i : Nat) (p : String) (a : Expr F), params[i]? = some p →
        args[i]? = some a → Table.find (bindParams params args []) p = some a) ∧
      (∀ p : String, p ∉ params →
        Table.find (bindParams params args []) p = none ∧
        Env.lookup (bindParams params args [] :: env) g p = Env.lookup env g p)) ∧
    (args.length ≠ params.length →
      ∀ ev : Evaluator F, Apply ev (.fn params body name) args env g =
        (.error (name.getD "<procedure>" ++ ": given " ++ toString args.length
          ++ " arguments instead of " ++ toString params.length ++ "."), g)) ∧
    (args.length = 1 → params.length = 2 →
      ∀ ev : Evaluator F, Apply ev (.fn params body name) args env g =
        (.error (name.getD "<procedure>" ++ ": given 1 arguments instead of 2."), g)) ∧
    (∀ n, Process (n + 3) "(DEFINE PAIR (X Y) (CONS X Y)) (PAIR 1)" (InitGlobalEnv : Table ℚ) =
      ⟨["()"], .error "PAIR: given 1 arguments instead of 2.",
        Env.define InitGlobalEnv "PAIR"
          (.fn ["X", "Y"] (Expr.list [.sym "CONS", .sym "X", .sym "Y"]) (some "PAIR"))⟩) ∧
    (∀ n, Process (n + 4) "(DEFINE PAIR (X Y) (CONS X Y)) (PAIR 1 2)"
        (InitGlobalEnv : Table ℚ) =
      ⟨["()", "(1 . 2)"], .ok (),
        Env.define InitGlobalEnv "PAIR"
          (.fn ["X", "Y"] (Expr.list [.sym "CONS", .sym "X", .sym "Y"]) (some "PAIR"))⟩) ∧
    (∀ n, Process (n + 3) "((LAMBDA (X Y) Y) 1 2)" (InitGlobalEnv : Table ℚ) =
      ⟨["2"], .ok (), InitGlobalEnv⟩) ∧
    (∀ n, Process (n + 3) "((LAMBDA (X Y) X) 1)" (InitGlobalEnv : Table ℚ) =
      ⟨[], .error "<procedure>: given 1 arguments instead of 2.", InitGlobalEnv⟩) := by
  have hne : args.length ≠ params.length →
      ∀ ev : Evaluator F, Apply ev (.fn params body name) args env g =
        (.error (name.getD "<procedure>" ++ ": given " ++ toString args.length
          ++ " arguments instead of " ++ toString params.length ++ "."), g) := by
    intro h ev
    simp only [Apply, if_pos h]
    cases name <;> rfl
  have heq : ∀ (b : Expr F), args.length = params.length →
      ∀ ev : Evaluator F, Apply ev (.fn params b name) args env g =
        ev b (bindParams params args [] :: env) g := by
    intro b h ev
    simp only [Apply]
    rw [if_neg (not_not.mpr h)]
  refine ⟨fun h => ⟨heq body h, fun i p a hp ha hlast => ?_, fun hnd i p a hp ha => ?_,
    fun p hp => ?_⟩, hne, fun ha hp ev => ?_, fun n => ?_, fun n => ?_, fun n => ?_,
    fun n => ?_⟩
  · have hfind := find_bindParams_last params args [] i p a hp ha hlast
    have hlook : Env.lookup (bindParams params args [] :: env) g p = some a := by
      simp only [Env.lookup, hfind]
    refine ⟨hfind, hlook, fun n => ?_⟩
    rw [heq (.sym p) h]
    simp only [Evaluate, Evaluate.body, EvalVar, hlook]
  · exact find_bindParams_last params args [] i p a hp ha
      (fun j hj => getElem?_ne_of_nodup hnd hp hj)
  · have hfind : Table.find (bindParams params args []) p = none := by
      rw [find_bindParams_of_absent params args [] p (getElem?_ne_of_not_mem hp)]
      rfl
    exact ⟨hfind, by simp only [Env.lookup, hfind]⟩
  · rw [hne (by omega) ev, ha, hp]
    simp only [String.append_assoc]
    rfl
  · with_unfolding_all rfl
  · with_unfolding_all rfl
  · with_unfolding_all rfl
  · with_unfolding_all rfl

/-- C3, at a function of the two parameters `X` and `Y` called with 1 and 2:
`Y` is bound to 2, and the body `Y` has the value 2. -/
theorem C3_witness :
    Table.find (bindParams ["X", "Y"] [(.num 1 : Expr ℚ), .num 2] []) "Y" = some (.num 2) ∧
    Apply (Evaluate 1) (.fn ["X", "Y"] (.sym "Y") (some "SECOND")) [(.num 1 : Expr ℚ), .num 2]
      [] [] = (.ok (.num 2), []) :=
  have h := ((C3_apply_arity ["X", "Y"] (.sym "X") (some "SECOND")
    [(.num 1 : Expr ℚ), .num 2] [] []).1 rfl).2.1 1 "Y" (.num 2) rfl rfl
    (fun j hj => by
      rcases j with _ | _ | j
      · omega
      · omega
      · simp)
  ⟨h.1, h.2.2 0⟩

/-- C8: in a well-formed `(COND t1 r1 ... tn rn)` the tests are evaluated in
order, each from the global frame the one before has left; at the first test
whose value is not Nil the form has exactly the results of the paired result
expression, whatever the later clauses are, and a test that fails ends the
evaluation with its error.  When every test has the value Nil the loop comes
to its exit with `p` equal to `kNil` cast to a pair, where the behaviour of the
source is undefined: there the evaluation has no result, and the value Nil of
the specification is not what the source gives.  `(COND () 1 T 2 3 4)` prints
2; `(COND () 1)` has no result. -/
theorem C8_cond_first_match (pre post : List (Expr F × Expr F)) (t r : Expr F)
    (env : List (Table F)) (g : Table F) :
    (∀ (ev : Evaluator F) cl, cl ≠ [] →
      EvalList ev (condForm cl) env g = EvalCond ev (Expr.clauses cl) env g) ∧
    (∀ gk v g2 res, AllTestsNil pre env g gk → Evaluates t env gk (.ok v, g2) → v ≠ .nil →
      (Evaluates (condForm (pre ++ (t, r) :: post)) env g res ↔ Evaluates r env g2 res)) ∧
    (∀ gk m g2, AllTestsNil pre env g gk → Evaluates t env gk (.error m, g2) →
      Evaluates (condForm (pre ++ (t, r) :: post)) env g (.error m, g2)) ∧
    (∀ cl g2, cl ≠ [] → AllTestsNil cl env g g2 →
      (∃ N, ∀ n, N ≤ n →
        EvalList (Evaluate n) (condForm cl) env g = EvalCond (Evaluate n) .nil env g2) ∧
      (∀ (ev : Evaluator F), EvalCond ev .nil env g2 = (.outOfFuel, g2)) ∧
      ∀ res, ¬ Evaluates (condForm cl) env g res) ∧
    (∀ n, Process (n + 2) "(COND () 1 T 2 3 4)" (InitGlobalEnv : Table ℚ) =
      ⟨["2"], .ok (), InitGlobalEnv⟩) ∧
    (∀ n, Process n "(COND () 1)" (InitGlobalEnv : Table ℚ) =
      ⟨[], .outOfFuel, InitGlobalEnv⟩) ∧
    (∀ n, Process n "(COND () 1 () 2)" (InitGlobalEnv : Table ℚ) =
      ⟨[], .outOfFuel, InitGlobalEnv⟩) := by
  refine ⟨fun ev cl hcl => EvalList_condForm ev cl hcl env g,
    fun gk v g2 res hpre ht hv => Evaluates_condForm_iff hpre ht hv res,
    fun gk m g2 hpre ht => Evaluates_condForm_test_error hpre ht,
    fun cl g2 hcl h => ⟨(Evaluates_condForm_none hcl h).1, fun _ => rfl,
      (Evaluates_condForm_none hcl h).2⟩, fun n => ?_, fun n => ?_, fun n => ?_⟩
  · with_unfolding_all rfl
  · rcases n with _ | _ | n <;> with_unfolding_all rfl
  · rcases n with _ | _ | n <;> with_unfolding_all rfl

/-- C8, at the form `(COND () 1 T 2 3 4)`: the first test is Nil, the second is
not, and the value is 2. -/
theorem C8_witness :
    Evaluates (condForm [((.nil : Expr ℚ), .num 1), (.tru, .num 2), (.num 3, .num 4)]) [] []
      (.ok (.num 2), []) :=
  ((C8_cond_first_match [((.nil : Expr ℚ), .num 1)] [(.num 3, .num 4)] .tru (.num 2) [] []).2.1
    [] .tru [] _ ⟨[], ⟨by simp, 1, rfl⟩, rfl⟩ ⟨by simp, 1, rfl⟩ (by simp)).2 ⟨by simp, 1, rfl⟩

/-- C4, as amended: the failures of a primitive, each with its cause.  The
arguments of `+`, `*` and `-` are cast to numbers from the left, and so are
the two arguments of `=`, `<` and `>` once their count has been checked; the
call fails at the first argument that is not a number, with the message
`Not a number: ` followed by the text of that argument.  `/` does the same, but
stops earlier at a divisor that is zero, with `/: Division by zero.`.  `CAR` and
`CDR` with one argument that is not a pair fail with `Not a pair: ` followed by
the text of the argument.  The message of a type failure is exactly that, the
same whichever primitive has raised it: `(CAR (QUOTE CAR))` fails with
`Not a pair: CAR`.  A primitive that checks the number of its arguments
fails on another number with its name followed by
`: Wrong number of arguments.`; `-` and `/` without arguments fail with their
name followed by `: Expects at least one argument.`.  A primitive fails in no
other case and with no other message. -/
theorem C4_primitive_failures (args : List (Expr F)) (m : String) :
    (∀ fn ∈ [PrimFun.PrimPlus, .PrimMul],
      (fn.call args = .error m ↔
        ∃ a, args.find? (fun e => decide (e.Type ≠ .Num)) = some a ∧
          m = "Not a number: " ++ a.ToString)) ∧
    (PrimFun.call .PrimMinus args = .error m ↔
      (args = [] ∧ m = PrimFun.name .PrimMinus ++ ": Expects at least one argument.") ∨
      ∃ a, args.find? (fun e => decide (e.Type ≠ .Num)) = some a ∧
        m = "Not a number: " ++ a.ToString) ∧
    (∀ fn ∈ [PrimFun.PrimIsEqNum, .PrimIsLtNum, .PrimIsGtNum],
      (fn.call args = .error m ↔
        (args.length ≠ 2 ∧ m = fn.name ++ ": Wrong number of arguments.") ∨
        (args.length = 2 ∧ ∃ a, args.find? (fun e => decide (e.Type ≠ .Num)) = some a ∧
          m = "Not a number: " ++ a.ToString))) ∧
    (PrimFun.call .PrimDiv args = .error m ↔
      (args = [] ∧ m = PrimFun.name .PrimDiv ++ ": Expects at least one argument.") ∨
      (∃ e rest, args = e :: rest ∧ e.Type ≠ .Num ∧ m = "Not a number: " ++ e.ToString) ∨
      (∃ x, args = [.num x] ∧ Runtime.eq x Runtime.zero = true ∧
        m = "/: Division by zero.") ∨
      (∃ x rest a, args = .num x :: rest ∧
        rest.find? (fun e => decide (e.Type ≠ .Num) || e.zeroNum) = some a ∧
        ((a.Type ≠ .Num ∧ m = "Not a number: " ++ a.ToString) ∨
          (a.zeroNum = true ∧ m = "/: Division by zero.")))) ∧
    (∀ fn ∈ [PrimFun.PrimCar, .PrimCdr],
      (fn.call args = .error m ↔
        (args.length ≠ 1 ∧ m = fn.name ++ ": Wrong number of arguments.") ∨
        ∃ a, args = [a] ∧ a.Type ≠ .Pair ∧ m = "Not a pair: " ++ a.ToString)) ∧
    (∀ fn ∈ [PrimFun.PrimCons, .PrimIsAnd, .PrimIsOr, .PrimIsEq],
      (fn.call args = .error m ↔
        args.length ≠ 2 ∧ m = fn.name ++ ": Wrong number of arguments.")) ∧
    (∀ fn ∈ [PrimFun.PrimIsNum, .PrimIsSym, .PrimIsList, .PrimIsNil],
      (fn.call args = .error m ↔
        args.length ≠ 1 ∧ m = fn.name ++ ": Wrong number of arguments.")) ∧
    (∀ fn : PrimFun, (fn.name, fn) ∈ primitives ∧
      ∀ s, containsText (fn.name ++ s) fn.name = true) ∧
    (∀ a : Expr F, containsText ("Not a number: " ++ a.ToString) a.ToString = true ∧
      containsText ("Not a pair: " ++ a.ToString) a.ToString = true) ∧
    Process 3 "(* 2 T 3)" (InitGlobalEnv : Table ℚ) =
      ⟨[], .error "Not a number: T", InitGlobalEnv⟩ ∧
    Process 3 "(- 2 () T)" (InitGlobalEnv : Table ℚ) =
      ⟨[], .error "Not a number: ()", InitGlobalEnv⟩ ∧
    Process 3 "(/ 8 2 (QUOTE A) 0)" (InitGlobalEnv : Table ℚ) =
      ⟨[], .error "Not a number: A", InitGlobalEnv⟩ ∧
    Process 3 "(/ 8 0 (QUOTE A))" (InitGlobalEnv : Table ℚ) =
      ⟨[], .error "/: Division by zero.", InitGlobalEnv⟩ ∧
    Process 3 "(< 1 (QUOTE (2)))" (InitGlobalEnv : Table ℚ) =
      ⟨[], .error "Not a number: (2)", InitGlobalEnv⟩ ∧
    Process 3 "(= T)" (InitGlobalEnv : Table ℚ) =
      ⟨[], .error "=: Wrong number of arguments.", InitGlobalEnv⟩ ∧
    Process 3 "(> 2 1)" (InitGlobalEnv : Table ℚ) = ⟨["T"], .ok (), InitGlobalEnv⟩ ∧
    Process 3 "(CDR 5)" (InitGlobalEnv : Table ℚ) =
      ⟨[], .error "Not a pair: 5", InitGlobalEnv⟩ ∧
    Process 3 "(CAR (QUOTE CAR))" (InitGlobalEnv : Table ℚ) =
      ⟨[], .error "Not a pair: CAR", InitGlobalEnv⟩ ∧
    Process 3 "(CAR 1 2)" (InitGlobalEnv : Table ℚ) =
      ⟨[], .error "CAR: Wrong number of arguments.", InitGlobalEnv⟩ ∧
    Process 3 "(-)" (InitGlobalEnv : Table ℚ) =
      ⟨[], .error "-: Expects at least one argument.", InitGlobalEnv⟩ := by
  refine ⟨?_, ?_, ?_, ?_, ?_, ?_, ?_, ?_, ?_, ?_, ?_, ?_, ?_, ?_, ?_, ?_, ?_, ?_, ?_, ?_⟩
  · intro fn hfn
    simp only [List.mem_cons, List.mem_singleton, List.not_mem_nil, or_false] at hfn
    rcases hfn with rfl | rfl
    · exact PrimPlus_error_iff args m
    · exact PrimMul_error_iff args m
  · exact PrimMinus_error_iff args m
  · intro fn hfn
    simp only [List.mem_cons, List.mem_singleton, List.not_mem_nil, or_false] at hfn
    have key : ∀ (name : String) (cmp : F → F → Bool),
        ((match AssertArgsNum name args 2 with
          | .error m => .error m
          | .ok _ => numCompare cmp args) = Except.error m ↔
        (args.length ≠ 2 ∧ m = name ++ ": Wrong number of arguments.") ∨
        (args.length = 2 ∧ ∃ a, args.find? (fun e => decide (e.Type ≠ .Num)) = some a ∧
          m = "Not a number: " ++ a.ToString)) := by
      intro name cmp
      refine (AssertArgsNum_then name args 2 (numCompare cmp args) m).trans ?_
      constructor
      · rintro (h | ⟨h1, h2⟩)
        · exact Or.inl h
        · exact Or.inr ⟨h1, (numCompare_error_iff cmp args m h1).1 h2⟩
      · rintro (h | ⟨h1, h2⟩)
        · exact Or.inl h
        · exact Or.inr ⟨h1, (numCompare_error_iff cmp args m h1).2 h2⟩
    rcases hfn with rfl | rfl | rfl
    · exact key "=" _
    · exact key "<" _
    · exact key ">" _
  · exact PrimDiv_error_iff args m
  · intro fn hfn
    simp only [List.mem_cons, List.mem_singleton, List.not_mem_nil, or_false] at hfn
    have key : ∀ (name : String) (sel : Expr F × Expr F → Expr F),
        ((match AssertArgsNum name args 1 with
          | .error m => .error m
          | .ok _ =>
            match PairCast (args.getD 0 .nil) with
            | .ok p => .ok (sel p)
            | .error m => .error m) = Except.error m ↔
        (args.length ≠ 1 ∧ m = name ++ ": Wrong number of arguments.") ∨
        ∃ a, args = [a] ∧ a.Type ≠ .Pair ∧ m = "Not a pair: " ++ a.ToString) := by
      intro name sel
      refine (AssertArgsNum_then name args 1 _ m).trans ?_
      refine or_congr Iff.rfl ?_
      constructor
      · rintro ⟨h1, h2⟩
        match args, h1 with
        | [a], _ =>
          refine ⟨a, rfl, ?_⟩
          cases a <;> simp [PairCast, Expr.Type] at h2 ⊢ <;> exact h2.symm
      · rintro ⟨a, rfl, h1, rfl⟩
        refine ⟨rfl, ?_⟩
        cases a <;> simp [PairCast, Expr.Type] at h1 ⊢
    rcases hfn with rfl | rfl
    · exact key "CAR" _
    · exact key "CDR" _
  · intro fn hfn
    simp only [List.mem_cons, List.mem_singleton, List.not_mem_nil, or_false] at hfn
    have key : ∀ (name : String) (k : Expr F),
        ((match AssertArgsNum name args 2 with
          | .error m => .error m
          | .ok _ => Except.ok k) = Except.error m ↔
        args.length ≠ 2 ∧ m = name ++ ": Wrong number of arguments.") := by
      intro name k
      refine (AssertArgsNum_then name args 2 (Except.ok k) m).trans ?_
      simp
    rcases hfn with rfl | rfl | rfl | rfl
    · exact key "CONS" _
    · show PrimIsAnd args = _ ↔ _
      unfold PrimIsAnd
      split_ifs
      · exact key "AND?" _
      · exact key "AND?" _
    · show PrimIsOr args = _ ↔ _
      unfold PrimIsOr
      split_ifs
      · exact key "OR?" _
      · exact key "OR?" _
    · show PrimIsEq args = _ ↔ _
      unfold PrimIsEq
      simp only []
      split_ifs
      · exact key "EQ?" _
      · exact key "EQ?" _
  · intro fn hfn
    simp only [List.mem_cons, List.mem_singleton, List.not_mem_nil, or_false] at hfn
    have key : ∀ (name : String) (kind : ExprKind),
        (IsType name args kind = Except.error m ↔
        args.length ≠ 1 ∧ m = name ++ ": Wrong number of arguments.") := by
      intro name kind
      unfold IsType
      split_ifs
      · refine (AssertArgsNum_then name args 1 (Except.ok Expr.tru) m).trans ?_
        simp
      · refine (AssertArgsNum_then name args 1 (Except.ok Expr.nil) m).trans ?_
        simp
    rcases hfn with rfl | rfl | rfl | rfl
    · exact key "NUMBER?" _
    · exact key "SYMBOL?" _
    · exact key "LIST?" _
    · exact key "NIL?" _
  · intro fn
    exact ⟨by cases fn <;> decide, fun s => containsText_prefix _ _⟩
  · intro a
    exact ⟨containsText_append _ _, containsText_append _ _⟩
  all_goals with_unfolding_all rfl

/-- C4, at the call `(* 2 T 3)`: the first argument that is not a number is `T`,
and the call fails with `Not a number: T`. -/
theorem C4_witness :
    PrimFun.call .PrimMul [(.num 2 : Expr ℚ), .tru, .num 3] = .error "Not a number: T" :=
  ((C4_primitive_failures [(.num 2 : Expr ℚ), .tru, .num 3] "Not a number: T").1 .PrimMul
    (by simp)).2 ⟨.tru, by simp [List.find?, Expr.Type], by with_unfolding_all rfl⟩

end Claims

end Lisp
